import Mathlib

/-!
# Transparent remote file operations

A shallow embedding of the serde codec (`trfo/serde.c`), of the RPC envelope and of the
descriptor translation of the server (`trfo/server.c`).

Conventions of the embedding.

* A `char *` buffer is a `List Byte`; its length is the size of the allocation.  A `memcpy` that
  leaves the source or the destination allocation is undefined behaviour in C and is the result
  `none` here, so every function that touches memory returns an `Option`.
* A function that mutates a buffer through a pointer returns the new contents of the buffer
  together with its C return value.  An out-parameter that the function overwrites completely
  is returned as a value.
* The data model is LP64: `int`, `u_int32_t` are 4 bytes, `u_int16_t` is 2 bytes, `size_t`,
  `ssize_t`, `off_t` are 8 bytes; the byte order is little-endian (the host-native order of
  both peers).  Signed values use two-complement representation.
* `size_t` values that are lengths or offsets of objects in memory are natural numbers; the
  conversions that truncate (`size_t` to `u_int32_t`, `int` to `u_int32_t`, ...) are explicit
  reductions modulo a power of two.
-/

set_option linter.unusedTactic false
set_option linter.unreachableTactic false

namespace TRFO

/-! ## Bytes and integer representations -/

/-- One `char` of memory. -/
abbrev Byte := Fin 256

/-- The object representation of an unsigned integer: the `w` low-order bytes of `v`,
least significant byte first. -/
def le_bytes : Nat → Nat → List Byte
  | 0, _ => []
  | w + 1, v => Fin.ofNat (v % 256) :: le_bytes w (v / 256)

/-- The unsigned value of a little-endian byte sequence. -/
def le_value : List Byte → Nat
  | [] => 0
  | b :: bs => b.val + 256 * le_value bs

/-- Conversion of a signed integer to `u_int32_t` (reinterpretation of an `int`). -/
def to_u32 (x : Int) : Nat := (x % 2 ^ 32).toNat

/-- Reinterpretation of a `u_int32_t` bit pattern as `int`. -/
def to_i32 (n : Nat) : Int :=
  if n % 2 ^ 32 < 2 ^ 31 then ((n % 2 ^ 32 : Nat) : Int) else ((n % 2 ^ 32 : Nat) : Int) - 2 ^ 32

/-- Conversion of a signed integer to a 64-bit unsigned value (`size_t`, or the bit pattern of
an `off_t` / `ssize_t`). -/
def to_u64 (x : Int) : Nat := (x % 2 ^ 64).toNat

/-- Reinterpretation of a 64-bit pattern as a signed 64-bit integer (`off_t`, `ssize_t`). -/
def to_i64 (n : Nat) : Int :=
  if n % 2 ^ 64 < 2 ^ 63 then ((n % 2 ^ 64 : Nat) : Int) else ((n % 2 ^ 64 : Nat) : Int) - 2 ^ 64

/-- The largest `int`. -/
def INT_MAX : Int := 2147483647

/-- The smallest `int`. -/
def INT_MIN : Int := -2147483648

/-- Result of an `int` addition or subtraction brought back into the range of `int`
(signed overflow, undefined in C, is modelled as two-complement wrap-around). -/
def wrap_int (x : Int) : Int := (x + 2 ^ 31) % 2 ^ 32 - 2 ^ 31

/-- The function `strlen`: index of the first zero byte of the array `s`; `none` when the array
holds no zero byte (the scan would leave the array). -/
def strlen : List Byte → Option Nat
  | [] => none
  | c :: cs => if c = 0 then some 0 else (strlen cs).map (· + 1)

/-- The array `s` is exactly a C string: its last byte is the terminating zero and no earlier
byte is zero. -/
def is_cstring (s : List Byte) : Bool :=
  s.getLast? = some 0 && s.dropLast.all (fun c => c != 0)

/-! ## Offset-based memory primitives (`serde.c`, lines 20-44) -/

/-- The function `mem_write_data`: `memcpy(data + off, val, size); return off + size;`. -/
def mem_write_data (data : List Byte) (off : Nat) (val : List Byte) (size : Nat) :
    Option (List Byte × Nat) :=
  if size ≤ val.length ∧ off + size ≤ data.length then
    some (data.take off ++ val.take size ++ data.drop (off + size), off + size)
  else none

/-- The function `mem_read_data`: `memcpy(out, data + off, size); return off + size;`.
The `size` bytes stored through `out` are returned with the next offset. -/
def mem_read_data (data : List Byte) (off : Nat) (size : Nat) : Option (List Byte × Nat) :=
  if off + size ≤ data.length then some ((data.drop off).take size, off + size) else none

/-- The function `mem_write_int32`; the argument is converted to `u_int32_t`. -/
def mem_write_int32 (data : List Byte) (off : Nat) (val : Nat) : Option (List Byte × Nat) :=
  mem_write_data data off (le_bytes 4 (val % 2 ^ 32)) 4

/-- The function `mem_read_int32`. -/
def mem_read_int32 (data : List Byte) (off : Nat) : Option (Nat × Nat) :=
  (mem_read_data data off 4).map (fun r => (le_value r.1, r.2))

/-- The function `mem_write_int16`; the argument is converted to `u_int16_t`. -/
def mem_write_int16 (data : List Byte) (off : Nat) (val : Nat) : Option (List Byte × Nat) :=
  mem_write_data data off (le_bytes 2 (val % 2 ^ 16)) 2

/-- The function `mem_read_int16`. -/
def mem_read_int16 (data : List Byte) (off : Nat) : Option (Nat × Nat) :=
  (mem_read_data data off 2).map (fun r => (le_value r.1, r.2))

/-! ## Descriptor translation (`server.c`, lines 26, 100-112) -/

/-- The constant `FD_OFFSET`. -/
def FD_OFFSET : Int := 1000

/-- The function `pack_fd`. -/
def pack_fd (fd : Int) : Int :=
  if fd < 0 then fd else wrap_int (fd + FD_OFFSET)

/-- The function `unpack_fd`. -/
def unpack_fd (fd : Int) : Int :=
  if fd < 0 then fd else wrap_int (fd - FD_OFFSET)

/-! ## RPC envelope (`serde.h`, lines 28-38; `serde.c`, lines 80-118) -/

/-- The struct `rpc_frame`; `payload` is the array the pointer refers to. -/
structure rpc_frame where
  opcode : Nat
  payload_size : Nat
  payload : List Byte
deriving DecidableEq, Repr

/-- The struct `rpc_resp`; `data` is the array the pointer refers to. -/
structure rpc_resp where
  err_no : Int
  size : Nat
  data : List Byte
deriving DecidableEq, Repr

/-- The function `read_frame`.  The frame is passed in and handed back: on the `false` path
only `opcode` and `payload_size` are assigned and `payload` keeps what it held. -/
def read_frame (inp : List Byte) (frame : rpc_frame) : Option (Bool × rpc_frame) := do
  let (opcode, off) ← mem_read_int32 inp 0
  let frame := { frame with opcode := opcode }
  let (payload_size, off) ← mem_read_int32 inp off
  let frame := { frame with payload_size := payload_size }
  if payload_size ≤ 0 then
    some (false, frame)
  else do
    let (payload, _) ← mem_read_data inp off payload_size
    some (true, { frame with payload := payload })

/-- The function `marshal_frame`. -/
def marshal_frame (out : List Byte) (frame : rpc_frame) : Option (List Byte × Nat) := do
  let (out, off) ← mem_write_int32 out 0 frame.opcode
  let (out, off) ← mem_write_int32 out off frame.payload_size
  mem_write_data out off frame.payload frame.payload_size

/-- The function `read_resp`; it has no failure path of its own. -/
def read_resp (inp : List Byte) : Option rpc_resp := do
  let (e, off) ← mem_read_data inp 0 4
  let (size, off) ← mem_read_int32 inp off
  let (data, _) ← mem_read_data inp off size
  some { err_no := to_i32 (le_value e), size := size, data := data }

/-- The function `marshal_resp`. -/
def marshal_resp (out : List Byte) (resp : rpc_resp) : Option (List Byte × Nat) := do
  let (out, off) ← mem_write_data out 0 (le_bytes 4 (to_u32 resp.err_no)) 4
  let (out, off) ← mem_write_int32 out off resp.size
  mem_write_data out off resp.data resp.size

/-! ## Per-operation marshallers (`serde.c`, lines 124-265)

Each `*_marshal` returns the new contents of `out` and the number of bytes of the layout; each
`*_unmarshal` returns its C result (always `true`, or the allocated buffer for `write`) with the
values stored through its out-parameters. -/

/-- The function `call_open_marshal`. -/
def call_open_marshal (out : List Byte) (pathname : List Byte) (flags mode : Nat) :
    Option (List Byte × Nat) := do
  let path_len := (← strlen pathname) + 1
  let (out, off) ← mem_write_int32 out 0 flags
  let (out, off) ← mem_write_int16 out off mode
  let (out, off) ← mem_write_int32 out off path_len
  mem_write_data out off pathname path_len

/-- The function `call_open_unmarshal`; the result is `(true, pathname, flags, mode)`. -/
def call_open_unmarshal (inp : List Byte) : Option (Bool × List Byte × Nat × Nat) := do
  let (flags, off) ← mem_read_int32 inp 0
  let (mode, off) ← mem_read_int16 inp off
  let (path_len, off) ← mem_read_int32 inp off
  let (pathname, _) ← mem_read_data inp off path_len
  some (true, pathname, flags, mode)

/-- The function `call_close_marshal`. -/
def call_close_marshal (out : List Byte) (fd : Int) : Option (List Byte × Nat) :=
  mem_write_int32 out 0 (to_u32 fd)

/-- The function `call_close_unmarshal`; the result is `(true, fd)`. -/
def call_close_unmarshal (inp : List Byte) : Option (Bool × Int) := do
  let (fd, _) ← mem_read_int32 inp 0
  some (true, to_i32 fd)

/-- The function `call_write_marshal`. -/
def call_write_marshal (out : List Byte) (fd : Int) (buf : List Byte) (count : Nat) :
    Option (List Byte × Nat) := do
  let (out, off) ← mem_write_int32 out 0 (to_u32 fd)
  let (out, off) ← mem_write_data out off (le_bytes 8 count) 8
  mem_write_data out off buf count

/-- The function `call_write_unmarshal`; the result is `(buf, fd, count)`. -/
def call_write_unmarshal (inp : List Byte) : Option (List Byte × Int × Nat) := do
  let (fd, off) ← mem_read_int32 inp 0
  let (c, off) ← mem_read_data inp off 8
  let count := le_value c
  let (buf, _) ← mem_read_data inp off count
  some (buf, to_i32 fd, count)

/-- The function `call_read_marshal`. -/
def call_read_marshal (out : List Byte) (fd : Int) (count : Nat) : Option (List Byte × Nat) := do
  let (out, off) ← mem_write_int32 out 0 (to_u32 fd)
  mem_write_data out off (le_bytes 8 count) 8

/-- The function `call_read_unmarshal`; the result is `(true, fd, count)`. -/
def call_read_unmarshal (inp : List Byte) : Option (Bool × Int × Nat) := do
  let (fd, off) ← mem_read_int32 inp 0
  let (c, _) ← mem_read_data inp off 8
  some (true, to_i32 fd, le_value c)

/-- The function `call_lseek_marshal`. -/
def call_lseek_marshal (out : List Byte) (fd : Int) (offset : Int) (whence : Int) :
    Option (List Byte × Nat) := do
  let (out, off) ← mem_write_int32 out 0 (to_u32 fd)
  let (out, off) ← mem_write_data out off (le_bytes 8 (to_u64 offset)) 8
  mem_write_data out off (le_bytes 4 (to_u32 whence)) 4

/-- The function `call_lseek_unmarshal`; the result is `(true, fd, offset, whence)`. -/
def call_lseek_unmarshal (inp : List Byte) : Option (Bool × Int × Int × Int) := do
  let (fd, off) ← mem_read_int32 inp 0
  let (o, off) ← mem_read_data inp off 8
  let (w, _) ← mem_read_data inp off 4
  some (true, to_i32 fd, to_i64 (le_value o), to_i32 (le_value w))

/-- The function `call_stat_marshal`. -/
def call_stat_marshal (out : List Byte) (ver : Int) (path : List Byte) :
    Option (List Byte × Nat) := do
  let path_len := (← strlen path) + 1
  let (out, off) ← mem_write_int32 out 0 (to_u32 ver)
  let (out, off) ← mem_write_data out off (le_bytes 8 path_len) 8
  mem_write_data out off path path_len

/-- The function `call_stat_unmarshal`; the result is `(true, ver, path)`. -/
def call_stat_unmarshal (inp : List Byte) : Option (Bool × Int × List Byte) := do
  let (ver, off) ← mem_read_int32 inp 0
  let (l, off) ← mem_read_data inp off 8
  let path_len := le_value l
  let (path, _) ← mem_read_data inp off path_len
  some (true, to_i32 ver, path)

/-- The function `call_unlink_marshal`. -/
def call_unlink_marshal (out : List Byte) (pathname : List Byte) : Option (List Byte × Nat) := do
  let path_len := (← strlen pathname) + 1
  let (out, off) ← mem_write_int32 out 0 path_len
  mem_write_data out off pathname path_len

/-- The function `call_unlink_unmarshal`; the result is `(true, pathname)`. -/
def call_unlink_unmarshal (inp : List Byte) : Option (Bool × List Byte) := do
  let (path_len, off) ← mem_read_int32 inp 0
  let (pathname, _) ← mem_read_data inp off path_len
  some (true, pathname)

/-- The function `call_getdirentries_marshal`. -/
def call_getdirentries_marshal (out : List Byte) (fd : Int) (nbytes : Nat) (basep : Int) :
    Option (List Byte × Nat) := do
  let (out, off) ← mem_write_int32 out 0 (to_u32 fd)
  let (out, off) ← mem_write_data out off (le_bytes 8 (to_u64 basep)) 8
  mem_write_data out off (le_bytes 8 nbytes) 8

/-- The function `call_getdirentries_unmarshal`; the result is `(true, fd, nbytes, basep)`. -/
def call_getdirentries_unmarshal (inp : List Byte) : Option (Bool × Int × Nat × Int) := do
  let (fd, off) ← mem_read_int32 inp 0
  let (b, off) ← mem_read_data inp off 8
  let (n, _) ← mem_read_data inp off 8
  some (true, to_i32 fd, le_value n, to_i64 (le_value b))

/-- The function `call_dirtreenode_marshal`; `path_len` is a `u_int32_t` here. -/
def call_dirtreenode_marshal (out : List Byte) (path : List Byte) : Option (List Byte × Nat) := do
  let path_len := ((← strlen path) + 1) % 2 ^ 32
  let (out, off) ← mem_write_int32 out 0 path_len
  mem_write_data out off path path_len

/-- The function `call_dirtreenode_unmarshal`; the result is `(true, path)`. -/
def call_dirtreenode_unmarshal (inp : List Byte) : Option (Bool × List Byte) := do
  let (path_len, off) ← mem_read_int32 inp 0
  let (path, _) ← mem_read_data inp off path_len
  some (true, path)

/-! ## Directory trees (`serde.c`, lines 46-74) -/

/-- Modelled from the spec: the header `include/dirtree.h` that declares `struct dirtreenode` is
absent; the node is the recursive value of the data model, a name (the `char` array that
`name` points to), the count `num_subdirs` (u32) and the array of children `subdirs`. -/
inductive dirtreenode where
  | mk (name : List Byte) (num_subdirs : Nat) (subdirs : List dirtreenode)

mutual
/-- The function `mem_write_tree`.  The local `num_subdirs` is an `int`; the loop compares the
`size_t` index with it, so the loop bound is its conversion to `size_t`. -/
def mem_write_tree : dirtreenode → List Byte → Nat → Option (List Byte × Nat)
  | .mk name nsub subdirs, buf, off => do
    let name_len := (← strlen name) + 1
    let num_subdirs := to_i32 nsub
    let (buf, off) ← mem_write_int32 buf off (to_u32 num_subdirs)
    let (buf, off) ← mem_write_data buf off (le_bytes 8 name_len) 8
    let (buf, off) ← mem_write_data buf off name name_len
    mem_write_subdirs subdirs (to_u64 num_subdirs) buf off
/-- The loop of `mem_write_tree` over `tree->subdirs[i]`, for the remaining children and the
remaining number of iterations; an index beyond the array of children is undefined. -/
def mem_write_subdirs : List dirtreenode → Nat → List Byte → Nat → Option (List Byte × Nat)
  | _, 0, buf, off => some (buf, off)
  | [], _ + 1, _, _ => none
  | c :: cs, n + 1, buf, off => do
    let (buf, off) ← mem_write_tree c buf off
    mem_write_subdirs cs n buf off
end

/-- The loop of `mem_read_tree` over the children: `n` iterations of the recursive call `rd`,
each starting at the offset the previous one returned. -/
def mem_read_subdirs (rd : Nat → Option (dirtreenode × Nat)) :
    Nat → Nat → Option (List dirtreenode × Nat)
  | 0, off => some ([], off)
  | n + 1, off => do
    let (c, off) ← rd off
    let (cs, off) ← mem_read_subdirs rd n off
    some (c :: cs, off)

/-- The body of `mem_read_tree` with a bound on the depth of the recursion.  The node that the
C function fills in is returned with the next offset. -/
def mem_read_tree_fuel : Nat → List Byte → Nat → Option (dirtreenode × Nat)
  | 0, _, _ => none
  | fuel + 1, buf, off => do
    let (v, off) ← mem_read_int32 buf off
    let num_subdirs := to_i32 v
    let (l, off) ← mem_read_data buf off 8
    let name_len := le_value l
    let (name, off) ← mem_read_data buf off name_len
    let (subdirs, off) ← mem_read_subdirs (mem_read_tree_fuel fuel buf) (to_u64 num_subdirs) off
    some (.mk name (to_u32 num_subdirs) subdirs, off)

/-- The function `mem_read_tree`.  Every level of the recursion reads at least 12 bytes inside
the buffer before it descends, so the depth never exceeds the length of the buffer: a larger
bound gives the same result (`mem_read_tree_fuel_enough`). -/
def mem_read_tree (buf : List Byte) (off : Nat) : Option (dirtreenode × Nat) :=
  mem_read_tree_fuel buf.length buf off

mutual
/-- Well-formed tree: every name is exactly a C string, `num_subdirs` is the number of children
and fits an `int`, and the length of a name fits `size_t`. -/
def well_formed : dirtreenode → Bool
  | .mk name nsub subdirs =>
    is_cstring name && decide (name.length < 2 ^ 64) && decide (nsub = subdirs.length) &&
      decide (subdirs.length < 2 ^ 31) && well_formed_all subdirs
/-- Every tree of the list is well formed. -/
def well_formed_all : List dirtreenode → Bool
  | [] => true
  | c :: cs => well_formed c && well_formed_all cs
end

mutual
/-- The wire layout of a tree: depth-first preorder, each node as `num_subdirs` (4 bytes), the
length of the name with its terminator (8 bytes), the name, then the children in order. -/
def tree_layout : dirtreenode → List Byte
  | .mk name nsub subdirs =>
    le_bytes 4 nsub ++ le_bytes 8 name.length ++ name ++ forest_layout subdirs
/-- The layouts of the trees of a list, one after the other. -/
def forest_layout : List dirtreenode → List Byte
  | [] => []
  | c :: cs => tree_layout c ++ forest_layout cs
end

mutual
/-- Number of nodes on the longest path from the root to a leaf. -/
def tree_depth : dirtreenode → Nat
  | .mk _ _ subdirs => forest_depth subdirs + 1
/-- The largest depth of the trees of a list. -/
def forest_depth : List dirtreenode → Nat
  | [] => 0
  | c :: cs => max (tree_depth c) (forest_depth cs)
end

/-! ## Server handlers of the descriptor-taking operations (`server.c`, lines 24, 264-423)

The operating system is an external collaborator: every call answers with its return value and
the value of `errno` after the call, and with the new contents of the buffers it writes. -/

/-- The constant `MAXMSGLEN` of the server. -/
def MAXMSGLEN : Nat := 4096

/-- A fresh allocation of `n` bytes (`malloc(n)`); its indeterminate contents are zero bytes. -/
def malloc (n : Nat) : List Byte := List.replicate n 0

/-- The file-system calls of the server: `open(pathname, flags, mode)`, `close(fd)`,
`write(fd, buf, count)`, `read(fd, buf, count)` (answers also the new contents of `buf`),
`lseek(fd, offset, whence)` and `getdirentries(fd, buf, nbytes, &basep)` (answers also the new
contents of `buf` and the new `basep`).  The first two components of an answer are the return
value and `errno`. -/
structure server_os where
  sys_open : List Byte → Int → Nat → Int × Int
  sys_close : Int → Int × Int
  sys_write : Int → List Byte → Nat → Int × Int
  sys_read : Int → List Byte → Nat → Int × Int × List Byte
  sys_lseek : Int → Int → Int → Int × Int
  sys_getdirentries : Int → List Byte → Nat → Int → Int × Int × List Byte × Int

/-- The bytes `src` copied to the start of the caller's buffer `dst` (the destination of a
`mem_read_data`); undefined when `dst` is too small. -/
def store (dst src : List Byte) : Option (List Byte) :=
  if src.length ≤ dst.length then some (src ++ dst.drop src.length) else none

/-- The part of `do_open` after the call of `open`: the response carries `pack_fd fd`. -/
def do_open_response (fd errno : Int) : Option rpc_resp := do
  let fd_out := pack_fd fd
  let size := 4
  let (data, _) ← mem_write_data (malloc size) 0 (le_bytes 4 (to_u32 fd_out)) size
  some { err_no := errno, size := size, data := data }

/-- The function `do_open`. -/
def do_open (os : server_os) (frame : rpc_frame) : Option rpc_resp := do
  let (_, path, flag, mode) ← call_open_unmarshal frame.payload
  let pathname ← store (malloc MAXMSGLEN) path
  let (fd, errno) := os.sys_open pathname (to_i32 flag) mode
  do_open_response fd errno

/-- The part of `do_close` after the call of `close`. -/
def do_close_response (r errno : Int) : Option rpc_resp := do
  let size := 4
  let (data, _) ← mem_write_data (malloc size) 0 (le_bytes 4 (to_u32 r)) size
  some { err_no := errno, size := size, data := data }

/-- The function `do_close`. -/
def do_close (os : server_os) (frame : rpc_frame) : Option rpc_resp := do
  let (_, fd_in) ← call_close_unmarshal frame.payload
  let fd := unpack_fd fd_in
  let (r, errno) := os.sys_close fd
  do_close_response r errno

/-- The part of `do_write` after the call of `write`. -/
def do_write_response (r errno : Int) : Option rpc_resp := do
  let size := 8
  let (data, _) ← mem_write_data (malloc size) 0 (le_bytes 8 (to_u64 r)) size
  some { err_no := errno, size := size, data := data }

/-- The function `do_write`. -/
def do_write (os : server_os) (frame : rpc_frame) : Option rpc_resp := do
  let (buf, fd_in, count) ← call_write_unmarshal frame.payload
  let fd := unpack_fd fd_in
  let (r, errno) := os.sys_write fd buf count
  do_write_response r errno

/-- The part of `do_read` after the call of `read`: the data buffer has
`r + sizeof(ssize_t)` bytes (computed in `size_t`), it receives `r` and, when `r > 0`, the `r`
bytes read; `resp->size` is the offset reached. -/
def do_read_response (r errno : Int) (buf : List Byte) : Option rpc_resp := do
  let data := malloc ((to_u64 r + 8) % 2 ^ 64)
  let (data, off) ← mem_write_data data 0 (le_bytes 8 (to_u64 r)) 8
  let (data, off) ← if r > 0 then mem_write_data data off buf (to_u64 r) else some (data, off)
  some { err_no := errno, size := off % 2 ^ 32, data := data }

/-- The function `do_read`. -/
def do_read (os : server_os) (frame : rpc_frame) : Option rpc_resp := do
  let (_, fd_in, count) ← call_read_unmarshal frame.payload
  let fd := unpack_fd fd_in
  let (r, errno, buf) := os.sys_read fd (malloc count) count
  do_read_response r errno buf

/-- The part of `do_lseek` after the call of `lseek`. -/
def do_lseek_response (r errno : Int) : Option rpc_resp := do
  let size := 8
  let (data, _) ← mem_write_data (malloc size) 0 (le_bytes 8 (to_u64 r)) 8
  some { err_no := errno, size := size, data := data }

/-- The function `do_lseek`. -/
def do_lseek (os : server_os) (frame : rpc_frame) : Option rpc_resp := do
  let (_, fd_in, offset, whence) ← call_lseek_unmarshal frame.payload
  let fd := unpack_fd fd_in
  let (r, errno) := os.sys_lseek fd offset whence
  do_lseek_response r errno

/-- The part of `do_getdirentries` after the call of `getdirentries`: the data buffer has
`MAXMSGLEN` bytes, it receives `r`, the new `basep` and, when `r > 0`, the `r` bytes read. -/
def do_getdirentries_response (r errno : Int) (buf : List Byte) (basep : Int) :
    Option rpc_resp := do
  let data := malloc MAXMSGLEN
  let (data, off) ← mem_write_data data 0 (le_bytes 8 (to_u64 r)) 8
  let (data, off) ← mem_write_data data off (le_bytes 8 (to_u64 basep)) 8
  let (data, off) ← if r > 0 then mem_write_data data off buf (to_u64 r) else some (data, off)
  some { err_no := errno, size := off % 2 ^ 32, data := data }

/-- The function `do_getdirentries`. -/
def do_getdirentries (os : server_os) (frame : rpc_frame) : Option rpc_resp := do
  let (_, fd_in, nbytes, basep) ← call_getdirentries_unmarshal frame.payload
  let fd := unpack_fd fd_in
  let (r, errno, buf, basep) := os.sys_getdirentries fd (malloc nbytes) nbytes basep
  do_getdirentries_response r errno buf basep

/-- A file system for concrete evaluations: every call answers with the descriptor it was
given as return value and with `errno = 0`, and leaves the buffers as they are. -/
def os_echo : server_os where
  sys_open := fun _ _ _ => (3, 0)
  sys_close := fun fd => (fd, 0)
  sys_write := fun fd _ _ => (fd, 0)
  sys_read := fun fd buf _ => (fd, 0, buf)
  sys_lseek := fun fd _ _ => (fd, 0)
  sys_getdirentries := fun fd buf _ basep => (fd, 0, buf, basep)

/-! ## The byte stream: `send`, `recv` and the framing loops
(`mylib.c`, lines 640-719; `server.c`, lines 115-184)

Code that can abort the process (`err(1, 0)`), loop or leave defined behaviour returns a
`result`.  The loops carry a bound on the number of iterations: running out of it is the result
`fault.fuel`, which says nothing about the code. -/

/-- Why a run has no value: the process was ended by `err(1, 0)`, the behaviour is undefined
(a copy outside an allocation, a signed overflow), or the bound on the iterations was reached. -/
inductive fault where
  | fatal
  | undefined
  | fuel
deriving DecidableEq, Repr

/-- The outcome of code that may not return a value. -/
abbrev result (α : Type) := Except fault α

/-- A memory operation inside such code: out of bounds is undefined behaviour. -/
def defined {α : Type} : Option α → result α
  | some a => .ok a
  | none => .error .undefined

/-- What the process does to its surroundings, in order: a connection established by
`init_client`, a message handed to `send_all`, one `send` call (length asked, bytes the
transport took), one `recv` call (length asked, result), and the calls of the original local
`close`, `read`, `write`. -/
inductive io_event where
  | connect (sockfd : Int)
  | send_all (sockfd : Int) (msg : List Byte)
  | send (sockfd : Int) (len : Nat) (accepted : List Byte)
  | recv (sockfd : Int) (len : Nat) (rv : Int)
  | orig_close (fd : Int)
  | orig_read (fd : Int) (count : Nat)
  | orig_write (fd : Int) (buf : List Byte) (count : Nat)
deriving DecidableEq, Repr

/-- The surroundings of a peer.  `accept i` is the number of bytes the `i`-th `send` call is
willing to take (negative: the call fails), `deliver i` the number of bytes the `i`-th `recv`
call is willing to hand over (negative: the call fails), `incoming` the bytes sent by the other
peer and not yet received, `socket_result` and `connect_result` the results of `socket` and
`connect` in `init_client`, `uninit i` the byte found at index `i` of an uninitialised array,
`orig_close`, `orig_read`, `orig_write` the local implementations (`orig_read` answers also
the new contents of the buffer), and `log` what has happened so far. -/
structure world where
  accept : Nat → Int
  sends : Nat
  deliver : Nat → Int
  recvs : Nat
  incoming : List Byte
  socket_result : Int
  connect_result : Int
  uninit : Nat → Byte
  orig_close : Int → Int
  orig_read : Int → List Byte → Nat → Int × List Byte
  orig_write : Int → List Byte → Nat → Int
  log : List io_event

/-- An uninitialised array of `n` bytes (`char buf[n]` on the stack). -/
def stack_array (w : world) (n : Nat) : List Byte := (List.range n).map w.uninit

/-- The system call `send(sockfd, p, len, 0)`: the transport takes at most `len` bytes from the
start of `p`, as many as `accept` says, or fails with `-1`. -/
def send (w : world) (sockfd : Int) (p : List Byte) (len : Nat) : Int × world :=
  let a := w.accept w.sends
  if a < 0 then
    (-1, { w with sends := w.sends + 1, log := w.log ++ [.send sockfd len []] })
  else
    let k := min a.toNat len
    ((k : Int), { w with sends := w.sends + 1, log := w.log ++ [.send sockfd len (p.take k)] })

/-- The system call `recv(sockfd, p, len, 0)`: the transport hands over at most `len` of the
incoming bytes, as many as `deliver` says, or fails with `-1`; the result is `0` when it hands
over nothing.  The bytes handed over are returned with the result. -/
def recv (w : world) (sockfd : Int) (len : Nat) : Int × List Byte × world :=
  let d := w.deliver w.recvs
  if d < 0 then
    (-1, [], { w with recvs := w.recvs + 1, log := w.log ++ [.recv sockfd len (-1)] })
  else
    let k := min (min d.toNat len) w.incoming.length
    ((k : Int), w.incoming.take k,
      { w with incoming := w.incoming.drop k, recvs := w.recvs + 1,
               log := w.log ++ [.recv sockfd len (k : Int)] })

/-- The inner loop of `send_all`:
`while ((rv = send(sockfd, buf + sent, off - sent, 0)) > 0) { sent += rv; if (sent >= off) break; }`.
The result is `rv`, `sent` and the surroundings when the loop is left. -/
def send_all_inner : Nat → world → Int → List Byte → Nat → Nat → result (Int × Nat × world)
  | 0, _, _, _, _, _ => .error .fuel
  | fuel + 1, w, sockfd, buf, sent, off =>
    let (rv, w) := send w sockfd (buf.drop sent) (off - sent)
    if rv > 0 then
      let sent := sent + rv.toNat
      if sent ≥ off then .ok (rv, sent, w)
      else send_all_inner fuel w sockfd buf sent off
    else .ok (rv, sent, w)

/-- The outer loop of `send_all`, `while (pending > 0) { ... }`, entered with the buffer `buf`
filled up to `off`. -/
def send_all_outer : Nat → world → Int → List Byte → Nat → List Byte → Nat → Nat → result world
  | 0, _, _, _, _, _, _, _ => .error .fuel
  | fuel + 1, w, sockfd, data, size, buf, off, pending =>
    if pending > 0 then do
      let len := if pending > MAXMSGLEN - off then MAXMSGLEN - off else pending
      let (buf, off) ← defined (mem_write_data buf off (data.drop (size - pending)) len)
      let (rv, _, w) ← send_all_inner fuel w sockfd buf 0 off
      if rv < 0 then .error .fatal
      else send_all_outer fuel w sockfd data size buf 0 (pending - len)
    else .ok w

/-- The function `send_all` (the client copy, `mylib.c` lines 640-668, and the server copy,
`server.c` lines 115-143, are the same code).  The message handed over is recorded first. -/
def send_all (fuel : Nat) (w : world) (sockfd : Int) (data : List Byte) (size : Nat) :
    result world := do
  let w := { w with log := w.log ++ [.send_all sockfd (data.take size)] }
  let frame_size := to_i32 size
  let buf := stack_array w MAXMSGLEN
  let (buf, off) ← defined (mem_write_data buf 0 (le_bytes 4 (to_u32 frame_size)) 4)
  send_all_outer fuel w sockfd data size buf off size

/-- The first loop of the receive routine,
`while (received < sizeof(int)) { rv = recv(sockfd, buf + received, MAXMSGLEN - received, 0);
if (rv < 0) err(1,0); received += rv; }`; `received` is compared as a `size_t`. -/
def recv_prefix_loop : Nat → world → Int → List Byte → Int → result (List Byte × Int × world)
  | 0, _, _, _, _ => .error .fuel
  | fuel + 1, w, sockfd, buf, received =>
    if to_u64 received < 4 then do
      let (rv, bytes, w) := recv w sockfd (to_u64 ((MAXMSGLEN : Int) - received))
      let (buf, _) ← defined (mem_write_data buf (to_u64 received) bytes bytes.length)
      if rv < 0 then .error .fatal
      else recv_prefix_loop fuel w sockfd buf (received + rv)
    else .ok (buf, received, w)

/-- The second loop of the receive routine,
`while (off < frame_size) { rv = recv(sockfd, buf, MAXMSGLEN, 0); if (rv < 0) err(1, 0);
off = mem_write_data(data, off, buf, rv); }`; `frame_size` is compared as a `size_t`.  The result
is the frame `data`, the array `buf` and the surroundings. -/
def recv_payload_loop : Nat → world → Int → List Byte → List Byte → Nat → Int →
    result (List Byte × List Byte × world)
  | 0, _, _, _, _, _, _ => .error .fuel
  | fuel + 1, w, sockfd, buf, data, off, frame_size =>
    if off < to_u64 frame_size then do
      let (rv, bytes, w) := recv w sockfd MAXMSGLEN
      let (buf, _) ← defined (mem_write_data buf 0 bytes bytes.length)
      if rv < 0 then .error .fatal
      else do
        let (data, off) ← defined (mem_write_data data off buf (to_u64 rv))
        recv_payload_loop fuel w sockfd buf data off frame_size
    else .ok (data, buf, w)

/-- The receive routine after its first `recv` (the same code in `send_request`, `mylib.c`
lines 688-719, and in `handle_session`, `server.c` lines 154-183): complete the 4-byte length,
reject a non-positive length, allocate the frame, copy the bytes already read beyond the
length, read the rest.  `rv` is the result of the first `recv`, `buf` the array it filled. -/
def recv_frame_rest (fuel : Nat) (w : world) (sockfd : Int) (buf : List Byte) (rv : Int) :
    result (List Byte × List Byte × world) := do
  let received := rv
  let (buf, received, w) ← recv_prefix_loop fuel w sockfd buf received
  let frame_size := to_i32 (le_value (buf.take 4))
  if frame_size ≤ 0 then .error .fatal
  else do
    let data := malloc frame_size.toNat
    let (data, off) ← defined (mem_write_data data 0 (buf.drop 4) (to_u64 (received - 4)))
    recv_payload_loop fuel w sockfd buf data off frame_size

/-- The receive routine of `send_request` (`mylib.c`, lines 685-719): the result of the first
`recv` is not examined.  The result is the frame and the surroundings. -/
def send_request_recv (fuel : Nat) (w : world) (sockfd : Int) : result (List Byte × world) := do
  let buf := stack_array w MAXMSGLEN
  let (rv, bytes, w) := recv w sockfd MAXMSGLEN
  let (buf, _) ← defined (mem_write_data buf 0 bytes bytes.length)
  let (data, _, w) ← recv_frame_rest fuel w sockfd buf rv
  .ok (data, w)

/-- The receive routine of one round of `handle_session` (`server.c`, lines 151-184), entered
with the array `buf` as the previous round left it: the session loop runs while the first
`recv` is positive; when it is not, the loop is left (`none`) and a negative result ends the
process. -/
def handle_session_recv (fuel : Nat) (w : world) (sessfd : Int) (buf : List Byte) :
    result (Option (List Byte) × List Byte × world) := do
  let (rv, bytes, w) := recv w sessfd MAXMSGLEN
  let (buf, _) ← defined (mem_write_data buf 0 bytes bytes.length)
  if rv > 0 then do
    let (data, buf, w) ← recv_frame_rest fuel w sessfd buf rv
    .ok (some data, buf, w)
  else if rv < 0 then .error .fatal
  else .ok (none, buf, w)

/-- The end of one round of `handle_session` (`server.c`, lines 198-203): the response is
marshalled into a fresh buffer of `resp->size + sizeof(rpc_resp)` bytes (`sizeof(rpc_resp)` is
16) and the bytes written are handed to `send_all`. -/
def handle_session_reply (fuel : Nat) (w : world) (sessfd : Int) (resp : rpc_resp) :
    result world := do
  let out := malloc (resp.size + 16)
  let (out, len) ← defined (marshal_resp out resp)
  send_all fuel w sessfd out len

/-! ## The client stubs (`mylib.c`, lines 37-50, 63-553, 578-631, 675-743) -/

/-- The constant `BUFFERLEN`. -/
def BUFFERLEN : Nat := 4096

/-- The opcode `OP_OPEN`. -/
def OP_OPEN : Nat := 1

/-- The opcode `OP_WRITE`. -/
def OP_WRITE : Nat := 2

/-- The opcode `OP_CLOSE`. -/
def OP_CLOSE : Nat := 3

/-- The opcode `OP_READ`. -/
def OP_READ : Nat := 4

/-- The opcode `OP_LSEEK`. -/
def OP_LSEEK : Nat := 5

/-- The opcode `OP_STAT`. -/
def OP_STAT : Nat := 6

/-- The opcode `OP_UNLINK`. -/
def OP_UNLINK : Nat := 7

/-- The opcode `OP_GETDIR`. -/
def OP_GETDIR : Nat := 8

/-- The opcode `OP_GETTRR`. -/
def OP_GETTRR : Nat := 9

/-- The error number `EBADF` ("bad file descriptor") of the platform. -/
def EBADF : Int := 9

/-- The flag `O_CREAT` of the platform (octal 100). -/
def O_CREAT : Nat := 64

/-- The size of `struct stat` on the platform. -/
def sizeof_stat : Nat := 144

/-- The globals of the client library, `_sockfd`, `min_fd` and `opened_fd`, and the `errno` of
the process as the stubs leave it (what a local system call does to `errno` is not followed). -/
structure client_state where
  _sockfd : Int
  min_fd : Int
  opened_fd : Int
  errno : Int
deriving DecidableEq, Repr

/-- A `struct dirtreenode *`: the null pointer, or an allocated node, which is either filled in
(`some`) or still uninitialised (`none`). -/
inductive dirtree_ptr where
  | null
  | node (contents : Option dirtreenode)

/-- The function `init_client`: a connected socket, or the end of the process. -/
def init_client (w : world) : result (Int × world) :=
  let sockfd := w.socket_result
  if sockfd < 0 then .error .fatal
  else if w.connect_result < 0 then .error .fatal
  else .ok (sockfd, { w with log := w.log ++ [.connect sockfd] })

/-- The function `get_socket_fd`. -/
def get_socket_fd (w : world) (s : client_state) : result (Int × client_state × world) :=
  if s._sockfd < 0 then do
    let (sockfd, w) ← init_client w
    .ok (sockfd, { s with _sockfd := sockfd }, w)
  else .ok (s._sockfd, s, w)

/-- The function `send_request`. -/
def send_request (fuel : Nat) (w : world) (s : client_state) (msg : List Byte) (msg_sz : Nat) :
    result (rpc_resp × client_state × world) := do
  let (sockfd, s, w) ← get_socket_fd w s
  if sockfd < 0 then .error .fatal
  else do
    let w ← send_all fuel w sockfd msg msg_sz
    let (data, w) ← send_request_recv fuel w sockfd
    let resp ← defined (read_resp data)
    .ok (resp, s, w)

/-- The function `_init`; `errno` is the error number of the process at that time. -/
def _init (w : world) (errno : Int) : result (client_state × world) := do
  let (sockfd, w) ← init_client w
  .ok ({ _sockfd := sockfd, min_fd := INT_MAX, opened_fd := 0, errno := errno }, w)

/-- The stub `open` (`open` is a reserved word here); `mode` is the variadic argument, read
only when `flags & O_CREAT` is set.  Overflow of `++opened_fd` is undefined. -/
def open_stub (fuel : Nat) (w : world) (s : client_state) (pathname : List Byte) (flags : Int)
    (mode : Nat) : result (Int × client_state × world) := do
  let m := if (to_u32 flags / O_CREAT) % 2 = 1 then mode else 0
  let (payload, n) ← defined (call_open_marshal (malloc BUFFERLEN) pathname (to_u32 flags) m)
  let frame : rpc_frame := { opcode := OP_OPEN, payload_size := n % 2 ^ 32, payload := payload }
  let (buf, frame_size) ← defined (marshal_frame (malloc BUFFERLEN) frame)
  let (resp, s, w) ← send_request fuel w s buf frame_size
  let new_err := resp.err_no
  let (b, _) ← defined (mem_read_data resp.data 0 4)
  let fd := to_i32 (le_value b)
  if fd ≥ 0 then
    if s.opened_fd = INT_MAX then .error .undefined
    else .ok (fd, { s with min_fd := if fd < s.min_fd then fd else s.min_fd,
                           opened_fd := s.opened_fd + 1 }, w)
  else .ok (fd, { s with errno := new_err }, w)

/-- The stub `close`.  Overflow of `--opened_fd` is undefined. -/
def close (fuel : Nat) (w : world) (s : client_state) (fd : Int) :
    result (Int × client_state × world) :=
  if fd < s.min_fd then
    .ok (w.orig_close fd, s, { w with log := w.log ++ [.orig_close fd] })
  else do
    let (payload, n) ← defined (call_close_marshal (malloc BUFFERLEN) fd)
    let frame : rpc_frame := { opcode := OP_CLOSE, payload_size := n % 2 ^ 32, payload := payload }
    let (buf, frame_size) ← defined (marshal_frame (malloc BUFFERLEN) frame)
    let (resp, s, w) ← send_request fuel w s buf frame_size
    let new_err := resp.err_no
    let (b, _) ← defined (mem_read_data resp.data 0 4)
    let r := to_i32 (le_value b)
    let (s, w) ←
      if r = 0 then
        if s.opened_fd = INT_MIN then (.error .undefined : result (client_state × world))
        else
          let s := { s with opened_fd := s.opened_fd - 1 }
          if s.opened_fd = 0 then
            .ok ({ s with _sockfd := -1 }, { w with log := w.log ++ [.orig_close s._sockfd] })
          else .ok (s, w)
      else .ok (s, w)
    let s := if r < 0 then { s with errno := new_err } else s
    .ok (r, s, w)

/-- The stub `read`; `buf` is the caller's buffer, returned with its new contents. -/
def read (fuel : Nat) (w : world) (s : client_state) (fd : Int) (buf : List Byte) (count : Nat) :
    result (Int × List Byte × client_state × world) :=
  if fd < s.min_fd then
    .ok ((w.orig_read fd buf count).1, (w.orig_read fd buf count).2, s,
      { w with log := w.log ++ [.orig_read fd count] })
  else do
    let (payload, n) ← defined (call_read_marshal (malloc BUFFERLEN) fd count)
    let frame : rpc_frame := { opcode := OP_READ, payload_size := n % 2 ^ 32, payload := payload }
    let (rpc_buf, frame_size) ← defined (marshal_frame (malloc BUFFERLEN) frame)
    let (resp, s, w) ← send_request fuel w s rpc_buf frame_size
    let new_err := resp.err_no
    let (b, off) ← defined (mem_read_data resp.data 0 8)
    let r := to_i64 (le_value b)
    let buf ←
      if r > 0 then do
        let (bytes, _) ← defined (mem_read_data resp.data off (to_u64 r))
        defined (store buf bytes)
      else .ok buf
    let s := if r < 0 then { s with errno := new_err } else s
    .ok (r, buf, s, w)

/-- The memory of the heap right behind an allocation, as far as a run is followed through a
copy that goes past the end of the allocation: four bytes (padding of the chunk, or the start
of the next chunk), which the copy overwrites and from which they can be read back.  Before
the copy they hold zero bytes, like a fresh allocation. -/
def heap_behind : List Byte := List.replicate 4 0

/-- The stub `write`.  The frame buffer is `malloc(count + sizeof(rpc_frame))`, `count + 16`
bytes, and `marshal_frame` writes the 8 bytes of the header and the `count + 12` bytes of the
payload into it: the copy goes four bytes past the end of the allocation, into the memory
behind it, and `send_request` reads the whole frame back from there.  The run is followed
through these four bytes: the copy is made into the allocation with `heap_behind` after it. -/
def write (fuel : Nat) (w : world) (s : client_state) (fd : Int) (buf : List Byte) (count : Nat) :
    result (Int × client_state × world) :=
  if fd < s.min_fd then
    .ok (w.orig_write fd buf count, s, { w with log := w.log ++ [.orig_write fd buf count] })
  else do
    let (payload, n) ←
      defined (call_write_marshal (malloc ((count + 4 + 8) % 2 ^ 64)) fd buf count)
    let frame : rpc_frame := { opcode := OP_WRITE, payload_size := n % 2 ^ 32, payload := payload }
    let (rpc_buf, frame_size) ←
      defined (marshal_frame (malloc ((count + 16) % 2 ^ 64) ++ heap_behind) frame)
    let (resp, s, w) ← send_request fuel w s rpc_buf frame_size
    let new_err := resp.err_no
    let (b, _) ← defined (mem_read_data resp.data 0 8)
    let r := to_i64 (le_value b)
    let s := if r < 0 then { s with errno := new_err } else s
    .ok (r, s, w)

/-- The stub `lseek`. -/
def lseek (fuel : Nat) (w : world) (s : client_state) (fd : Int) (offset : Int) (whence : Int) :
    result (Int × client_state × world) :=
  if s.opened_fd = 0 then
    .ok (-1, { s with errno := EBADF }, w)
  else do
    let (payload, n) ← defined (call_lseek_marshal (malloc BUFFERLEN) fd offset whence)
    let frame : rpc_frame := { opcode := OP_LSEEK, payload_size := n % 2 ^ 32, payload := payload }
    let (rpc_buf, frame_size) ← defined (marshal_frame (malloc BUFFERLEN) frame)
    let (resp, s, w) ← send_request fuel w s rpc_buf frame_size
    let new_err := resp.err_no
    let (b, _) ← defined (mem_read_data resp.data 0 8)
    let r := to_i64 (le_value b)
    let s := if r < 0 then { s with errno := new_err } else s
    .ok (r, s, w)

/-- The stub `__xstat`; `stat_buf` is the caller's `struct stat`, returned with its new
contents. -/
def __xstat (fuel : Nat) (w : world) (s : client_state) (ver : Int) (path : List Byte)
    (stat_buf : List Byte) : result (Int × List Byte × client_state × world) := do
  let (payload, n) ← defined (call_stat_marshal (malloc BUFFERLEN) ver path)
  let frame : rpc_frame := { opcode := OP_STAT, payload_size := n % 2 ^ 32, payload := payload }
  let (rpc_buf, frame_size) ← defined (marshal_frame (malloc BUFFERLEN) frame)
  let (resp, s, w) ← send_request fuel w s rpc_buf frame_size
  let new_err := resp.err_no
  let (v, off) ← defined (mem_read_int32 resp.data 0)
  let r := to_i32 v
  let stat_buf ←
    if r ≥ 0 then do
      let (bytes, _) ← defined (mem_read_data resp.data off sizeof_stat)
      defined (store stat_buf bytes)
    else .ok stat_buf
  let s := if r < 0 then { s with errno := new_err } else s
  .ok (r, stat_buf, s, w)

/-- The stub `unlink`. -/
def unlink (fuel : Nat) (w : world) (s : client_state) (pathname : List Byte) :
    result (Int × client_state × world) := do
  let (payload, n) ← defined (call_unlink_marshal (malloc BUFFERLEN) pathname)
  let frame : rpc_frame := { opcode := OP_UNLINK, payload_size := n % 2 ^ 32, payload := payload }
  let (rpc_buf, frame_size) ← defined (marshal_frame (malloc BUFFERLEN) frame)
  let (resp, s, w) ← send_request fuel w s rpc_buf frame_size
  let new_err := resp.err_no
  let (v, _) ← defined (mem_read_int32 resp.data 0)
  let r := to_i32 v
  let s := if r < 0 then { s with errno := new_err } else s
  .ok (r, s, w)

/-- The stub `getdirentries`; `buf` is the caller's buffer and `basep` the value of `*basep`,
both returned with their new contents. -/
def getdirentries (fuel : Nat) (w : world) (s : client_state) (fd : Int) (buf : List Byte)
    (nbytes : Nat) (basep : Int) : result (Int × List Byte × Int × client_state × world) :=
  if s.opened_fd = 0 then
    .ok (-1, buf, basep, { s with errno := EBADF }, w)
  else do
    let (payload, n) ← defined (call_getdirentries_marshal (malloc BUFFERLEN) fd nbytes basep)
    let frame : rpc_frame := { opcode := OP_GETDIR, payload_size := n % 2 ^ 32, payload := payload }
    let (rpc_buf, frame_size) ← defined (marshal_frame (malloc BUFFERLEN) frame)
    let (resp, s, w) ← send_request fuel w s rpc_buf frame_size
    let new_err := resp.err_no
    let (b, off) ← defined (mem_read_data resp.data 0 8)
    let r := to_i64 (le_value b)
    let (p, off) ← defined (mem_read_data resp.data off 8)
    let basep := to_i64 (le_value p)
    let buf ←
      if r > 0 then do
        let (bytes, _) ← defined (mem_read_data resp.data off (to_u64 r))
        defined (store buf bytes)
      else .ok buf
    let s := if r < 0 then { s with errno := new_err } else s
    .ok (r, buf, basep, s, w)

/-- The stub `getdirtree`: the node is allocated before the response is examined and is
returned in every case. -/
def getdirtree (fuel : Nat) (w : world) (s : client_state) (path : List Byte) :
    result (dirtree_ptr × client_state × world) := do
  let (payload, n) ← defined (call_dirtreenode_marshal (malloc BUFFERLEN) path)
  let frame : rpc_frame := { opcode := OP_GETTRR, payload_size := n % 2 ^ 32, payload := payload }
  let (rpc_buf, frame_size) ← defined (marshal_frame (malloc BUFFERLEN) frame)
  let (resp, s, w) ← send_request fuel w s rpc_buf frame_size
  let new_err := resp.err_no
  let r := resp.size
  let tree ←
    if r > 0 then do
      let (t, _) ← defined (mem_read_tree resp.data 0)
      (.ok (some t) : result (Option dirtreenode))
    else .ok none
  let s := if r = 0 then { s with errno := new_err } else s
  .ok (dirtree_ptr.node tree, s, w)

/-! ## Reading the log -/

/-- The bytes the transport took in one event. -/
def accepted_bytes : io_event → List Byte
  | .send _ _ a => a
  | _ => []

/-- The bytes put on the wire by the events of a log, in order. -/
def wire (log : List io_event) : List Byte := (log.map accepted_bytes).flatten

/-- The event is a `send` call on `sockfd` that asks for between 1 and `MAXMSGLEN` bytes. -/
def is_bounded_send (sockfd : Int) : io_event → Bool
  | .send fd len _ => decide (fd = sockfd) && decide (1 ≤ len) && decide (len ≤ MAXMSGLEN)
  | _ => false

/-- The event is a `send` or a `recv` call. -/
def is_transport_event : io_event → Bool
  | .send _ _ _ => true
  | .recv _ _ _ => true
  | _ => false

/-- Between `w` and `v` nothing has happened but `send` and `recv` calls. -/
def transport_only (w v : world) : Prop :=
  ∃ evs, v.log = w.log ++ evs ∧ ∀ e ∈ evs, is_transport_event e = true

/-- Surroundings for concrete evaluations: every `send` takes at most `a` bytes, every `recv`
hands over at most `d` bytes of `incoming`, `init_client` connects socket 3, uninitialised
memory holds zero bytes, the local `close` answers 0, the local `read` answers 0 and leaves the
buffer alone, the local `write` answers `count`; nothing has happened yet. -/
def world_with (a d : Int) (incoming : List Byte) : world where
  accept := fun _ => a
  sends := 0
  deliver := fun _ => d
  recvs := 0
  incoming := incoming
  socket_result := 3
  connect_result := 0
  uninit := fun _ => 0
  orig_close := fun _ => 0
  orig_read := fun _ buf _ => (0, buf)
  orig_write := fun _ _ count => (count : Int)
  log := []

/-- The bytes a client finds on its connection when the server has handed the marshalled
response `resp` to `send_all` (`handle_session_reply`): the 4-byte length of the message,
then `err_no`, `size` and the `size` bytes of data. -/
def response_stream (resp : rpc_resp) : List Byte :=
  le_bytes 4 (8 + resp.size)
    ++ (le_bytes 4 (to_u32 resp.err_no) ++ le_bytes 4 resp.size ++ resp.data)

/-- The surroundings cooperate with one remote call made in session state `s` and answer it
with `resp`: every `send` takes at least one byte, every `recv` hands over at least one byte,
a connection can be established if none is cached, and the bytes waiting on the connection are
the response, whose `err_no` is an `int`, whose data has `size` bytes and whose message length
fits an `int`. -/
def answers (w : world) (s : client_state) (resp : rpc_resp) : Prop :=
  (∀ i, 1 ≤ w.accept i) ∧ (∀ i, 1 ≤ w.deliver i)
  ∧ (s._sockfd < 0 → 0 ≤ w.socket_result ∧ 0 ≤ w.connect_result)
  ∧ INT_MIN ≤ resp.err_no ∧ resp.err_no ≤ INT_MAX
  ∧ resp.data.length = resp.size ∧ 8 + resp.size < 2 ^ 31
  ∧ w.incoming = response_stream resp

/-- What one remote call made in session state `s` adds to the log between `w` and `v`: a new
connection `sockfd` if none was cached, then the message `req` handed to `send_all` on
`sockfd`, then nothing but `send` and `recv` calls. -/
def sent_request (s : client_state) (w v : world) (sockfd : Int) (req : List Byte) : Prop :=
  ∃ evs, v.log = w.log ++ (if s._sockfd < 0 then [io_event.connect sockfd] else [])
      ++ io_event.send_all sockfd req :: evs
    ∧ ∀ e ∈ evs, is_transport_event e = true

/-- The socket a remote call made in session state `s` uses: the cached one, or the one
`init_client` obtains. -/
def session_socket (w : world) (s : client_state) : Int :=
  if s._sockfd < 0 then w.socket_result else s._sockfd

/-! ## Sequences of calls -/

/-- One call of a stub by the application, with its arguments. -/
inductive client_call where
  | open_stub (pathname : List Byte) (flags : Int) (mode : Nat)
  | close (fd : Int)
  | read (fd : Int) (buf : List Byte) (count : Nat)
  | write (fd : Int) (buf : List Byte) (count : Nat)
  | lseek (fd : Int) (offset : Int) (whence : Int)
  | __xstat (ver : Int) (path : List Byte) (stat_buf : List Byte)
  | unlink (pathname : List Byte)
  | getdirentries (fd : Int) (buf : List Byte) (nbytes : Nat) (basep : Int)
  | getdirtree (path : List Byte)

/-- The effect of one call on the session: the value returned if the call is `open`, the
session state and the surroundings after the call. -/
def client_step (fuel : Nat) (w : world) (s : client_state) :
    client_call → result (Option Int × client_state × world)
  | .open_stub pathname flags mode => do
    let (fd, s, w) ← open_stub fuel w s pathname flags mode
    .ok (some fd, s, w)
  | .close fd => do
    let (_, s, w) ← close fuel w s fd
    .ok (none, s, w)
  | .read fd buf count => do
    let (_, _, s, w) ← read fuel w s fd buf count
    .ok (none, s, w)
  | .write fd buf count => do
    let (_, s, w) ← write fuel w s fd buf count
    .ok (none, s, w)
  | .lseek fd offset whence => do
    let (_, s, w) ← lseek fuel w s fd offset whence
    .ok (none, s, w)
  | .__xstat ver path stat_buf => do
    let (_, _, s, w) ← __xstat fuel w s ver path stat_buf
    .ok (none, s, w)
  | .unlink pathname => do
    let (_, s, w) ← unlink fuel w s pathname
    .ok (none, s, w)
  | .getdirentries fd buf nbytes basep => do
    let (_, _, _, s, w) ← getdirentries fuel w s fd buf nbytes basep
    .ok (none, s, w)
  | .getdirtree path => do
    let (_, s, w) ← getdirtree fuel w s path
    .ok (none, s, w)

/-- The session states of a run of the client: `reachable fds s` says that `s` is the state
`_init` leaves, or is reached from such a state by a sequence of stub calls that returned,
each made in arbitrary surroundings; `fds` lists the values the `open` calls of the run
returned, the latest first. -/
inductive reachable : List Int → client_state → Prop
  | init (w : world) (errno : Int) (s : client_state) (w1 : world) :
      _init w errno = .ok (s, w1) → reachable [] s
  | step (fuel : Nat) (w : world) (c : client_call) (fds : List Int) (s : client_state)
      (o : Option Int) (s1 : client_state) (w1 : world) :
      reachable fds s → client_step fuel w s c = .ok (o, s1, w1) →
      reachable (o.toList ++ fds) s1

/-- The minimum of `INT_MAX` and the non-negative values in a list of descriptors. -/
def watermark : List Int → Int
  | [] => INT_MAX
  | fd :: fds => if 0 ≤ fd then min fd (watermark fds) else watermark fds

/-- The session state that `_init` leaves when `init_client` connects socket 3 and `errno` is
0. -/
def initial_state : client_state := { _sockfd := 3, min_fd := INT_MAX, opened_fd := 0, errno := 0 }

/-- The session state after one `open` that the server answered with descriptor 1003. -/
def one_open_state : client_state := { _sockfd := 3, min_fd := 1003, opened_fd := 1, errno := 0 }

/-! ## The nodes of a tree in wire order; the tree handler (`server.c`, lines 25, 244-262) -/

mutual
/-- The nodes of a tree in depth-first preorder: the node itself, then the nodes of its
children, child by child in index order. -/
def preorder : dirtreenode → List dirtreenode
  | .mk name nsub subdirs => .mk name nsub subdirs :: preorder_all subdirs
/-- The nodes of the trees of a list in depth-first preorder, tree by tree. -/
def preorder_all : List dirtreenode → List dirtreenode
  | [] => []
  | c :: cs => preorder c ++ preorder_all cs
end

/-- The value `strlen(tree->name)` of a node (0 when the array holds no string). -/
def name_strlen : dirtreenode → Nat
  | .mk name _ _ => (strlen name).getD 0

/-- What `mem_write_tree` writes for one node before it descends: `num_subdirs` in 4 bytes,
`strlen(name) + 1` as a `size_t` in 8 bytes, and the `strlen(name) + 1` bytes of the name, the
terminating zero included. -/
def node_record : dirtreenode → List Byte
  | .mk name nsub subdirs =>
    le_bytes 4 (to_u32 (to_i32 nsub)) ++ le_bytes 8 (name_strlen (.mk name nsub subdirs) + 1)
      ++ name.take (name_strlen (.mk name nsub subdirs) + 1)

/-- The number of bytes of the record of one node: `4 + 8 + strlen(name) + 1`. -/
def node_size (t : dirtreenode) : Nat := 4 + 8 + name_strlen t + 1

/-- The constant `MAXTREESIZE`. -/
def MAXTREESIZE : Nat := 40960

/-- The part of `do_dirtreenode` after the call of `getdirtree`: the data buffer has
`MAXTREESIZE` bytes, the tree is written into it unless it is `NULL` (`none`), and `resp->size`
is the offset reached. -/
def do_dirtreenode_response (tree : Option dirtreenode) (errno : Int) : Option rpc_resp := do
  let data := malloc MAXTREESIZE
  let (data, off) ←
    match tree with
    | some t => mem_write_tree t data 0
    | none => some (data, 0)
  some { err_no := errno, size := off % 2 ^ 32, data := data }

/-- The function `do_dirtreenode`; `sys_getdirtree` is the library call `getdirtree(path)`,
which answers the tree (`none` for `NULL`) and the value of `errno` after the call. -/
def do_dirtreenode (sys_getdirtree : List Byte → Option dirtreenode × Int) (frame : rpc_frame) :
    Option rpc_resp := do
  let (_, p) ← call_dirtreenode_unmarshal frame.payload
  let path ← store (malloc MAXMSGLEN) p
  let (tree, errno) := sys_getdirtree path
  do_dirtreenode_response tree errno

/-- The session state after the `open` answered with 1003 and a `close` of 1003 answered with 0:
no remote descriptor is open and the connection is closed. -/
def all_closed_state : client_state := ⟨-1, 1003, 0, 0⟩

/-- The session state after a second `close` of 1003 answered with 0. -/
def negative_count_state : client_state := ⟨3, 1003, -1, 0⟩

/-- Between the surroundings `w` and `w1` some `recv` calls may have been made, the calls number
`w.recvs` up to `w1.recvs - 1` of the schedule, and none of them reported an error. -/
def reads_succeeded (w w1 : world) : Prop :=
  w1.deliver = w.deliver ∧ w.recvs ≤ w1.recvs
    ∧ ∀ i, w.recvs ≤ i → i < w1.recvs → 0 ≤ w.deliver i

/-! ## The request of a stub -/

theorem le_bytes_length (w v : Nat) : (le_bytes w v).length = w := by
  induction w generalizing v with
  | zero => rfl
  | succ w ih => simp [le_bytes, ih]

theorem le_value_le_bytes (w v : Nat) : le_value (le_bytes w v) = v % 256 ^ w := by
  induction w generalizing v with
  | zero => simp [le_bytes, le_value, Nat.mod_one]
  | succ w ih =>
    simp only [le_bytes, le_value, ih, Fin.ofNat, Fin.val_mk]
    rw [Nat.mod_mod, pow_succ, Nat.mul_comm (256 ^ w) 256, Nat.mod_mul]

theorem le_value_lt (bs : List Byte) : le_value bs < 256 ^ bs.length := by
  induction bs with
  | nil => simp [le_value]
  | cons b bs ih =>
    simp only [le_value, List.length_cons, pow_succ]
    have := b.isLt
    omega

theorem le_bytes_le_value (bs : List Byte) : le_bytes bs.length (le_value bs) = bs := by
  induction bs with
  | nil => rfl
  | cons b bs ih =>
    have hb := b.isLt
    have h1 : (b.val + 256 * le_value bs) % 256 = b.val := by omega
    have h2 : (b.val + 256 * le_value bs) / 256 = le_value bs := by omega
    simp only [le_value, List.length_cons, le_bytes, h1, h2, ih]
    congr 1
    apply Fin.ext
    simp [Fin.ofNat, Nat.mod_eq_of_lt hb]

theorem to_i32_to_u32 (x : Int) (hlo : INT_MIN ≤ x) (hhi : x ≤ INT_MAX) :
    to_i32 (to_u32 x) = x := by
  unfold to_i32 to_u32 INT_MIN INT_MAX at *
  have h : ((x % 2 ^ 32).toNat % 2 ^ 32 : Nat) = (x % 2 ^ 32).toNat := by
    apply Nat.mod_eq_of_lt
    omega
  rw [h]
  split <;> omega

theorem to_u32_lt (x : Int) : to_u32 x < 2 ^ 32 := by
  unfold to_u32
  omega

theorem to_i64_to_u64 (x : Int) (hlo : -2 ^ 63 ≤ x) (hhi : x < 2 ^ 63) :
    to_i64 (to_u64 x) = x := by
  unfold to_i64 to_u64
  have h : ((x % 2 ^ 64).toNat % 2 ^ 64 : Nat) = (x % 2 ^ 64).toNat := by
    apply Nat.mod_eq_of_lt
    omega
  rw [h]
  split <;> omega

theorem to_u64_lt (x : Int) : to_u64 x < 2 ^ 64 := by
  unfold to_u64
  omega

/-! ## Facts about the memory primitives -/

theorem mem_write_data_at {data p t val : List Byte} {off size : Nat}
    (hbuf : data = p ++ t) (hoff : off = p.length) (hv : size ≤ val.length)
    (ht : size ≤ t.length) :
    mem_write_data data off val size = some (p ++ val.take size ++ t.drop size, off + size) := by
  subst hbuf hoff
  unfold mem_write_data
  rw [if_pos ⟨hv, by simp; omega⟩]
  simp [List.take_append_eq_append_take, List.drop_append_eq_append_drop]

theorem mem_read_data_at {data p a r : List Byte} {off size : Nat}
    (hbuf : data = p ++ a ++ r) (hoff : off = p.length) (hsz : size = a.length) :
    mem_read_data data off size = some (a, off + size) := by
  subst hbuf hoff hsz
  unfold mem_read_data
  rw [if_pos (by simp)]
  simp [List.append_assoc]

theorem mem_write_int32_at {data p t : List Byte} {off : Nat} (val : Nat)
    (hbuf : data = p ++ t) (hoff : off = p.length) (ht : 4 ≤ t.length) :
    mem_write_int32 data off val
      = some (p ++ le_bytes 4 (val % 2 ^ 32) ++ t.drop 4, off + 4) := by
  unfold mem_write_int32
  rw [mem_write_data_at hbuf hoff (le_of_eq (le_bytes_length _ _).symm) ht]
  rw [List.take_of_length_le (le_of_eq (le_bytes_length _ _))]

theorem mem_read_int32_at {data p r : List Byte} {off : Nat} (v : Nat)
    (hbuf : data = p ++ le_bytes 4 v ++ r) (hoff : off = p.length) (hv : v < 2 ^ 32) :
    mem_read_int32 data off = some (v, off + 4) := by
  unfold mem_read_int32
  rw [mem_read_data_at hbuf hoff (le_bytes_length _ _).symm]
  simp [le_value_le_bytes]
  omega

theorem marshal_frame_eq (out : List Byte) (frame : rpc_frame)
    (hp : frame.payload_size ≤ frame.payload.length)
    (hcap : 8 + frame.payload_size ≤ out.length) :
    marshal_frame out frame
      = some (le_bytes 4 (frame.opcode % 2 ^ 32) ++ le_bytes 4 (frame.payload_size % 2 ^ 32)
          ++ frame.payload.take frame.payload_size ++ out.drop (8 + frame.payload_size),
          8 + frame.payload_size) := by
  unfold marshal_frame
  rw [mem_write_int32_at (p := []) (t := out) _ ?_ ?_ ?_]
  simp only [Option.bind_eq_bind, Option.some_bind]
  rw [mem_write_int32_at (p := [] ++ le_bytes 4 (frame.opcode % 2 ^ 32)) (t := out.drop 4) _
    ?_ ?_ ?_]
  simp only [Option.bind_eq_bind, Option.some_bind]
  rw [mem_write_data_at (p := [] ++ le_bytes 4 (frame.opcode % 2 ^ 32)
      ++ le_bytes 4 (frame.payload_size % 2 ^ 32)) (t := (out.drop 4).drop 4)
    ?_ ?_ hp ?_]
  simp [Nat.add_comm, Nat.add_left_comm]
  all_goals first | omega | (simp [le_bytes_length] <;> omega)

theorem read_frame_eq (op ps : Nat) (payload rest : List Byte) (frame : rpc_frame)
    (hop : op < 2 ^ 32) (hps : ps < 2 ^ 32) (hpos : 0 < ps) (hlen : payload.length = ps) :
    read_frame (le_bytes 4 op ++ le_bytes 4 ps ++ payload ++ rest) frame
      = some (true, { opcode := op, payload_size := ps, payload := payload }) := by
  unfold read_frame
  rw [mem_read_int32_at (p := []) (r := le_bytes 4 ps ++ payload ++ rest) op ?_ ?_ hop]
  simp only [Option.bind_eq_bind, Option.some_bind]
  rw [mem_read_int32_at (p := le_bytes 4 op) (r := payload ++ rest) ps ?_ ?_ hps]
  simp only [Option.bind_eq_bind, Option.some_bind]
  rw [if_neg (by omega)]
  rw [mem_read_data_at (p := le_bytes 4 op ++ le_bytes 4 ps) (a := payload) (r := rest)
    ?_ ?_ ?_]
  simp only [Option.bind_eq_bind, Option.some_bind]
  all_goals first | omega | (simp [le_bytes_length] <;> omega)

theorem marshal_resp_eq (out : List Byte) (resp : rpc_resp)
    (hp : resp.size ≤ resp.data.length) (hcap : 8 + resp.size ≤ out.length) :
    marshal_resp out resp
      = some (le_bytes 4 (to_u32 resp.err_no) ++ le_bytes 4 (resp.size % 2 ^ 32)
          ++ resp.data.take resp.size ++ out.drop (8 + resp.size), 8 + resp.size) := by
  unfold marshal_resp
  rw [mem_write_data_at (p := []) (t := out) ?_ ?_ ?_ ?_]
  simp only [Option.bind_eq_bind, Option.some_bind]
  rw [mem_write_int32_at (p := [] ++ List.take 4 (le_bytes 4 (to_u32 resp.err_no)))
    (t := out.drop 4) _ ?_ ?_ ?_]
  simp only [Option.bind_eq_bind, Option.some_bind]
  rw [mem_write_data_at (p := [] ++ List.take 4 (le_bytes 4 (to_u32 resp.err_no))
      ++ le_bytes 4 (resp.size % 2 ^ 32)) (t := (out.drop 4).drop 4) ?_ ?_ hp ?_]
  rw [List.take_of_length_le (le_of_eq (le_bytes_length _ _))]
  simp [Nat.add_comm, Nat.add_left_comm]
  all_goals first | omega | (simp [le_bytes_length] <;> omega)

theorem read_resp_eq (e : Int) (sz : Nat) (data rest : List Byte)
    (hlo : INT_MIN ≤ e) (hhi : e ≤ INT_MAX) (hsz : sz < 2 ^ 32) (hlen : data.length = sz) :
    read_resp (le_bytes 4 (to_u32 e) ++ le_bytes 4 sz ++ data ++ rest)
      = some { err_no := e, size := sz, data := data } := by
  unfold read_resp
  rw [mem_read_data_at (p := []) (a := le_bytes 4 (to_u32 e))
    (r := le_bytes 4 sz ++ data ++ rest) ?_ ?_ ?_]
  simp only [Option.bind_eq_bind, Option.some_bind]
  rw [mem_read_int32_at (p := le_bytes 4 (to_u32 e)) (r := data ++ rest) sz ?_ ?_ hsz]
  simp only [Option.bind_eq_bind, Option.some_bind]
  rw [mem_read_data_at (p := le_bytes 4 (to_u32 e) ++ le_bytes 4 sz) (a := data) (r := rest)
    ?_ ?_ ?_]
  simp only [Option.bind_eq_bind, Option.some_bind]
  rw [le_value_le_bytes, Nat.mod_eq_of_lt (by have := to_u32_lt e; omega), to_i32_to_u32 e hlo hhi]
  all_goals first | omega | (simp [le_bytes_length] <;> omega)

theorem mem_read_data_eq {data : List Byte} {off size : Nat} (h : off + size ≤ data.length) :
    mem_read_data data off size = some ((data.drop off).take size, off + size) := by
  unfold mem_read_data
  rw [if_pos h]

/-! ## Facts about C strings -/

theorem strlen_take {s : List Byte} {n : Nat} (h : strlen s = some n) :
    n + 1 ≤ s.length ∧ s.take (n + 1) = s.take n ++ [0] ∧ (∀ c ∈ s.take n, c ≠ 0) := by
  induction s generalizing n with
  | nil => simp [strlen] at h
  | cons c cs ih =>
    unfold strlen at h
    by_cases hc : c = 0
    · rw [if_pos hc] at h
      cases h
      subst hc
      simp
    · rw [if_neg hc] at h
      cases hcs : strlen cs with
      | none => simp [hcs] at h
      | some m =>
        rw [hcs] at h
        simp only [Option.map_some', Option.some.injEq] at h
        subst h
        obtain ⟨h1, h2, h3⟩ := ih hcs
        refine ⟨by simp; omega, ?_, ?_⟩
        · simp only [List.take_succ_cons, List.cons_append, h2]
        · intro x hx
          simp only [List.take_succ_cons, List.mem_cons] at hx
          rcases hx with hx | hx
          · rw [hx]
            exact hc
          · exact h3 x hx

theorem strlen_append_zero (s rest : List Byte) (h : ∀ c ∈ s, c ≠ 0) :
    strlen (s ++ 0 :: rest) = some s.length := by
  induction s with
  | nil => simp [strlen]
  | cons c cs ih =>
    have hc : c ≠ 0 := h c (by simp)
    have := ih (fun x hx => h x (by simp [hx]))
    simp [strlen, hc, this]

theorem strlen_take_succ {s : List Byte} {n : Nat} (h : strlen s = some n) :
    strlen (s.take (n + 1)) = some n ∧ is_cstring (s.take (n + 1)) = true
      ∧ (s.take (n + 1)).length = n + 1 := by
  obtain ⟨h1, h2, h3⟩ := strlen_take h
  have hl : (s.take n).length = n := by
    rw [List.length_take]
    omega
  refine ⟨?_, ?_, ?_⟩
  · rw [h2]
    have := strlen_append_zero (s.take n) [] h3
    rw [hl] at this
    exact this
  · rw [h2]
    unfold is_cstring
    simp only [List.getLast?_append, List.getLast?_singleton,
      List.dropLast_concat, Bool.and_eq_true, decide_eq_true_eq, List.all_eq_true]
    refine ⟨rfl, ?_⟩
    intro x hx
    simpa using h3 x hx
  · rw [List.length_take]
    omega

theorem strlen_of_is_cstring {s : List Byte} (h : is_cstring s = true) :
    ∃ n, strlen s = some n ∧ s.length = n + 1 := by
  unfold is_cstring at h
  simp only [Bool.and_eq_true, decide_eq_true_eq, List.all_eq_true] at h
  obtain ⟨h1, h2⟩ := h
  have hne : s ≠ [] := by
    intro h0
    subst h0
    simp at h1
  have hs : s = s.dropLast ++ [0] := by
    have := List.dropLast_append_getLast? (l := s) 0 (Option.mem_def.mpr h1)
    exact this.symm
  refine ⟨s.dropLast.length, ?_, ?_⟩
  · have := strlen_append_zero s.dropLast [] (fun c hc => by simpa using h2 c hc)
    rw [← hs] at this
    exact this
  · conv_lhs => rw [hs]
    simp

/-! ## Layout and decoding of the per-operation payloads -/

theorem mem_write_le_at {data p t : List Byte} {off : Nat} (w v : Nat)
    (hbuf : data = p ++ t) (hoff : off = p.length) (ht : w ≤ t.length) :
    mem_write_data data off (le_bytes w v) w
      = some (p ++ le_bytes w v ++ t.drop w, off + w) := by
  rw [mem_write_data_at hbuf hoff (le_of_eq (le_bytes_length _ _).symm) ht]
  rw [List.take_of_length_le (le_of_eq (le_bytes_length _ _))]

theorem mem_read_le_at {data p r : List Byte} {off : Nat} (w v : Nat)
    (hbuf : data = p ++ le_bytes w v ++ r) (hoff : off = p.length) :
    mem_read_data data off w = some (le_bytes w v, off + w) :=
  mem_read_data_at hbuf hoff (le_bytes_length _ _).symm

theorem mem_write_int16_at {data p t : List Byte} {off : Nat} (val : Nat)
    (hbuf : data = p ++ t) (hoff : off = p.length) (ht : 2 ≤ t.length) :
    mem_write_int16 data off val
      = some (p ++ le_bytes 2 (val % 2 ^ 16) ++ t.drop 2, off + 2) :=
  mem_write_le_at 2 _ hbuf hoff ht

theorem le_value_le_bytes_2 {v : Nat} (h : v < 2 ^ 16) : le_value (le_bytes 2 v) = v := by
  rw [le_value_le_bytes]
  omega

theorem le_value_le_bytes_4 {v : Nat} (h : v < 2 ^ 32) : le_value (le_bytes 4 v) = v := by
  rw [le_value_le_bytes]
  omega

theorem le_value_le_bytes_8 {v : Nat} (h : v < 2 ^ 64) : le_value (le_bytes 8 v) = v := by
  rw [le_value_le_bytes]
  omega

theorem mem_read_int16_at {data p r : List Byte} {off : Nat} (v : Nat)
    (hbuf : data = p ++ le_bytes 2 v ++ r) (hoff : off = p.length) (hv : v < 2 ^ 16) :
    mem_read_int16 data off = some (v, off + 2) := by
  unfold mem_read_int16
  rw [mem_read_le_at 2 v hbuf hoff]
  simp [le_value_le_bytes_2 hv]

theorem call_open_marshal_eq (out path : List Byte) (flags mode n : Nat)
    (hstr : strlen path = some n) (hcap : 10 + (n + 1) ≤ out.length) :
    call_open_marshal out path flags mode
      = some (le_bytes 4 (flags % 2 ^ 32) ++ le_bytes 2 (mode % 2 ^ 16)
          ++ le_bytes 4 ((n + 1) % 2 ^ 32) ++ path.take (n + 1) ++ out.drop (10 + (n + 1)),
          10 + (n + 1)) := by
  have hn := (strlen_take hstr).1
  unfold call_open_marshal
  rw [hstr]
  simp only [Option.bind_eq_bind, Option.some_bind]
  rw [mem_write_int32_at (p := []) (t := out) _ ?_ ?_ ?_]
  simp only [Option.bind_eq_bind, Option.some_bind]
  rw [mem_write_int16_at (p := [] ++ le_bytes 4 (flags % 2 ^ 32)) (t := out.drop 4) _
    ?_ ?_ ?_]
  simp only [Option.bind_eq_bind, Option.some_bind]
  rw [mem_write_int32_at (p := [] ++ le_bytes 4 (flags % 2 ^ 32) ++ le_bytes 2 (mode % 2 ^ 16))
    (t := (out.drop 4).drop 2) _ ?_ ?_ ?_]
  simp only [Option.bind_eq_bind, Option.some_bind]
  rw [mem_write_data_at (p := [] ++ le_bytes 4 (flags % 2 ^ 32) ++ le_bytes 2 (mode % 2 ^ 16)
      ++ le_bytes 4 ((n + 1) % 2 ^ 32)) (t := ((out.drop 4).drop 2).drop 4) ?_ ?_ hn ?_]
  simp [Nat.add_comm, Nat.add_left_comm]
  all_goals first | omega | (simp [le_bytes_length] <;> omega)

theorem call_open_unmarshal_eq (flags mode : Nat) (cpath rest : List Byte)
    (hflags : flags < 2 ^ 32) (hmode : mode < 2 ^ 16) (hlen : cpath.length < 2 ^ 32) :
    call_open_unmarshal (le_bytes 4 flags ++ le_bytes 2 mode ++ le_bytes 4 cpath.length
        ++ cpath ++ rest) = some (true, cpath, flags, mode) := by
  unfold call_open_unmarshal
  rw [mem_read_int32_at (p := [])
    (r := le_bytes 2 mode ++ le_bytes 4 cpath.length ++ cpath ++ rest) flags ?_ ?_ hflags]
  simp only [Option.bind_eq_bind, Option.some_bind]
  rw [mem_read_int16_at (p := le_bytes 4 flags)
    (r := le_bytes 4 cpath.length ++ cpath ++ rest) mode ?_ ?_ hmode]
  simp only [Option.bind_eq_bind, Option.some_bind]
  rw [mem_read_int32_at (p := le_bytes 4 flags ++ le_bytes 2 mode)
    (r := cpath ++ rest) cpath.length ?_ ?_ hlen]
  simp only [Option.bind_eq_bind, Option.some_bind]
  rw [mem_read_data_at (p := le_bytes 4 flags ++ le_bytes 2 mode ++ le_bytes 4 cpath.length)
    (a := cpath) (r := rest) ?_ ?_ ?_]
  simp only [Option.bind_eq_bind, Option.some_bind]
  all_goals first | omega | (simp [le_bytes_length] <;> omega)

theorem call_close_marshal_eq (out : List Byte) (fd : Int) (hcap : 4 ≤ out.length) :
    call_close_marshal out fd = some (le_bytes 4 (to_u32 fd) ++ out.drop 4, 4) := by
  unfold call_close_marshal
  rw [mem_write_int32_at (p := []) (t := out) _ ?_ ?_ hcap]
  rw [Nat.mod_eq_of_lt (to_u32_lt fd)]
  all_goals rfl

theorem call_close_unmarshal_eq (fd : Int) (rest : List Byte)
    (hlo : INT_MIN ≤ fd) (hhi : fd ≤ INT_MAX) :
    call_close_unmarshal (le_bytes 4 (to_u32 fd) ++ rest) = some (true, fd) := by
  unfold call_close_unmarshal
  rw [mem_read_int32_at (p := []) (r := rest) (to_u32 fd) ?_ ?_ (to_u32_lt fd)]
  simp only [Option.bind_eq_bind, Option.some_bind]
  rw [to_i32_to_u32 fd hlo hhi]
  all_goals rfl

theorem call_write_marshal_eq (out buf : List Byte) (fd : Int) (count : Nat)
    (hbuf : count ≤ buf.length) (hcap : 12 + count ≤ out.length) :
    call_write_marshal out fd buf count
      = some (le_bytes 4 (to_u32 fd) ++ le_bytes 8 count ++ buf.take count
          ++ out.drop (12 + count), 12 + count) := by
  unfold call_write_marshal
  rw [mem_write_int32_at (p := []) (t := out) _ ?_ ?_ ?_]
  simp only [Option.bind_eq_bind, Option.some_bind]
  rw [mem_write_le_at (p := [] ++ le_bytes 4 (to_u32 fd % 2 ^ 32)) (t := out.drop 4) 8 _
    ?_ ?_ ?_]
  simp only [Option.bind_eq_bind, Option.some_bind]
  rw [mem_write_data_at (p := [] ++ le_bytes 4 (to_u32 fd % 2 ^ 32) ++ le_bytes 8 count)
    (t := (out.drop 4).drop 8) ?_ ?_ hbuf ?_]
  rw [Nat.mod_eq_of_lt (to_u32_lt fd)]
  simp [Nat.add_comm, Nat.add_left_comm]
  all_goals first | omega | (simp [le_bytes_length] <;> omega)

theorem call_write_unmarshal_eq (fd : Int) (buf rest : List Byte)
    (hlo : INT_MIN ≤ fd) (hhi : fd ≤ INT_MAX) (hcount : buf.length < 2 ^ 64) :
    call_write_unmarshal (le_bytes 4 (to_u32 fd) ++ le_bytes 8 buf.length ++ buf ++ rest)
      = some (buf, fd, buf.length) := by
  unfold call_write_unmarshal
  rw [mem_read_int32_at (p := []) (r := le_bytes 8 buf.length ++ buf ++ rest) (to_u32 fd)
    ?_ ?_ (to_u32_lt fd)]
  simp only [Option.bind_eq_bind, Option.some_bind]
  rw [mem_read_le_at (p := le_bytes 4 (to_u32 fd)) (r := buf ++ rest) 8 buf.length ?_ ?_]
  simp only [Option.bind_eq_bind, Option.some_bind]
  rw [le_value_le_bytes_8 hcount]
  rw [mem_read_data_at (p := le_bytes 4 (to_u32 fd) ++ le_bytes 8 buf.length)
    (a := buf) (r := rest) ?_ ?_ ?_]
  simp only [Option.bind_eq_bind, Option.some_bind]
  rw [to_i32_to_u32 fd hlo hhi]
  all_goals first | omega | (simp [le_bytes_length] <;> omega)

theorem call_read_marshal_eq (out : List Byte) (fd : Int) (count : Nat)
    (hcap : 12 ≤ out.length) :
    call_read_marshal out fd count
      = some (le_bytes 4 (to_u32 fd) ++ le_bytes 8 count ++ out.drop 12, 12) := by
  unfold call_read_marshal
  rw [mem_write_int32_at (p := []) (t := out) _ ?_ ?_ ?_]
  simp only [Option.bind_eq_bind, Option.some_bind]
  rw [mem_write_le_at (p := [] ++ le_bytes 4 (to_u32 fd % 2 ^ 32)) (t := out.drop 4) 8 _
    ?_ ?_ ?_]
  rw [Nat.mod_eq_of_lt (to_u32_lt fd)]
  simp
  all_goals first | omega | (simp [le_bytes_length] <;> omega)

theorem call_read_unmarshal_eq (fd : Int) (count : Nat) (rest : List Byte)
    (hlo : INT_MIN ≤ fd) (hhi : fd ≤ INT_MAX) (hcount : count < 2 ^ 64) :
    call_read_unmarshal (le_bytes 4 (to_u32 fd) ++ le_bytes 8 count ++ rest)
      = some (true, fd, count) := by
  unfold call_read_unmarshal
  rw [mem_read_int32_at (p := []) (r := le_bytes 8 count ++ rest) (to_u32 fd)
    ?_ ?_ (to_u32_lt fd)]
  simp only [Option.bind_eq_bind, Option.some_bind]
  rw [mem_read_le_at (p := le_bytes 4 (to_u32 fd)) (r := rest) 8 count ?_ ?_]
  simp only [Option.bind_eq_bind, Option.some_bind]
  rw [le_value_le_bytes_8 hcount, to_i32_to_u32 fd hlo hhi]
  all_goals first | omega | (simp [le_bytes_length] <;> omega)

theorem call_lseek_marshal_eq (out : List Byte) (fd offset whence : Int)
    (hcap : 16 ≤ out.length) :
    call_lseek_marshal out fd offset whence
      = some (le_bytes 4 (to_u32 fd) ++ le_bytes 8 (to_u64 offset) ++ le_bytes 4 (to_u32 whence)
          ++ out.drop 16, 16) := by
  unfold call_lseek_marshal
  rw [mem_write_int32_at (p := []) (t := out) _ ?_ ?_ ?_]
  simp only [Option.bind_eq_bind, Option.some_bind]
  rw [mem_write_le_at (p := [] ++ le_bytes 4 (to_u32 fd % 2 ^ 32)) (t := out.drop 4) 8 _
    ?_ ?_ ?_]
  simp only [Option.bind_eq_bind, Option.some_bind]
  rw [mem_write_le_at (p := [] ++ le_bytes 4 (to_u32 fd % 2 ^ 32) ++ le_bytes 8 (to_u64 offset))
    (t := (out.drop 4).drop 8) 4 _ ?_ ?_ ?_]
  rw [Nat.mod_eq_of_lt (to_u32_lt fd)]
  simp
  all_goals first | omega | (simp [le_bytes_length] <;> omega)

theorem call_lseek_unmarshal_eq (fd offset whence : Int) (rest : List Byte)
    (hlo : INT_MIN ≤ fd) (hhi : fd ≤ INT_MAX) (holo : -2 ^ 63 ≤ offset) (hohi : offset < 2 ^ 63)
    (hwlo : INT_MIN ≤ whence) (hwhi : whence ≤ INT_MAX) :
    call_lseek_unmarshal (le_bytes 4 (to_u32 fd) ++ le_bytes 8 (to_u64 offset)
        ++ le_bytes 4 (to_u32 whence) ++ rest) = some (true, fd, offset, whence) := by
  unfold call_lseek_unmarshal
  rw [mem_read_int32_at (p := [])
    (r := le_bytes 8 (to_u64 offset) ++ le_bytes 4 (to_u32 whence) ++ rest) (to_u32 fd)
    ?_ ?_ (to_u32_lt fd)]
  simp only [Option.bind_eq_bind, Option.some_bind]
  rw [mem_read_le_at (p := le_bytes 4 (to_u32 fd)) (r := le_bytes 4 (to_u32 whence) ++ rest)
    8 (to_u64 offset) ?_ ?_]
  simp only [Option.bind_eq_bind, Option.some_bind]
  rw [mem_read_le_at (p := le_bytes 4 (to_u32 fd) ++ le_bytes 8 (to_u64 offset)) (r := rest)
    4 (to_u32 whence) ?_ ?_]
  simp only [Option.bind_eq_bind, Option.some_bind]
  rw [le_value_le_bytes_8 (to_u64_lt offset), le_value_le_bytes_4 (to_u32_lt whence),
    to_i32_to_u32 fd hlo hhi, to_i32_to_u32 whence hwlo hwhi, to_i64_to_u64 offset holo hohi]
  all_goals first | omega | (simp [le_bytes_length] <;> omega)

theorem call_stat_marshal_eq (out path : List Byte) (ver : Int) (n : Nat)
    (hstr : strlen path = some n) (hcap : 12 + (n + 1) ≤ out.length) :
    call_stat_marshal out ver path
      = some (le_bytes 4 (to_u32 ver) ++ le_bytes 8 (n + 1) ++ path.take (n + 1)
          ++ out.drop (12 + (n + 1)), 12 + (n + 1)) := by
  have hn := (strlen_take hstr).1
  unfold call_stat_marshal
  rw [hstr]
  simp only [Option.bind_eq_bind, Option.some_bind]
  rw [mem_write_int32_at (p := []) (t := out) _ ?_ ?_ ?_]
  simp only [Option.bind_eq_bind, Option.some_bind]
  rw [mem_write_le_at (p := [] ++ le_bytes 4 (to_u32 ver % 2 ^ 32)) (t := out.drop 4) 8 _
    ?_ ?_ ?_]
  simp only [Option.bind_eq_bind, Option.some_bind]
  rw [mem_write_data_at (p := [] ++ le_bytes 4 (to_u32 ver % 2 ^ 32) ++ le_bytes 8 (n + 1))
    (t := (out.drop 4).drop 8) ?_ ?_ hn ?_]
  rw [Nat.mod_eq_of_lt (to_u32_lt ver)]
  simp [Nat.add_comm, Nat.add_left_comm]
  all_goals first | omega | (simp [le_bytes_length] <;> omega)

theorem call_stat_unmarshal_eq (ver : Int) (cpath rest : List Byte)
    (hlo : INT_MIN ≤ ver) (hhi : ver ≤ INT_MAX) (hlen : cpath.length < 2 ^ 64) :
    call_stat_unmarshal (le_bytes 4 (to_u32 ver) ++ le_bytes 8 cpath.length ++ cpath ++ rest)
      = some (true, ver, cpath) := by
  unfold call_stat_unmarshal
  rw [mem_read_int32_at (p := []) (r := le_bytes 8 cpath.length ++ cpath ++ rest)
    (to_u32 ver) ?_ ?_ (to_u32_lt ver)]
  simp only [Option.bind_eq_bind, Option.some_bind]
  rw [mem_read_le_at (p := le_bytes 4 (to_u32 ver)) (r := cpath ++ rest) 8 cpath.length
    ?_ ?_]
  simp only [Option.bind_eq_bind, Option.some_bind]
  rw [le_value_le_bytes_8 hlen]
  rw [mem_read_data_at (p := le_bytes 4 (to_u32 ver) ++ le_bytes 8 cpath.length)
    (a := cpath) (r := rest) ?_ ?_ ?_]
  simp only [Option.bind_eq_bind, Option.some_bind]
  rw [to_i32_to_u32 ver hlo hhi]
  all_goals first | omega | (simp [le_bytes_length] <;> omega)

theorem call_unlink_marshal_eq (out path : List Byte) (n : Nat)
    (hstr : strlen path = some n) (hcap : 4 + (n + 1) ≤ out.length) :
    call_unlink_marshal out path
      = some (le_bytes 4 ((n + 1) % 2 ^ 32) ++ path.take (n + 1) ++ out.drop (4 + (n + 1)),
          4 + (n + 1)) := by
  have hn := (strlen_take hstr).1
  unfold call_unlink_marshal
  rw [hstr]
  simp only [Option.bind_eq_bind, Option.some_bind]
  rw [mem_write_int32_at (p := []) (t := out) _ ?_ ?_ ?_]
  simp only [Option.bind_eq_bind, Option.some_bind]
  rw [mem_write_data_at (p := [] ++ le_bytes 4 ((n + 1) % 2 ^ 32)) (t := out.drop 4)
    ?_ ?_ hn ?_]
  simp [Nat.add_comm, Nat.add_left_comm]
  all_goals first | omega | (simp [le_bytes_length] <;> omega)

theorem call_unlink_unmarshal_eq (cpath rest : List Byte) (hlen : cpath.length < 2 ^ 32) :
    call_unlink_unmarshal (le_bytes 4 cpath.length ++ cpath ++ rest) = some (true, cpath) := by
  unfold call_unlink_unmarshal
  rw [mem_read_int32_at (p := []) (r := cpath ++ rest) cpath.length ?_ ?_ hlen]
  simp only [Option.bind_eq_bind, Option.some_bind]
  rw [mem_read_data_at (p := le_bytes 4 cpath.length) (a := cpath) (r := rest) ?_ ?_ ?_]
  simp only [Option.bind_eq_bind, Option.some_bind]
  all_goals first | omega | (simp [le_bytes_length] <;> omega)

theorem call_getdirentries_marshal_eq (out : List Byte) (fd : Int) (nbytes : Nat) (basep : Int)
    (hcap : 20 ≤ out.length) :
    call_getdirentries_marshal out fd nbytes basep
      = some (le_bytes 4 (to_u32 fd) ++ le_bytes 8 (to_u64 basep) ++ le_bytes 8 nbytes
          ++ out.drop 20, 20) := by
  unfold call_getdirentries_marshal
  rw [mem_write_int32_at (p := []) (t := out) _ ?_ ?_ ?_]
  simp only [Option.bind_eq_bind, Option.some_bind]
  rw [mem_write_le_at (p := [] ++ le_bytes 4 (to_u32 fd % 2 ^ 32)) (t := out.drop 4) 8 _
    ?_ ?_ ?_]
  simp only [Option.bind_eq_bind, Option.some_bind]
  rw [mem_write_le_at (p := [] ++ le_bytes 4 (to_u32 fd % 2 ^ 32) ++ le_bytes 8 (to_u64 basep))
    (t := (out.drop 4).drop 8) 8 _ ?_ ?_ ?_]
  rw [Nat.mod_eq_of_lt (to_u32_lt fd)]
  simp
  all_goals first | omega | (simp [le_bytes_length] <;> omega)

theorem call_getdirentries_unmarshal_eq (fd : Int) (nbytes : Nat) (basep : Int)
    (rest : List Byte) (hlo : INT_MIN ≤ fd) (hhi : fd ≤ INT_MAX) (hn : nbytes < 2 ^ 64)
    (hblo : -2 ^ 63 ≤ basep) (hbhi : basep < 2 ^ 63) :
    call_getdirentries_unmarshal (le_bytes 4 (to_u32 fd) ++ le_bytes 8 (to_u64 basep)
        ++ le_bytes 8 nbytes ++ rest) = some (true, fd, nbytes, basep) := by
  unfold call_getdirentries_unmarshal
  rw [mem_read_int32_at (p := [])
    (r := le_bytes 8 (to_u64 basep) ++ le_bytes 8 nbytes ++ rest) (to_u32 fd)
    ?_ ?_ (to_u32_lt fd)]
  simp only [Option.bind_eq_bind, Option.some_bind]
  rw [mem_read_le_at (p := le_bytes 4 (to_u32 fd)) (r := le_bytes 8 nbytes ++ rest)
    8 (to_u64 basep) ?_ ?_]
  simp only [Option.bind_eq_bind, Option.some_bind]
  rw [mem_read_le_at (p := le_bytes 4 (to_u32 fd) ++ le_bytes 8 (to_u64 basep)) (r := rest)
    8 nbytes ?_ ?_]
  simp only [Option.bind_eq_bind, Option.some_bind]
  rw [le_value_le_bytes_8 (to_u64_lt basep), le_value_le_bytes_8 hn,
    to_i32_to_u32 fd hlo hhi, to_i64_to_u64 basep hblo hbhi]
  all_goals first | omega | (simp [le_bytes_length] <;> omega)

theorem call_dirtreenode_marshal_eq (out path : List Byte) (n : Nat)
    (hstr : strlen path = some n) (hn32 : n + 1 < 2 ^ 32) (hcap : 4 + (n + 1) ≤ out.length) :
    call_dirtreenode_marshal out path
      = some (le_bytes 4 (n + 1) ++ path.take (n + 1) ++ out.drop (4 + (n + 1)),
          4 + (n + 1)) := by
  have hn := (strlen_take hstr).1
  unfold call_dirtreenode_marshal
  rw [hstr]
  simp only [Option.bind_eq_bind, Option.some_bind]
  rw [Nat.mod_eq_of_lt hn32]
  rw [mem_write_int32_at (p := []) (t := out) _ ?_ ?_ ?_]
  simp only [Option.bind_eq_bind, Option.some_bind]
  rw [mem_write_data_at (p := [] ++ le_bytes 4 ((n + 1) % 2 ^ 32)) (t := out.drop 4)
    ?_ ?_ hn ?_]
  rw [Nat.mod_eq_of_lt hn32]
  simp [Nat.add_comm, Nat.add_left_comm]
  all_goals first | omega | (simp [le_bytes_length] <;> omega)

theorem call_dirtreenode_unmarshal_eq (cpath rest : List Byte) (hlen : cpath.length < 2 ^ 32) :
    call_dirtreenode_unmarshal (le_bytes 4 cpath.length ++ cpath ++ rest)
      = some (true, cpath) := by
  unfold call_dirtreenode_unmarshal
  rw [mem_read_int32_at (p := []) (r := cpath ++ rest) cpath.length ?_ ?_ hlen]
  simp only [Option.bind_eq_bind, Option.some_bind]
  rw [mem_read_data_at (p := le_bytes 4 cpath.length) (a := cpath) (r := rest) ?_ ?_ ?_]
  simp only [Option.bind_eq_bind, Option.some_bind]
  all_goals first | omega | (simp [le_bytes_length] <;> omega)

/-! ## Directory trees: layout written, layout read -/

theorem to_i32_of_lt {n : Nat} (h : n < 2 ^ 31) : to_i32 n = (n : Int) := by
  unfold to_i32
  rw [Nat.mod_eq_of_lt (by omega), if_pos h]

theorem to_u32_natCast {n : Nat} (h : n < 2 ^ 32) : to_u32 (n : Int) = n := by
  unfold to_u32
  omega

theorem to_u64_natCast {n : Nat} (h : n < 2 ^ 64) : to_u64 (n : Int) = n := by
  unfold to_u64
  omega

theorem tree_layout_length (name : List Byte) (nsub : Nat) (subdirs : List dirtreenode) :
    (tree_layout (.mk name nsub subdirs)).length
      = 4 + 8 + name.length + (forest_layout subdirs).length := by
  rw [tree_layout]
  simp only [List.length_append, le_bytes_length]

theorem forest_layout_cons_length (c : dirtreenode) (cs : List dirtreenode) :
    (forest_layout (c :: cs)).length = (tree_layout c).length + (forest_layout cs).length := by
  rw [forest_layout]
  simp only [List.length_append]

mutual
theorem tree_depth_le_layout : ∀ t : dirtreenode, tree_depth t ≤ (tree_layout t).length
  | .mk name nsub subdirs => by
    have ih := forest_depth_le_layout subdirs
    rw [tree_depth, tree_layout_length]
    omega
theorem forest_depth_le_layout : ∀ ts : List dirtreenode,
    forest_depth ts ≤ (forest_layout ts).length
  | [] => by simp [forest_depth]
  | c :: cs => by
    have ih1 := tree_depth_le_layout c
    have ih2 := forest_depth_le_layout cs
    rw [forest_depth, forest_layout_cons_length]
    omega
end

mutual
theorem mem_write_tree_layout : ∀ (t : dirtreenode) (buf pre tail : List Byte) (off : Nat),
    well_formed t = true → buf = pre ++ tail → off = pre.length →
    (tree_layout t).length ≤ tail.length →
    mem_write_tree t buf off
      = some (pre ++ tree_layout t ++ tail.drop (tree_layout t).length,
          off + (tree_layout t).length)
  | .mk name nsub subdirs, buf, pre, tail, off, hwf, hbuf, hoff, hcap => by
    rw [well_formed] at hwf
    simp only [Bool.and_eq_true, decide_eq_true_eq] at hwf
    obtain ⟨⟨⟨⟨hname, hlen⟩, hnsub⟩, hcount⟩, hsubs⟩ := hwf
    obtain ⟨n, hstr, hn⟩ := strlen_of_is_cstring hname
    rw [tree_layout_length] at hcap
    rw [mem_write_tree, hstr]
    simp only [Option.bind_eq_bind, Option.some_bind]
    rw [to_i32_of_lt (by omega : nsub < 2 ^ 31), to_u32_natCast (by omega : nsub < 2 ^ 32),
      to_u64_natCast (by omega : nsub < 2 ^ 64)]
    rw [mem_write_int32_at (p := pre) (t := tail) _ hbuf hoff (by omega)]
    simp only [Option.bind_eq_bind, Option.some_bind]
    rw [Nat.mod_eq_of_lt (by omega : nsub < 2 ^ 32)]
    rw [mem_write_le_at (p := pre ++ le_bytes 4 nsub) (t := tail.drop 4) 8 _ rfl
      (by simp only [List.length_append, le_bytes_length]; omega)
      (by simp only [List.length_drop]; omega)]
    simp only [Option.bind_eq_bind, Option.some_bind]
    rw [mem_write_data_at (p := pre ++ le_bytes 4 nsub ++ le_bytes 8 (n + 1))
      (t := (tail.drop 4).drop 8) rfl
      (by simp only [List.length_append, le_bytes_length]; omega)
      (by omega) (by simp only [List.length_drop]; omega)]
    simp only [Option.bind_eq_bind, Option.some_bind]
    rw [← hn, List.take_length, hnsub]
    rw [mem_write_subdirs_layout subdirs _
      (pre ++ le_bytes 4 subdirs.length ++ le_bytes 8 name.length ++ name)
      (((tail.drop 4).drop 8).drop name.length) _ hsubs rfl
      (by simp only [List.length_append, le_bytes_length]; omega)
      (by simp only [List.length_drop]; omega)]
    rw [tree_layout, Option.some.injEq, Prod.mk.injEq]
    constructor
    · simp only [List.append_assoc, List.drop_drop, List.length_append, le_bytes_length,
        List.append_cancel_left_eq]
      congr 1
      omega
    · simp only [List.length_append, le_bytes_length]
      omega
theorem mem_write_subdirs_layout : ∀ (ts : List dirtreenode) (buf pre tail : List Byte)
    (off : Nat), well_formed_all ts = true → buf = pre ++ tail → off = pre.length →
    (forest_layout ts).length ≤ tail.length →
    mem_write_subdirs ts ts.length buf off
      = some (pre ++ forest_layout ts ++ tail.drop (forest_layout ts).length,
          off + (forest_layout ts).length)
  | [], buf, pre, tail, off, _, hbuf, _, _ => by
    rw [List.length_nil, mem_write_subdirs, forest_layout, hbuf]
    simp
  | c :: cs, buf, pre, tail, off, hwf, hbuf, hoff, hcap => by
    rw [well_formed_all] at hwf
    simp only [Bool.and_eq_true] at hwf
    rw [forest_layout_cons_length] at hcap
    rw [List.length_cons, mem_write_subdirs,
      mem_write_tree_layout c buf pre tail off hwf.1 hbuf hoff (by omega)]
    simp only [Option.bind_eq_bind, Option.some_bind]
    rw [mem_write_subdirs_layout cs _ (pre ++ tree_layout c)
      (tail.drop (tree_layout c).length) _ hwf.2 rfl
      (by simp only [List.length_append]; omega)
      (by simp only [List.length_drop]; omega)]
    rw [forest_layout, Option.some.injEq, Prod.mk.injEq]
    constructor
    · simp only [List.append_assoc, List.drop_drop, List.length_append,
        List.append_cancel_left_eq]
    · simp only [List.length_append]
      omega
end

mutual
theorem mem_read_tree_fuel_layout : ∀ (t : dirtreenode) (fuel : Nat) (buf pre rest : List Byte)
    (off : Nat), well_formed t = true → tree_depth t ≤ fuel →
    buf = pre ++ tree_layout t ++ rest → off = pre.length →
    mem_read_tree_fuel fuel buf off = some (t, off + (tree_layout t).length)
  | .mk name nsub subdirs, fuel, buf, pre, rest, off, hwf, hd, hbuf, hoff => by
    rw [well_formed] at hwf
    simp only [Bool.and_eq_true, decide_eq_true_eq] at hwf
    obtain ⟨⟨⟨⟨_, hlen⟩, hnsub⟩, hcount⟩, hsubs⟩ := hwf
    rw [tree_depth] at hd
    obtain ⟨f, rfl⟩ : ∃ f, fuel = f + 1 := ⟨fuel - 1, by omega⟩
    rw [tree_layout] at hbuf
    rw [mem_read_tree_fuel]
    rw [mem_read_int32_at (p := pre)
      (r := le_bytes 8 name.length ++ name ++ forest_layout subdirs ++ rest) nsub
      (by rw [hbuf]; simp only [List.append_assoc]) hoff (by omega)]
    simp only [Option.bind_eq_bind, Option.some_bind]
    rw [mem_read_le_at (p := pre ++ le_bytes 4 nsub)
      (r := name ++ forest_layout subdirs ++ rest) 8 name.length
      (by rw [hbuf]; simp only [List.append_assoc])
      (by simp only [List.length_append, le_bytes_length]; omega)]
    simp only [Option.bind_eq_bind, Option.some_bind]
    rw [le_value_le_bytes_8 hlen]
    rw [mem_read_data_at (p := pre ++ le_bytes 4 nsub ++ le_bytes 8 name.length) (a := name)
      (r := forest_layout subdirs ++ rest)
      (by rw [hbuf]; simp only [List.append_assoc])
      (by simp only [List.length_append, le_bytes_length]; omega) rfl]
    simp only [Option.bind_eq_bind, Option.some_bind]
    rw [to_i32_of_lt (by omega : nsub < 2 ^ 31), to_u32_natCast (by omega : nsub < 2 ^ 32),
      to_u64_natCast (by omega : nsub < 2 ^ 64), hnsub]
    rw [mem_read_subdirs_layout subdirs f buf
      (pre ++ le_bytes 4 nsub ++ le_bytes 8 name.length ++ name) rest _ hsubs (by omega)
      (by rw [hbuf]; simp only [List.append_assoc])
      (by simp only [List.length_append, le_bytes_length]; omega)]
    simp only [Option.bind_eq_bind, Option.some_bind]
    rw [tree_layout_length, ← hnsub]
    simp only [Option.some.injEq, Prod.mk.injEq, true_and]
    omega
theorem mem_read_subdirs_layout : ∀ (ts : List dirtreenode) (fuel : Nat)
    (buf pre rest : List Byte) (off : Nat), well_formed_all ts = true → forest_depth ts ≤ fuel →
    buf = pre ++ forest_layout ts ++ rest → off = pre.length →
    mem_read_subdirs (mem_read_tree_fuel fuel buf) ts.length off
      = some (ts, off + (forest_layout ts).length)
  | [], fuel, buf, pre, rest, off, _, _, _, _ => by
    rw [List.length_nil, mem_read_subdirs, forest_layout]
    rfl
  | c :: cs, fuel, buf, pre, rest, off, hwf, hd, hbuf, hoff => by
    rw [well_formed_all] at hwf
    simp only [Bool.and_eq_true] at hwf
    rw [forest_depth] at hd
    rw [forest_layout] at hbuf
    rw [List.length_cons, mem_read_subdirs]
    rw [mem_read_tree_fuel_layout c fuel buf pre (forest_layout cs ++ rest) off hwf.1
      (by omega) (by rw [hbuf]; simp only [List.append_assoc]) hoff]
    simp only [Option.bind_eq_bind, Option.some_bind]
    rw [mem_read_subdirs_layout cs fuel buf (pre ++ tree_layout c) rest _ hwf.2 (by omega)
      (by rw [hbuf]; simp only [List.append_assoc])
      (by simp only [List.length_append]; omega)]
    simp only [Option.bind_eq_bind, Option.some_bind]
    rw [forest_layout_cons_length]
    simp only [Option.some.injEq, Prod.mk.injEq, true_and]
    omega
end

/-! ## The depth bound of `mem_read_tree` is immaterial -/

theorem mem_read_data_some {d b : List Byte} {o n o2 : Nat}
    (h : mem_read_data d o n = some (b, o2)) : o2 = o + n ∧ o + n ≤ d.length := by
  unfold mem_read_data at h
  split at h
  · simp only [Option.some.injEq, Prod.mk.injEq] at h
    exact ⟨h.2.symm, by assumption⟩
  · cases h

theorem mem_read_int32_some {d : List Byte} {o v o2 : Nat}
    (h : mem_read_int32 d o = some (v, o2)) : o2 = o + 4 ∧ o + 4 ≤ d.length := by
  unfold mem_read_int32 at h
  cases hr : mem_read_data d o 4 with
  | none => simp [hr] at h
  | some r =>
    obtain ⟨b, o3⟩ := r
    rw [hr] at h
    simp only [Option.map_some', Option.some.injEq, Prod.mk.injEq] at h
    have := mem_read_data_some hr
    omega

theorem mem_read_subdirs_progress (rd : Nat → Option (dirtreenode × Nat))
    (hrd : ∀ o c o2, rd o = some (c, o2) → o ≤ o2) :
    ∀ (n o : Nat) (ts : List dirtreenode) (o2 : Nat),
      mem_read_subdirs rd n o = some (ts, o2) → o ≤ o2 := by
  intro n
  induction n with
  | zero =>
    intro o ts o2 h
    simp only [mem_read_subdirs, Option.some.injEq, Prod.mk.injEq] at h
    omega
  | succ n ih =>
    intro o ts o2 h
    rw [mem_read_subdirs] at h
    simp only [Option.bind_eq_bind, Option.bind_eq_some] at h
    obtain ⟨⟨c, o1⟩, h1, ⟨cs, o3⟩, h2, h3⟩ := h
    simp only [Option.some.injEq, Prod.mk.injEq] at h3
    have := hrd o c o1 h1
    have := ih o1 cs o3 h2
    omega

theorem mem_read_tree_fuel_progress (buf : List Byte) :
    ∀ (f off : Nat) (t : dirtreenode) (off2 : Nat),
      mem_read_tree_fuel f buf off = some (t, off2) → off ≤ off2 := by
  intro f
  induction f with
  | zero =>
    intro off t off2 h
    simp [mem_read_tree_fuel] at h
  | succ f ih =>
    intro off t off2 h
    rw [mem_read_tree_fuel] at h
    simp only [Option.bind_eq_bind, Option.bind_eq_some] at h
    obtain ⟨⟨v, o1⟩, h1, ⟨l, o2⟩, h2, ⟨name, o3⟩, h3, ⟨subs, o4⟩, h4, h5⟩ := h
    simp only [Option.some.injEq, Prod.mk.injEq] at h5
    have := mem_read_int32_some h1
    have := mem_read_data_some h2
    have := mem_read_data_some h3
    have := mem_read_subdirs_progress _ ih _ _ _ _ h4
    omega

theorem mem_read_subdirs_congr (rd1 rd2 : Nat → Option (dirtreenode × Nat)) (o0 : Nat)
    (heq : ∀ o, o0 ≤ o → rd1 o = rd2 o) (hrd : ∀ o c o2, rd2 o = some (c, o2) → o ≤ o2) :
    ∀ (n o : Nat), o0 ≤ o → mem_read_subdirs rd1 n o = mem_read_subdirs rd2 n o := by
  intro n
  induction n with
  | zero =>
    intro o _
    rfl
  | succ n ih =>
    intro o ho
    rw [mem_read_subdirs, mem_read_subdirs, heq o ho]
    cases h : rd2 o with
    | none => rfl
    | some r =>
      obtain ⟨c, o1⟩ := r
      simp only [Option.bind_eq_bind, Option.some_bind]
      rw [ih o1 (le_trans ho (hrd o c o1 h))]

theorem mem_read_tree_fuel_irrelevant (buf : List Byte) :
    ∀ (f g off : Nat), f ≤ g → buf.length ≤ off + 12 * f →
      mem_read_tree_fuel g buf off = mem_read_tree_fuel f buf off := by
  intro f
  induction f with
  | zero =>
    intro g off _ hlen
    cases g with
    | zero => rfl
    | succ g =>
      rw [mem_read_tree_fuel, mem_read_tree_fuel]
      cases h : mem_read_int32 buf off with
      | none => rfl
      | some r =>
        obtain ⟨v, o1⟩ := r
        have := mem_read_int32_some h
        omega
  | succ f ih =>
    intro g off hg hlen
    obtain ⟨g, rfl⟩ : ∃ k, g = k + 1 := ⟨g - 1, by omega⟩
    rw [mem_read_tree_fuel, mem_read_tree_fuel]
    cases h1 : mem_read_int32 buf off with
    | none => rfl
    | some r1 =>
      obtain ⟨v, o1⟩ := r1
      simp only [Option.bind_eq_bind, Option.some_bind]
      cases h2 : mem_read_data buf o1 8 with
      | none => rfl
      | some r2 =>
        obtain ⟨l, o2⟩ := r2
        simp only [Option.bind_eq_bind, Option.some_bind]
        cases h3 : mem_read_data buf o2 (le_value l) with
        | none => rfl
        | some r3 =>
          obtain ⟨name, o3⟩ := r3
          simp only [Option.bind_eq_bind, Option.some_bind]
          have := mem_read_int32_some h1
          have := mem_read_data_some h2
          have := mem_read_data_some h3
          rw [mem_read_subdirs_congr (mem_read_tree_fuel g buf) (mem_read_tree_fuel f buf) o3
            (fun o ho => ih g o (by omega) (by omega))
            (mem_read_tree_fuel_progress buf f) _ o3 (le_refl _)]

theorem mem_read_tree_fuel_enough (buf : List Byte) (off g : Nat) (hg : buf.length ≤ g) :
    mem_read_tree_fuel g buf off = mem_read_tree buf off :=
  mem_read_tree_fuel_irrelevant buf buf.length g off hg (by omega)

/-! ## Responses of the handlers -/

theorem mem_write_le_malloc (w v : Nat) :
    mem_write_data (malloc w) 0 (le_bytes w v) w = some (le_bytes w v, w) := by
  rw [mem_write_le_at (p := []) (t := malloc w) w v ?_ ?_ ?_]
  all_goals simp [malloc]

theorem do_open_response_eq (fd errno : Int) :
    do_open_response fd errno = some ⟨errno, 4, le_bytes 4 (to_u32 (pack_fd fd))⟩ := by
  unfold do_open_response
  dsimp only
  rw [mem_write_le_malloc]
  rfl

/-! ## The sending loops -/

theorem defined_some {α : Type} (a : α) : defined (some a) = .ok a := rfl

theorem mem_write_data_eq {data val : List Byte} {off size : Nat}
    (h1 : size ≤ val.length) (h2 : off + size ≤ data.length) :
    mem_write_data data off val size
      = some (data.take off ++ val.take size ++ data.drop (off + size), off + size) := by
  unfold mem_write_data
  rw [if_pos ⟨h1, h2⟩]

theorem wire_append (l1 l2 : List io_event) : wire (l1 ++ l2) = wire l1 ++ wire l2 := by
  simp [wire]

theorem wire_cons_send (sockfd : Int) (len : Nat) (acc : List Byte) (evs : List io_event) :
    wire (.send sockfd len acc :: evs) = acc ++ wire evs := by
  simp [wire, accepted_bytes]

theorem send_all_inner_ok : ∀ (fuel : Nat) (w : world) (sockfd : Int) (buf : List Byte)
    (sent off : Nat), sent < off → off ≤ buf.length → off ≤ MAXMSGLEN → off - sent ≤ fuel →
    (∀ i, 1 ≤ w.accept i) →
    ∃ rv evs, send_all_inner fuel w sockfd buf sent off
        = .ok (rv, off, { w with sends := w.sends + evs.length, log := w.log ++ evs })
      ∧ 0 < rv ∧ wire evs = (buf.drop sent).take (off - sent)
      ∧ (∀ e ∈ evs, is_bounded_send sockfd e = true) := by
  intro fuel
  induction fuel with
  | zero =>
    intro w sockfd buf sent off h1 _ _ h3 _
    omega
  | succ fuel ih =>
    intro w sockfd buf sent off h1 h2 hmax h3 hacc
    have ha := hacc w.sends
    obtain ⟨k, hkeq, hk1, hk2⟩ : ∃ k, min (w.accept w.sends).toNat (off - sent) = k ∧ 1 ≤ k
        ∧ k ≤ off - sent := ⟨_, rfl, by omega, by omega⟩
    rw [send_all_inner]
    simp only [send, if_neg (by omega : ¬ w.accept w.sends < 0), hkeq]
    rw [if_pos (by omega)]
    simp only [Int.toNat_ofNat]
    have hbd : is_bounded_send sockfd (.send sockfd (off - sent) ((buf.drop sent).take k))
        = true := by
      simp only [is_bounded_send, Bool.and_eq_true, decide_eq_true_eq]
      exact ⟨⟨trivial, by omega⟩, by omega⟩
    by_cases hdone : sent + k ≥ off
    · rw [if_pos hdone]
      have hk3 : k = off - sent := by omega
      have hk4 : sent + k = off := by omega
      refine ⟨(k : Int), [.send sockfd (off - sent) ((buf.drop sent).take k)], ?_, by omega,
        ?_, ?_⟩
      · rw [hk4]
        rfl
      · rw [wire_cons_send, hk3]
        simp [wire]
      · intro e he
        simp only [List.mem_singleton] at he
        rw [he]
        exact hbd
    · rw [if_neg hdone]
      obtain ⟨rv, evs, h, hrv, hw, hb⟩ := ih
        { w with sends := w.sends + 1,
                 log := w.log ++ [.send sockfd (off - sent) ((buf.drop sent).take k)] }
        sockfd buf (sent + k) off (by omega) h2 hmax (by omega) hacc
      refine ⟨rv, .send sockfd (off - sent) ((buf.drop sent).take k) :: evs, ?_, hrv, ?_, ?_⟩
      · rw [h]
        simp only [List.length_cons, List.append_assoc, List.singleton_append, Nat.add_assoc,
          Nat.add_comm 1]
      · rw [wire_cons_send, hw]
        have e1 : off - sent = k + (off - (sent + k)) := by omega
        conv_rhs => rw [e1, List.take_add, List.drop_drop]
      · intro e he
        simp only [List.mem_cons] at he
        rcases he with he | he
        · rw [he]
          exact hbd
        · exact hb e he

theorem send_all_outer_ok : ∀ (fuel : Nat) (w : world) (sockfd : Int) (data : List Byte)
    (size : Nat) (buf : List Byte) (off pending : Nat),
    size ≤ data.length → pending ≤ size → buf.length = MAXMSGLEN → off ≤ 4 →
    (0 < pending ∨ off = 0) → pending + MAXMSGLEN + 1 ≤ fuel → (∀ i, 1 ≤ w.accept i) →
    ∃ evs, send_all_outer fuel w sockfd data size buf off pending
        = .ok { w with sends := w.sends + evs.length, log := w.log ++ evs }
      ∧ wire evs = buf.take off ++ (data.drop (size - pending)).take pending
      ∧ (∀ e ∈ evs, is_bounded_send sockfd e = true) := by
  intro fuel
  induction fuel with
  | zero =>
    intro w sockfd data size buf off pending _ _ _ _ _ h _
    omega
  | succ fuel ih =>
    intro w sockfd data size buf off pending hdata hpend hbuf hoff hpos hfuel hacc
    rw [send_all_outer]
    by_cases hp : pending > 0
    · rw [if_pos hp]
      obtain ⟨len, hleq, hl1, hl2, hl3⟩ : ∃ len,
          (if pending > MAXMSGLEN - off then MAXMSGLEN - off else pending) = len ∧ 1 ≤ len
          ∧ len ≤ pending ∧ off + len ≤ MAXMSGLEN := by
        refine ⟨_, rfl, ?_, ?_, ?_⟩ <;> (unfold MAXMSGLEN; split <;> omega)
      simp only [hleq]
      rw [mem_write_data_eq (by rw [List.length_drop]; omega) (by omega)]
      simp only [defined_some, bind, Except.bind]
      have hlen1 : ((data.drop (size - pending)).take len).length = len := by
        rw [List.length_take, List.length_drop]
        omega
      have hlen2 : (buf.take off ++ (data.drop (size - pending)).take len
          ++ buf.drop (off + len)).length = MAXMSGLEN := by
        simp only [List.length_append, List.length_take, List.length_drop, hlen1]
        omega
      obtain ⟨rv, evs1, h1, hrv, hw1, hb1⟩ := send_all_inner_ok fuel w sockfd
        (buf.take off ++ (data.drop (size - pending)).take len ++ buf.drop (off + len))
        0 (off + len) (by omega) (by omega) hl3 (by omega) hacc
      rw [h1]
      simp only [if_neg (by omega : ¬ rv < 0)]
      obtain ⟨evs2, h2, hw2, hb2⟩ := ih
        { w with sends := w.sends + evs1.length, log := w.log ++ evs1 } sockfd data size
        (buf.take off ++ (data.drop (size - pending)).take len ++ buf.drop (off + len))
        0 (pending - len) hdata (by omega) hlen2 (by omega) (Or.inr rfl) (by omega) hacc
      refine ⟨evs1 ++ evs2, ?_, ?_, ?_⟩
      · rw [h2]
        simp only [List.length_append, List.append_assoc, Nat.add_assoc]
      · rw [wire_append, hw1, hw2]
        have hto : (buf.take off).length = off := by
          rw [List.length_take]
          omega
        have e1 : (buf.take off ++ (data.drop (size - pending)).take len
            ++ buf.drop (off + len)).take (off + len)
            = buf.take off ++ (data.drop (size - pending)).take len := by
          apply List.take_left'
          simp only [List.length_append, hlen1, hto]
        have e2 : size - (pending - len) = (size - pending) + len := by omega
        have e3 := List.take_add (data.drop (size - pending)) len (pending - len)
        rw [show len + (pending - len) = pending by omega] at e3
        rw [List.drop_zero, Nat.sub_zero, e1, List.take_zero, List.nil_append, e2,
          ← List.drop_drop, e3]
        simp only [List.append_assoc]
      · intro e he
        rcases List.mem_append.mp he with he | he
        · exact hb1 e he
        · exact hb2 e he
    · rw [if_neg hp]
      refine ⟨[], ?_, ?_, ?_⟩
      · simp
      · have h0 : off = 0 := by omega
        have hp0 : pending = 0 := by omega
        rw [h0, hp0]
        rfl
      · intro e he
        cases he

theorem stack_array_length (w : world) (n : Nat) : (stack_array w n).length = n := by
  simp [stack_array]

theorem send_all_ok (fuel : Nat) (w : world) (sockfd : Int) (data : List Byte) (size : Nat)
    (hdata : size ≤ data.length) (hpos : 0 < size) (hfuel : size + MAXMSGLEN + 1 ≤ fuel)
    (hacc : ∀ i, 1 ≤ w.accept i) :
    ∃ evs, send_all fuel w sockfd data size
        = .ok { w with sends := w.sends + evs.length,
                       log := w.log ++ .send_all sockfd (data.take size) :: evs }
      ∧ wire evs = le_bytes 4 (to_u32 (to_i32 size)) ++ data.take size
      ∧ (∀ e ∈ evs, is_bounded_send sockfd e = true) := by
  unfold send_all
  dsimp only
  rw [mem_write_data_eq (le_of_eq (le_bytes_length _ _).symm)
    (by rw [stack_array_length]; unfold MAXMSGLEN; omega)]
  simp only [defined_some, bind, Except.bind]
  obtain ⟨evs, h, hw, hb⟩ := send_all_outer_ok fuel
    { w with log := w.log ++ [.send_all sockfd (data.take size)] } sockfd data size
    (List.take 0 (stack_array { w with log := w.log ++ [.send_all sockfd (data.take size)] }
        MAXMSGLEN)
      ++ List.take 4 (le_bytes 4 (to_u32 (to_i32 size)))
      ++ List.drop (0 + 4)
        (stack_array { w with log := w.log ++ [.send_all sockfd (data.take size)] } MAXMSGLEN))
    (0 + 4) size hdata (le_refl _)
    (by simp [stack_array_length, le_bytes_length, MAXMSGLEN]) (by omega) (Or.inl hpos) hfuel hacc
  refine ⟨evs, ?_, ?_, hb⟩
  · rw [h]
    simp only [List.append_assoc, List.singleton_append]
  · rw [hw, Nat.sub_self, List.drop_zero]
    simp [le_bytes_length]

/-! ## The framing loops only call `send` and `recv` -/

theorem transport_only_refl (w : world) : transport_only w w :=
  ⟨[], by simp, fun e he => by cases he⟩

theorem transport_only_trans {u v w : world} (h1 : transport_only u v)
    (h2 : transport_only v w) : transport_only u w := by
  obtain ⟨e1, h1, k1⟩ := h1
  obtain ⟨e2, h2, k2⟩ := h2
  refine ⟨e1 ++ e2, by rw [h2, h1, List.append_assoc], ?_⟩
  intro e he
  rcases List.mem_append.mp he with he | he
  · exact k1 e he
  · exact k2 e he

theorem send_transport_only (w : world) (sockfd : Int) (p : List Byte) (len : Nat) :
    transport_only w (send w sockfd p len).2 := by
  unfold send
  dsimp only
  split
  · exact ⟨_, rfl, fun e he => by simp only [List.mem_singleton] at he; rw [he]; rfl⟩
  · exact ⟨_, rfl, fun e he => by simp only [List.mem_singleton] at he; rw [he]; rfl⟩

theorem recv_transport_only (w : world) (sockfd : Int) (len : Nat) :
    transport_only w (recv w sockfd len).2.2 := by
  unfold recv
  dsimp only
  split
  · exact ⟨_, rfl, fun e he => by simp only [List.mem_singleton] at he; rw [he]; rfl⟩
  · exact ⟨_, rfl, fun e he => by simp only [List.mem_singleton] at he; rw [he]; rfl⟩

theorem send_all_inner_transport_only : ∀ (fuel : Nat) (w : world) (sockfd : Int)
    (buf : List Byte) (sent off : Nat) (r : Int × Nat × world),
    send_all_inner fuel w sockfd buf sent off = .ok r → transport_only w r.2.2 := by
  intro fuel
  induction fuel with
  | zero =>
    intro w sockfd buf sent off r h
    simp [send_all_inner] at h
  | succ fuel ih =>
    intro w sockfd buf sent off r h
    rw [send_all_inner] at h
    have hs := send_transport_only w sockfd (buf.drop sent) (off - sent)
    generalize send w sockfd (buf.drop sent) (off - sent) = sr at h hs
    obtain ⟨rv, w1⟩ := sr
    dsimp only at h hs
    split at h
    · split at h
      · cases h
        exact hs
      · exact transport_only_trans hs (ih _ _ _ _ _ _ h)
    · cases h
      exact hs

theorem send_all_outer_transport_only : ∀ (fuel : Nat) (w : world) (sockfd : Int)
    (data : List Byte) (size : Nat) (buf : List Byte) (off pending : Nat) (v : world),
    send_all_outer fuel w sockfd data size buf off pending = .ok v → transport_only w v := by
  intro fuel
  induction fuel with
  | zero =>
    intro w sockfd data size buf off pending v h
    simp [send_all_outer] at h
  | succ fuel ih =>
    intro w sockfd data size buf off pending v h
    rw [send_all_outer] at h
    split at h
    · simp only [bind, Except.bind] at h
      split at h
      · cases h
      · rename_i x hx
        obtain ⟨buf1, off1⟩ := x
        dsimp only at h
        split at h
        · cases h
        · rename_i y hy
          obtain ⟨rv, sent, w1⟩ := y
          dsimp only at h
          split at h
          · cases h
          · exact transport_only_trans
              (send_all_inner_transport_only _ _ _ _ _ _ _ hy) (ih _ _ _ _ _ _ _ _ h)
    · cases h
      exact transport_only_refl w

theorem recv_prefix_loop_transport_only : ∀ (fuel : Nat) (w : world) (sockfd : Int)
    (buf : List Byte) (received : Int) (r : List Byte × Int × world),
    recv_prefix_loop fuel w sockfd buf received = .ok r → transport_only w r.2.2 := by
  intro fuel
  induction fuel with
  | zero =>
    intro w sockfd buf received r h
    simp [recv_prefix_loop] at h
  | succ fuel ih =>
    intro w sockfd buf received r h
    rw [recv_prefix_loop] at h
    split at h
    · have hs := recv_transport_only w sockfd (to_u64 ((MAXMSGLEN : Int) - received))
      generalize recv w sockfd (to_u64 ((MAXMSGLEN : Int) - received)) = rr at h hs
      obtain ⟨rv, bytes, w1⟩ := rr
      simp only [bind, Except.bind] at h hs
      split at h
      · cases h
      · rename_i x hx
        split at h
        · cases h
        · exact transport_only_trans hs (ih _ _ _ _ _ h)
    · cases h
      exact transport_only_refl w

theorem recv_payload_loop_transport_only : ∀ (fuel : Nat) (w : world) (sockfd : Int)
    (buf data : List Byte) (off : Nat) (frame_size : Int) (r : List Byte × List Byte × world),
    recv_payload_loop fuel w sockfd buf data off frame_size = .ok r →
      transport_only w r.2.2 := by
  intro fuel
  induction fuel with
  | zero =>
    intro w sockfd buf data off frame_size r h
    simp [recv_payload_loop] at h
  | succ fuel ih =>
    intro w sockfd buf data off frame_size r h
    rw [recv_payload_loop] at h
    split at h
    · have hs := recv_transport_only w sockfd MAXMSGLEN
      generalize recv w sockfd MAXMSGLEN = rr at h hs
      obtain ⟨rv, bytes, w1⟩ := rr
      simp only [bind, Except.bind] at h hs
      split at h
      · cases h
      · rename_i x hx
        split at h
        · cases h
        · split at h
          · cases h
          · exact transport_only_trans hs (ih _ _ _ _ _ _ _ h)
    · cases h
      exact transport_only_refl w

theorem recv_frame_rest_transport_only (fuel : Nat) (w : world) (sockfd : Int)
    (buf : List Byte) (rv : Int) (r : List Byte × List Byte × world)
    (h : recv_frame_rest fuel w sockfd buf rv = .ok r) : transport_only w r.2.2 := by
  unfold recv_frame_rest at h
  simp only [bind, Except.bind] at h
  split at h
  · cases h
  · rename_i x hx
    obtain ⟨buf1, received, w1⟩ := x
    dsimp only at h
    split at h
    · cases h
    · split at h
      · cases h
      · exact transport_only_trans (recv_prefix_loop_transport_only _ _ _ _ _ _ hx)
          (recv_payload_loop_transport_only _ _ _ _ _ _ _ _ h)

theorem send_request_recv_transport_only (fuel : Nat) (w : world) (sockfd : Int)
    (r : List Byte × world) (h : send_request_recv fuel w sockfd = .ok r) :
    transport_only w r.2 := by
  unfold send_request_recv at h
  have hs := recv_transport_only w sockfd MAXMSGLEN
  generalize recv w sockfd MAXMSGLEN = rr at h hs
  obtain ⟨rv, bytes, w1⟩ := rr
  simp only [bind, Except.bind] at h hs
  split at h
  · cases h
  · split at h
    · cases h
    · rename_i y hy
      cases h
      exact transport_only_trans hs (recv_frame_rest_transport_only _ _ _ _ _ _ hy)

/-! ## The receiving loops reassemble the frame -/

theorem recv_deliver (w : world) (sockfd : Int) (len : Nat) (h : 1 ≤ w.deliver w.recvs) :
    ∃ k : Nat, recv w sockfd len
        = ((k : Int), w.incoming.take k,
            { w with incoming := w.incoming.drop k, recvs := w.recvs + 1,
                     log := w.log ++ [.recv sockfd len (k : Int)] })
      ∧ k ≤ len ∧ k ≤ w.incoming.length ∧ (0 < len → 0 < w.incoming.length → 1 ≤ k) := by
  unfold recv
  dsimp only
  rw [if_neg (by omega)]
  refine ⟨_, rfl, by omega, by omega, ?_⟩
  intro h1 h2
  have : 0 < (w.deliver w.recvs).toNat := by omega
  omega

theorem to_u64_sub_natCast (a b : Nat) (h : b ≤ a) (ha : a < 2 ^ 64) :
    to_u64 ((a : Int) - (b : Int)) = a - b := by
  unfold to_u64
  omega

theorem recv_prefix_loop_ok : ∀ (fuel : Nat) (w : world) (sockfd : Int) (buf : List Byte)
    (r : Nat) (S : List Byte), buf.length = MAXMSGLEN → r ≤ S.length → 5 ≤ S.length →
    r ≤ MAXMSGLEN → buf.take r = S.take r → w.incoming = S.drop r → (4 - r) + 1 ≤ fuel →
    (∀ i, 1 ≤ w.deliver i) →
    ∃ (buf1 : List Byte) (R : Nat) (w1 : world),
      recv_prefix_loop fuel w sockfd buf (r : Int) = .ok (buf1, (R : Int), w1)
      ∧ 4 ≤ R ∧ R ≤ MAXMSGLEN ∧ R ≤ S.length ∧ buf1.length = MAXMSGLEN
      ∧ buf1.take R = S.take R ∧ w1.incoming = S.drop R ∧ w1.deliver = w.deliver := by
  intro fuel
  induction fuel with
  | zero =>
    intro w sockfd buf r S _ _ _ _ _ _ h _
    omega
  | succ fuel ih =>
    intro w sockfd buf r S hbuf hr hS hmax htake hinc hfuel hdel
    rw [recv_prefix_loop]
    have hu : to_u64 (r : Int) = r := to_u64_natCast (by unfold MAXMSGLEN at hmax; omega)
    rw [hu]
    by_cases h4 : r < 4
    · rw [if_pos h4]
      have hlen : to_u64 ((MAXMSGLEN : Int) - (r : Int)) = MAXMSGLEN - r :=
        to_u64_sub_natCast MAXMSGLEN r hmax (by decide)
      rw [hlen]
      obtain ⟨k, hk, hk1, hk2, hk3⟩ := recv_deliver w sockfd (MAXMSGLEN - r) (hdel _)
      have hil : w.incoming.length = S.length - r := by
        rw [hinc, List.length_drop]
      have hkpos : 1 ≤ k := hk3 (by unfold MAXMSGLEN; omega) (by omega)
      rw [hk]
      have hbl : (w.incoming.take k).length = k := by
        rw [List.length_take]
        omega
      simp only [hbl, bind, Except.bind]
      rw [mem_write_data_eq (by omega) (by omega)]
      simp only [defined_some]
      rw [if_neg (by omega)]
      have hcast : (r : Int) + (k : Int) = ((r + k : Nat) : Int) := by omega
      rw [hcast]
      have hto : (buf.take r).length = r := by
        rw [List.length_take]
        omega
      have hnew : (buf.take r ++ (w.incoming.take k).take k ++ buf.drop (r + k)).take (r + k)
          = S.take (r + k) := by
        rw [List.take_left' (by simp only [List.length_append, List.length_take]; omega),
          List.take_take, Nat.min_self, htake, hinc, List.take_add]
      obtain ⟨buf1, R, w1, h1, hR1, hR2, hR3, hb1, ht1, hi1, hd1⟩ := ih
        { w with incoming := w.incoming.drop k, recvs := w.recvs + 1,
                 log := w.log ++ [.recv sockfd (MAXMSGLEN - r) (k : Int)] }
        sockfd (buf.take r ++ (w.incoming.take k).take k ++ buf.drop (r + k)) (r + k) S
        (by simp only [List.length_append, List.length_take, List.length_drop]; omega)
        (by omega) hS (by omega) hnew
        (by simp only [hinc, List.drop_drop]) (by omega) hdel
      exact ⟨buf1, R, w1, h1, hR1, hR2, hR3, hb1, ht1, hi1, hd1⟩
    · rw [if_neg h4]
      exact ⟨buf, r, w, rfl, by omega, hmax, hr, hbuf, htake, hinc, rfl⟩

theorem recv_payload_loop_ok : ∀ (fuel : Nat) (w : world) (sockfd : Int)
    (buf data : List Byte) (off n : Nat) (payload : List Byte), buf.length = MAXMSGLEN →
    data.length = n → payload.length = n → off ≤ n → n < 2 ^ 63 →
    data.take off = payload.take off → w.incoming = payload.drop off → (n - off) + 1 ≤ fuel →
    (∀ i, 1 ≤ w.deliver i) →
    ∃ (buf1 : List Byte) (w1 : world),
      recv_payload_loop fuel w sockfd buf data off (n : Int) = .ok (payload, buf1, w1)
      ∧ buf1.length = MAXMSGLEN ∧ w1.incoming = [] ∧ w1.deliver = w.deliver
      ∧ transport_only w w1 := by
  intro fuel
  induction fuel with
  | zero =>
    intro w sockfd buf data off n payload _ _ _ _ _ _ _ h _
    omega
  | succ fuel ih =>
    intro w sockfd buf data off n payload hbuf hdata hpay hoff hn htake hinc hfuel hdel
    rw [recv_payload_loop]
    have hu : to_u64 (n : Int) = n := to_u64_natCast (by omega)
    rw [hu]
    by_cases hlt : off < n
    · rw [if_pos hlt]
      obtain ⟨k, hk, hk1, hk2, hk3⟩ := recv_deliver w sockfd MAXMSGLEN (hdel _)
      have hil : w.incoming.length = n - off := by
        rw [hinc, List.length_drop, hpay]
      have hkpos : 1 ≤ k := hk3 (by decide) (by omega)
      have hkmax : k ≤ 4096 := hk1
      rw [hk]
      have hbl : (w.incoming.take k).length = k := by
        rw [List.length_take]
        omega
      simp only [hbl, bind, Except.bind]
      rw [mem_write_data_eq (by omega) (by omega)]
      simp only [defined_some]
      rw [if_neg (by omega)]
      have huk : to_u64 (k : Int) = k := to_u64_natCast (by omega)
      have hb1l : (buf.take 0 ++ (w.incoming.take k).take k ++ buf.drop (0 + k)).length
          = MAXMSGLEN := by
        simp only [List.length_append, List.length_take, List.length_drop]
        omega
      rw [huk, mem_write_data_eq (by omega) (by omega)]
      simp only [defined_some]
      have hb1t : (buf.take 0 ++ (w.incoming.take k).take k ++ buf.drop (0 + k)).take k
          = (payload.drop off).take k := by
        rw [List.take_zero, List.nil_append, List.take_take, Nat.min_self,
          List.take_left' hbl, hinc]
      have hdto : (data.take off).length = off := by
        rw [List.length_take]
        omega
      obtain ⟨buf1, w1, h1, hl1, hi1, hd1, ht1⟩ := ih
        { w with incoming := w.incoming.drop k, recvs := w.recvs + 1,
                 log := w.log ++ [.recv sockfd MAXMSGLEN (k : Int)] }
        sockfd (buf.take 0 ++ (w.incoming.take k).take k ++ buf.drop (0 + k))
        (data.take off
          ++ (buf.take 0 ++ (w.incoming.take k).take k ++ buf.drop (0 + k)).take k
          ++ data.drop (off + k))
        (off + k) n payload hb1l
        (by simp only [List.length_append, List.length_take, List.length_drop, hb1l]; omega)
        hpay (by omega) hn
        (by
          rw [hb1t, List.take_left'
            (by simp only [List.length_append, List.length_take, List.length_drop, hdto]; omega),
            htake, List.take_add])
        (by simp only [hinc, List.drop_drop]) (by omega) hdel
      refine ⟨buf1, w1, h1, hl1, hi1, hd1, ?_⟩
      refine transport_only_trans ?_ ht1
      exact ⟨_, rfl, fun e he => by simp only [List.mem_singleton] at he; rw [he]; rfl⟩
    · rw [if_neg hlt]
      have hon : off = n := by omega
      have hd : data = payload := by
        have h1 : data.take off = data := List.take_of_length_le (by omega)
        have h2 : payload.take off = payload := List.take_of_length_le (by omega)
        rw [← h1, ← h2]
        exact htake
      refine ⟨buf, w, by rw [hd], hbuf, ?_, rfl, transport_only_refl w⟩
      rw [hinc]
      exact List.drop_eq_nil_of_le (by omega)

theorem recv_frame_rest_ok (fuel : Nat) (w : world) (sockfd : Int) (buf : List Byte)
    (r n : Nat) (payload : List Byte) (hbuf : buf.length = MAXMSGLEN) (hpos : 0 < n)
    (hn : n < 2 ^ 31) (hpay : payload.length = n) (hr : r ≤ 4 + n) (hmax : r ≤ MAXMSGLEN)
    (htake : buf.take r = (le_bytes 4 n ++ payload).take r)
    (hinc : w.incoming = (le_bytes 4 n ++ payload).drop r) (hfuel : n + 5 ≤ fuel)
    (hdel : ∀ i, 1 ≤ w.deliver i) :
    ∃ (buf1 : List Byte) (w1 : world),
      recv_frame_rest fuel w sockfd buf (r : Int) = .ok (payload, buf1, w1)
      ∧ buf1.length = MAXMSGLEN ∧ w1.incoming = [] ∧ w1.deliver = w.deliver := by
  have hS : (le_bytes 4 n ++ payload).length = 4 + n := by
    simp only [List.length_append, le_bytes_length, hpay]
  obtain ⟨buf1, R, w1, h1, hR1, hR2, hR3, hb1, ht1, hi1, hd1⟩ :=
    recv_prefix_loop_ok fuel w sockfd buf r (le_bytes 4 n ++ payload) hbuf (by omega) (by omega)
      hmax htake hinc (by omega) hdel
  unfold recv_frame_rest
  simp only [bind, Except.bind, h1]
  have h4 : buf1.take 4 = le_bytes 4 n := by
    have e1 : buf1.take 4 = (buf1.take R).take 4 := by
      rw [List.take_take, Nat.min_eq_left hR1]
    rw [e1, ht1, List.take_take, Nat.min_eq_left hR1, List.take_left' (le_bytes_length _ _)]
  rw [h4, le_value_le_bytes_4 (by omega), to_i32_of_lt hn]
  rw [if_neg (by omega)]
  have hres : to_u64 ((R : Int) - 4) = R - 4 :=
    to_u64_sub_natCast R 4 hR1 (by unfold MAXMSGLEN at hR2; omega)
  rw [hres, Int.toNat_ofNat]
  have hml : (malloc n).length = n := by
    simp only [malloc, List.length_replicate]
  rw [mem_write_data_eq (by rw [List.length_drop]; omega) (by rw [hml]; omega)]
  simp only [defined_some]
  have hresidue : (buf1.drop 4).take (R - 4) = payload.take (R - 4) := by
    rw [← List.drop_take, ht1, List.drop_take, List.drop_left' (le_bytes_length _ _)]
  have hrl : ((buf1.drop 4).take (R - 4)).length = R - 4 := by
    rw [List.length_take, List.length_drop]
    omega
  obtain ⟨buf2, w2, h2, hb2, hi2, hd2, _⟩ := recv_payload_loop_ok fuel w1 sockfd buf1
    ((malloc n).take 0 ++ (buf1.drop 4).take (R - 4) ++ (malloc n).drop (0 + (R - 4)))
    (0 + (R - 4)) n payload hb1
    (by simp only [List.length_append, List.length_take, List.length_drop, hml]; omega)
    hpay (by omega) (by omega)
    (by
      rw [List.take_zero, List.nil_append, Nat.zero_add, List.take_left' hrl, hresidue])
    (by
      have hdl : (le_bytes 4 n ++ payload).drop 4 = payload :=
        List.drop_left' (le_bytes_length 4 n)
      rw [hi1, Nat.zero_add]
      conv_rhs => rw [← hdl, List.drop_drop]
      congr 1
      omega)
    (by omega) (by rw [hd1]; exact hdel)
  rw [h2]
  exact ⟨buf2, w2, rfl, hb2, hi2, by rw [hd2, hd1]⟩

theorem first_recv_eq (w : world) (sockfd : Int) (S : List Byte) (hS : 1 ≤ S.length)
    (hinc : w.incoming = S) (hdel : ∀ i, 1 ≤ w.deliver i) :
    ∃ k : Nat, 1 ≤ k ∧ k ≤ MAXMSGLEN ∧ k ≤ S.length
      ∧ recv w sockfd MAXMSGLEN
        = ((k : Int), S.take k,
            { w with incoming := S.drop k, recvs := w.recvs + 1,
                     log := w.log ++ [.recv sockfd MAXMSGLEN (k : Int)] }) := by
  obtain ⟨k, hk, hk1, hk2, hk3⟩ := recv_deliver w sockfd MAXMSGLEN (hdel _)
  rw [hinc] at hk hk2 hk3
  exact ⟨k, hk3 (by decide) (by omega), hk1, hk2, hk⟩

theorem send_request_recv_ok (fuel : Nat) (w : world) (sockfd : Int) (n : Nat)
    (payload : List Byte) (hpos : 0 < n) (hn : n < 2 ^ 31) (hpay : payload.length = n)
    (hinc : w.incoming = le_bytes 4 n ++ payload) (hfuel : n + 5 ≤ fuel)
    (hdel : ∀ i, 1 ≤ w.deliver i) :
    ∃ w1 : world, send_request_recv fuel w sockfd = .ok (payload, w1) ∧ w1.incoming = [] := by
  have hS : (le_bytes 4 n ++ payload).length = 4 + n := by
    simp only [List.length_append, le_bytes_length, hpay]
  obtain ⟨k, hk1, hk2, hk3, hk⟩ := first_recv_eq w sockfd (le_bytes 4 n ++ payload) (by omega)
    hinc hdel
  have hbl : ((le_bytes 4 n ++ payload).take k).length = k := by
    rw [List.length_take]
    omega
  unfold send_request_recv
  simp only [hk, hbl, bind, Except.bind]
  rw [mem_write_data_eq (by omega) (by rw [stack_array_length]; omega)]
  simp only [defined_some]
  obtain ⟨buf1, w1, h1, _, hi1, _⟩ := recv_frame_rest_ok fuel
    { w with incoming := (le_bytes 4 n ++ payload).drop k, recvs := w.recvs + 1,
             log := w.log ++ [.recv sockfd MAXMSGLEN (k : Int)] }
    sockfd
    ((stack_array w MAXMSGLEN).take 0 ++ ((le_bytes 4 n ++ payload).take k).take k
      ++ (stack_array w MAXMSGLEN).drop (0 + k))
    k n payload
    (by rw [List.length_append, List.length_append, List.take_take, Nat.min_self, hbl,
          List.length_take, List.length_drop, stack_array_length]
        omega)
    hpos hn hpay (by omega) hk2
    (by rw [List.take_zero, List.nil_append, List.take_take, Nat.min_self,
          List.take_left' hbl])
    rfl hfuel hdel
  rw [h1]
  exact ⟨w1, rfl, hi1⟩

theorem handle_session_recv_ok (fuel : Nat) (w : world) (sessfd : Int) (buf : List Byte)
    (n : Nat) (payload : List Byte) (hbuf : buf.length = MAXMSGLEN) (hpos : 0 < n)
    (hn : n < 2 ^ 31) (hpay : payload.length = n)
    (hinc : w.incoming = le_bytes 4 n ++ payload) (hfuel : n + 5 ≤ fuel)
    (hdel : ∀ i, 1 ≤ w.deliver i) :
    ∃ (buf1 : List Byte) (w1 : world),
      handle_session_recv fuel w sessfd buf = .ok (some payload, buf1, w1)
      ∧ w1.incoming = [] := by
  have hS : (le_bytes 4 n ++ payload).length = 4 + n := by
    simp only [List.length_append, le_bytes_length, hpay]
  obtain ⟨k, hk1, hk2, hk3, hk⟩ := first_recv_eq w sessfd (le_bytes 4 n ++ payload) (by omega)
    hinc hdel
  have hbl : ((le_bytes 4 n ++ payload).take k).length = k := by
    rw [List.length_take]
    omega
  unfold handle_session_recv
  simp only [hk, hbl, bind, Except.bind]
  rw [mem_write_data_eq (by omega) (by omega)]
  simp only [defined_some]
  rw [if_pos (by omega)]
  obtain ⟨buf1, w1, h1, _, hi1, _⟩ := recv_frame_rest_ok fuel
    { w with incoming := (le_bytes 4 n ++ payload).drop k, recvs := w.recvs + 1,
             log := w.log ++ [.recv sessfd MAXMSGLEN (k : Int)] }
    sessfd
    (buf.take 0 ++ ((le_bytes 4 n ++ payload).take k).take k ++ buf.drop (0 + k))
    k n payload
    (by rw [List.length_append, List.length_append, List.take_take, Nat.min_self, hbl,
          List.length_take, List.length_drop]
        omega)
    hpos hn hpay (by omega) hk2
    (by rw [List.take_zero, List.nil_append, List.take_take, Nat.min_self,
          List.take_left' hbl])
    rfl hfuel hdel
  rw [h1]
  exact ⟨buf1, w1, rfl, hi1⟩

theorem recv_frame_rest_negative (fuel : Nat) (w : world) (sockfd : Int) (buf : List Byte)
    (r n : Nat) (payload : List Byte) (hbuf : buf.length = MAXMSGLEN) (hlo : 2 ^ 31 ≤ n)
    (hhi : n < 2 ^ 32) (hpay : 1 ≤ payload.length) (hr : r ≤ 4 + payload.length)
    (hmax : r ≤ MAXMSGLEN) (htake : buf.take r = (le_bytes 4 n ++ payload).take r)
    (hinc : w.incoming = (le_bytes 4 n ++ payload).drop r) (hfuel : 5 ≤ fuel)
    (hdel : ∀ i, 1 ≤ w.deliver i) :
    recv_frame_rest fuel w sockfd buf (r : Int) = .error .fatal := by
  have hS : (le_bytes 4 n ++ payload).length = 4 + payload.length := by
    simp only [List.length_append, le_bytes_length]
  obtain ⟨buf1, R, w1, h1, hR1, hR2, hR3, hb1, ht1, hi1, hd1⟩ :=
    recv_prefix_loop_ok fuel w sockfd buf r (le_bytes 4 n ++ payload) hbuf (by omega) (by omega)
      hmax htake hinc (by omega) hdel
  unfold recv_frame_rest
  simp only [bind, Except.bind, h1]
  have h4 : buf1.take 4 = le_bytes 4 n := by
    have e1 : buf1.take 4 = (buf1.take R).take 4 := by
      rw [List.take_take, Nat.min_eq_left hR1]
    rw [e1, ht1, List.take_take, Nat.min_eq_left hR1, List.take_left' (le_bytes_length _ _)]
  have hneg : to_i32 n ≤ 0 := by
    unfold to_i32
    split <;> omega
  rw [h4, le_value_le_bytes_4 hhi, if_pos hneg]

theorem send_request_recv_negative (fuel : Nat) (w : world) (sockfd : Int) (n : Nat)
    (payload : List Byte) (hlo : 2 ^ 31 ≤ n) (hhi : n < 2 ^ 32) (hpay : 1 ≤ payload.length)
    (hinc : w.incoming = le_bytes 4 n ++ payload) (hfuel : 5 ≤ fuel)
    (hdel : ∀ i, 1 ≤ w.deliver i) :
    send_request_recv fuel w sockfd = .error .fatal := by
  have hS : (le_bytes 4 n ++ payload).length = 4 + payload.length := by
    simp only [List.length_append, le_bytes_length]
  obtain ⟨k, hk1, hk2, hk3, hk⟩ := first_recv_eq w sockfd (le_bytes 4 n ++ payload) (by omega)
    hinc hdel
  have hbl : ((le_bytes 4 n ++ payload).take k).length = k := by
    rw [List.length_take]
    omega
  unfold send_request_recv
  simp only [hk, hbl, bind, Except.bind]
  rw [mem_write_data_eq (by omega) (by rw [stack_array_length]; omega)]
  simp only [defined_some]
  rw [recv_frame_rest_negative fuel
    { w with incoming := (le_bytes 4 n ++ payload).drop k, recvs := w.recvs + 1,
             log := w.log ++ [.recv sockfd MAXMSGLEN (k : Int)] }
    sockfd
    ((stack_array w MAXMSGLEN).take 0 ++ ((le_bytes 4 n ++ payload).take k).take k
      ++ (stack_array w MAXMSGLEN).drop (0 + k))
    k n payload
    (by rw [List.length_append, List.length_append, List.take_take, Nat.min_self, hbl,
          List.length_take, List.length_drop, stack_array_length]
        omega)
    hlo hhi hpay (by omega) hk2
    (by rw [List.take_zero, List.nil_append, List.take_take, Nat.min_self,
          List.take_left' hbl])
    rfl hfuel hdel]

theorem handle_session_recv_negative (fuel : Nat) (w : world) (sessfd : Int)
    (buf : List Byte) (n : Nat) (payload : List Byte) (hbuf : buf.length = MAXMSGLEN)
    (hlo : 2 ^ 31 ≤ n) (hhi : n < 2 ^ 32) (hpay : 1 ≤ payload.length)
    (hinc : w.incoming = le_bytes 4 n ++ payload) (hfuel : 5 ≤ fuel)
    (hdel : ∀ i, 1 ≤ w.deliver i) :
    handle_session_recv fuel w sessfd buf = .error .fatal := by
  have hS : (le_bytes 4 n ++ payload).length = 4 + payload.length := by
    simp only [List.length_append, le_bytes_length]
  obtain ⟨k, hk1, hk2, hk3, hk⟩ := first_recv_eq w sessfd (le_bytes 4 n ++ payload) (by omega)
    hinc hdel
  have hbl : ((le_bytes 4 n ++ payload).take k).length = k := by
    rw [List.length_take]
    omega
  unfold handle_session_recv
  simp only [hk, hbl, bind, Except.bind]
  rw [mem_write_data_eq (by omega) (by omega)]
  simp only [defined_some]
  rw [if_pos (by omega)]
  rw [recv_frame_rest_negative fuel
    { w with incoming := (le_bytes 4 n ++ payload).drop k, recvs := w.recvs + 1,
             log := w.log ++ [.recv sessfd MAXMSGLEN (k : Int)] }
    sessfd
    (buf.take 0 ++ ((le_bytes 4 n ++ payload).take k).take k ++ buf.drop (0 + k))
    k n payload
    (by rw [List.length_append, List.length_append, List.take_take, Nat.min_self, hbl,
          List.length_take, List.length_drop]
        omega)
    hlo hhi hpay (by omega) hk2
    (by rw [List.take_zero, List.nil_append, List.take_take, Nat.min_self,
          List.take_left' hbl])
    rfl hfuel hdel]

/-! ## One request, one response: `send_request` -/

theorem bind_eq_ok {α β : Type} {x : result α} {f : α → result β} {b : β}
    (h : x >>= f = .ok b) : ∃ a, x = .ok a ∧ f a = .ok b := by
  cases x with
  | error e => cases h
  | ok a => exact ⟨a, rfl, h⟩

theorem ok_bind {α β : Type} (a : α) (f : α → result β) :
    ((Except.ok a : result α) >>= f) = f a := rfl

theorem send_all_log (fuel : Nat) (w : world) (sockfd : Int) (data : List Byte) (size : Nat)
    (v : world) (h : send_all fuel w sockfd data size = .ok v) :
    ∃ evs, v.log = w.log ++ io_event.send_all sockfd (data.take size) :: evs
      ∧ ∀ e ∈ evs, is_transport_event e = true := by
  unfold send_all at h
  obtain ⟨⟨buf, off⟩, _, h⟩ := bind_eq_ok h
  obtain ⟨evs, h1, h2⟩ := send_all_outer_transport_only _ _ _ _ _ _ _ _ _ h
  refine ⟨evs, ?_, h2⟩
  rw [h1]
  simp only [List.append_assoc, List.singleton_append]

theorem get_socket_fd_eq (w : world) (s : client_state) (sockfd : Int) (s1 : client_state)
    (w1 : world) (h : get_socket_fd w s = .ok (sockfd, s1, w1)) :
    sockfd = session_socket w s ∧ s1 = { s with _sockfd := session_socket w s }
    ∧ w1 = { w with log := w.log
        ++ (if s._sockfd < 0 then [io_event.connect (session_socket w s)] else []) } := by
  unfold get_socket_fd init_client at h
  unfold session_socket
  by_cases hs : s._sockfd < 0
  · rw [if_pos hs] at h
    simp only [if_pos hs]
    obtain ⟨⟨sock, w2⟩, h1, h⟩ := bind_eq_ok h
    dsimp only at h1 h
    split at h1
    · cases h1
    · split at h1
      · cases h1
      · cases h1
        cases h
        exact ⟨rfl, rfl, rfl⟩
  · rw [if_neg hs] at h
    simp only [if_neg hs]
    cases h
    refine ⟨rfl, ?_, ?_⟩
    · cases s
      simp only [session_socket] at hs ⊢
    · simp only [List.append_nil]

theorem send_request_log (fuel : Nat) (w : world) (s : client_state) (msg : List Byte)
    (sz : Nat) (resp : rpc_resp) (s1 : client_state) (w1 : world)
    (h : send_request fuel w s msg sz = .ok (resp, s1, w1)) :
    s1 = { s with _sockfd := session_socket w s }
    ∧ sent_request s w w1 (session_socket w s) (msg.take sz) := by
  unfold send_request at h
  obtain ⟨⟨sockfd, s2, w2⟩, hg, h⟩ := bind_eq_ok h
  obtain ⟨rfl, rfl, rfl⟩ := get_socket_fd_eq _ _ _ _ _ hg
  dsimp only at h
  split at h
  · cases h
  · obtain ⟨w3, hsa, h⟩ := bind_eq_ok h
    obtain ⟨⟨data, w4⟩, hrc, h⟩ := bind_eq_ok h
    obtain ⟨resp2, _, h⟩ := bind_eq_ok h
    cases h
    obtain ⟨e1, h1, k1⟩ := send_all_log _ _ _ _ _ _ hsa
    obtain ⟨e2, h2, k2⟩ := send_request_recv_transport_only _ _ _ _ hrc
    refine ⟨rfl, e1 ++ e2, ?_, ?_⟩
    · dsimp only at h2 h1 ⊢
      rw [h2, h1]
      simp only [List.append_assoc, List.cons_append]
    · intro e he
      rcases List.mem_append.mp he with he | he
      · exact k1 e he
      · exact k2 e he

theorem get_socket_fd_ok (w : world) (s : client_state)
    (hconn : s._sockfd < 0 → 0 ≤ w.socket_result ∧ 0 ≤ w.connect_result) :
    get_socket_fd w s = .ok (session_socket w s, { s with _sockfd := session_socket w s },
      { w with log := w.log
          ++ (if s._sockfd < 0 then [io_event.connect (session_socket w s)] else []) })
    ∧ (0 ≤ s._sockfd ∨ 0 ≤ w.socket_result) := by
  unfold get_socket_fd init_client session_socket
  by_cases hs : s._sockfd < 0
  · obtain ⟨h1, h2⟩ := hconn hs
    simp only [if_pos hs]
    rw [if_neg (by omega), if_neg (by omega)]
    exact ⟨rfl, Or.inr h1⟩
  · simp only [if_neg hs]
    refine ⟨?_, Or.inl (by omega)⟩
    cases s
    simp only [List.append_nil]

theorem send_request_ok (fuel : Nat) (w : world) (s : client_state) (msg : List Byte)
    (sz : Nat) (resp : rpc_resp) (hans : answers w s resp) (hsz : sz ≤ msg.length)
    (hpos : 0 < sz) (hfuel : sz + resp.size + 4110 ≤ fuel) :
    ∃ w1, send_request fuel w s msg sz
        = .ok (resp, { s with _sockfd := session_socket w s }, w1) := by
  obtain ⟨hacc, hdel, hconn, hlo, hhi, hlen, hsize, hinc⟩ := hans
  obtain ⟨hg, h0⟩ := get_socket_fd_ok w s hconn
  have hsock : ¬ session_socket w s < 0 := by
    unfold session_socket
    split <;> omega
  unfold send_request
  rw [hg, ok_bind]
  dsimp only
  rw [if_neg hsock]
  obtain ⟨evs, hsa, _, _⟩ := send_all_ok fuel
    { w with log := w.log
        ++ (if s._sockfd < 0 then [io_event.connect (session_socket w s)] else []) }
    (session_socket w s) msg sz hsz hpos (by unfold MAXMSGLEN; omega) hacc
  rw [hsa, ok_bind]
  obtain ⟨w1, hrc, _⟩ := send_request_recv_ok fuel
    { w with sends := w.sends + evs.length,
             log := w.log
               ++ (if s._sockfd < 0 then [io_event.connect (session_socket w s)] else [])
               ++ io_event.send_all (session_socket w s) (msg.take sz) :: evs }
    (session_socket w s) (8 + resp.size)
    (le_bytes 4 (to_u32 resp.err_no) ++ le_bytes 4 resp.size ++ resp.data)
    (by omega) hsize
    (by simp only [List.length_append, le_bytes_length, hlen])
    hinc (by omega) hdel
  rw [hrc, ok_bind]
  dsimp only
  have hr : read_resp (le_bytes 4 (to_u32 resp.err_no) ++ le_bytes 4 resp.size ++ resp.data)
      = some resp := by
    have h := read_resp_eq resp.err_no resp.size resp.data [] hlo hhi (by omega) hlen
    rwa [List.append_nil] at h
  rw [hr, defined_some, ok_bind]
  exact ⟨w1, rfl⟩


/-! ## The stubs in cooperating surroundings -/

theorem malloc_length (n : Nat) : (malloc n).length = n := by
  simp only [malloc, List.length_replicate]

theorem marshal_frame_request (op n cap : Nat) (payload : List Byte) (hop : op < 2 ^ 32)
    (hn : n ≤ payload.length) (hcap : 8 + n ≤ cap) (hn32 : n < 2 ^ 32) :
    ∃ msg, marshal_frame (malloc cap) ⟨op, n % 2 ^ 32, payload⟩ = some (msg, 8 + n)
      ∧ 8 + n ≤ msg.length
      ∧ msg.take (8 + n) = le_bytes 4 op ++ le_bytes 4 n ++ payload.take n := by
  have hmod : n % 2 ^ 32 = n := Nat.mod_eq_of_lt hn32
  have hmod2 : op % 2 ^ 32 = op := Nat.mod_eq_of_lt hop
  have hlen : (payload.take n).length = n := by
    rw [List.length_take]
    omega
  refine ⟨le_bytes 4 op ++ le_bytes 4 n ++ payload.take n ++ (malloc cap).drop (8 + n),
    ?_, ?_, ?_⟩
  · rw [marshal_frame_eq _ _ (by dsimp only; omega) (by rw [malloc_length]; dsimp only; omega)]
    dsimp only
    rw [hmod, hmod, hmod2]
  · simp only [List.length_append, le_bytes_length, hlen, List.length_drop, malloc_length]
    omega
  · apply List.take_left'
    simp only [List.length_append, le_bytes_length, hlen]

theorem mem_read_data_head (a rest : List Byte) (n : Nat) (h : a.length = n) :
    mem_read_data (a ++ rest) 0 n = some (a, n) := by
  rw [mem_read_data_eq (by rw [List.length_append]; omega), List.drop_zero,
    List.take_left' h, Nat.zero_add]

theorem to_u64_toNat (r : Int) (h0 : 0 ≤ r) (h1 : r < 2 ^ 63) : to_u64 r = r.toNat := by
  unfold to_u64
  omega

theorem read_marshalled (fd : Int) (count : Nat) :
    ∃ payload msg, call_read_marshal (malloc BUFFERLEN) fd count = some (payload, 12)
      ∧ marshal_frame (malloc BUFFERLEN) ⟨OP_READ, 12 % 2 ^ 32, payload⟩ = some (msg, 20)
      ∧ 20 ≤ msg.length
      ∧ msg.take 20 = le_bytes 4 OP_READ ++ le_bytes 4 12
          ++ (le_bytes 4 (to_u32 fd) ++ le_bytes 8 count) := by
  have h1 := call_read_marshal_eq (malloc BUFFERLEN) fd count
    (by rw [malloc_length]; decide)
  obtain ⟨msg, h2, h3, h4⟩ := marshal_frame_request OP_READ 12 BUFFERLEN
    (le_bytes 4 (to_u32 fd) ++ le_bytes 8 count ++ (malloc BUFFERLEN).drop 12) (by decide)
    (by simp only [List.length_append, le_bytes_length]; omega) (by decide) (by decide)
  refine ⟨_, msg, h1, h2, h3, ?_⟩
  rw [h4, List.take_left' (by simp only [List.length_append, le_bytes_length])]

theorem close_marshalled (fd : Int) :
    ∃ payload msg, call_close_marshal (malloc BUFFERLEN) fd = some (payload, 4)
      ∧ marshal_frame (malloc BUFFERLEN) ⟨OP_CLOSE, 4 % 2 ^ 32, payload⟩ = some (msg, 12)
      ∧ 12 ≤ msg.length
      ∧ msg.take 12 = le_bytes 4 OP_CLOSE ++ le_bytes 4 4 ++ le_bytes 4 (to_u32 fd) := by
  have h1 := call_close_marshal_eq (malloc BUFFERLEN) fd (by rw [malloc_length]; decide)
  obtain ⟨msg, h2, h3, h4⟩ := marshal_frame_request OP_CLOSE 4 BUFFERLEN
    (le_bytes 4 (to_u32 fd) ++ (malloc BUFFERLEN).drop 4) (by decide)
    (by simp only [List.length_append, le_bytes_length]; omega) (by decide) (by decide)
  refine ⟨_, msg, h1, h2, h3, ?_⟩
  rw [h4, List.take_left' (le_bytes_length _ _)]

theorem lseek_marshalled (fd offset whence : Int) :
    ∃ payload msg, call_lseek_marshal (malloc BUFFERLEN) fd offset whence = some (payload, 16)
      ∧ marshal_frame (malloc BUFFERLEN) ⟨OP_LSEEK, 16 % 2 ^ 32, payload⟩ = some (msg, 24)
      ∧ 24 ≤ msg.length
      ∧ msg.take 24 = le_bytes 4 OP_LSEEK ++ le_bytes 4 16
          ++ (le_bytes 4 (to_u32 fd) ++ le_bytes 8 (to_u64 offset)
            ++ le_bytes 4 (to_u32 whence)) := by
  have h1 := call_lseek_marshal_eq (malloc BUFFERLEN) fd offset whence
    (by rw [malloc_length]; decide)
  obtain ⟨msg, h2, h3, h4⟩ := marshal_frame_request OP_LSEEK 16 BUFFERLEN
    (le_bytes 4 (to_u32 fd) ++ le_bytes 8 (to_u64 offset) ++ le_bytes 4 (to_u32 whence)
      ++ (malloc BUFFERLEN).drop 16) (by decide)
    (by simp only [List.length_append, le_bytes_length]; omega) (by decide) (by decide)
  refine ⟨_, msg, h1, h2, h3, ?_⟩
  rw [h4, List.take_left' (by simp only [List.length_append, le_bytes_length])]

theorem getdirentries_marshalled (fd : Int) (nbytes : Nat) (basep : Int) :
    ∃ payload msg,
      call_getdirentries_marshal (malloc BUFFERLEN) fd nbytes basep = some (payload, 20)
      ∧ marshal_frame (malloc BUFFERLEN) ⟨OP_GETDIR, 20 % 2 ^ 32, payload⟩ = some (msg, 28)
      ∧ 28 ≤ msg.length
      ∧ msg.take 28 = le_bytes 4 OP_GETDIR ++ le_bytes 4 20
          ++ (le_bytes 4 (to_u32 fd) ++ le_bytes 8 (to_u64 basep) ++ le_bytes 8 nbytes) := by
  have h1 := call_getdirentries_marshal_eq (malloc BUFFERLEN) fd nbytes basep
    (by rw [malloc_length]; decide)
  obtain ⟨msg, h2, h3, h4⟩ := marshal_frame_request OP_GETDIR 20 BUFFERLEN
    (le_bytes 4 (to_u32 fd) ++ le_bytes 8 (to_u64 basep) ++ le_bytes 8 nbytes
      ++ (malloc BUFFERLEN).drop 20) (by decide)
    (by simp only [List.length_append, le_bytes_length]; omega) (by decide) (by decide)
  refine ⟨_, msg, h1, h2, h3, ?_⟩
  rw [h4, List.take_left' (by simp only [List.length_append, le_bytes_length])]

theorem close_remote_ok (fuel : Nat) (w : world) (s : client_state) (fd : Int)
    (resp : rpc_resp) (r : Int) (rest : List Byte)
    (hfd : ¬ fd < s.min_fd) (hans : answers w s resp)
    (hdata : resp.data = le_bytes 4 (to_u32 r) ++ rest) (hlo : INT_MIN ≤ r) (hhi : r ≤ INT_MAX)
    (hov : s.opened_fd ≠ INT_MIN) (hfuel : resp.size + 8300 ≤ fuel) :
    ∃ w1, sent_request s w w1 (session_socket w s)
          (le_bytes 4 OP_CLOSE ++ le_bytes 4 4 ++ le_bytes 4 (to_u32 fd))
      ∧ close fuel w s fd
        = .ok (r,
            (if r = 0 then
              (if s.opened_fd - 1 = 0 then
                { s with _sockfd := -1, opened_fd := s.opened_fd - 1 }
              else { s with _sockfd := session_socket w s, opened_fd := s.opened_fd - 1 })
            else { s with _sockfd := session_socket w s,
                          errno := if r < 0 then resp.err_no else s.errno }),
            (if r = 0 ∧ s.opened_fd - 1 = 0 then
              { w1 with log := w1.log ++ [io_event.orig_close (session_socket w s)] }
            else w1)) := by
  obtain ⟨payload, msg, h1, h2, h3, h4⟩ := close_marshalled fd
  obtain ⟨w1, hsr⟩ := send_request_ok fuel w s msg 12 resp hans h3 (by omega) (by omega)
  obtain ⟨_, hlog⟩ := send_request_log _ _ _ _ _ _ _ _ hsr
  rw [h4] at hlog
  refine ⟨w1, hlog, ?_⟩
  unfold close
  rw [if_neg hfd, h1, defined_some, ok_bind]
  dsimp only
  rw [h2, defined_some, ok_bind]
  dsimp only
  rw [hsr, ok_bind]
  dsimp only
  rw [hdata, mem_read_data_head _ _ 4 (le_bytes_length _ _), defined_some, ok_bind]
  dsimp only
  rw [le_value_le_bytes_4 (to_u32_lt r), to_i32_to_u32 r hlo hhi]
  by_cases hr : r = 0
  · have hneg : ¬ r < 0 := by omega
    simp only [if_pos hr, if_neg hov, if_neg hneg]
    by_cases h0 : s.opened_fd - 1 = 0
    · simp only [if_pos h0, ok_bind, hr, true_and, if_true]
    · simp only [if_neg h0, ok_bind, hr, true_and, if_false]
  · simp only [if_neg hr, ok_bind, hr, false_and, if_false]
    by_cases hneg : r < 0
    · simp only [if_pos hneg]
    · simp only [if_neg hneg]

theorem lseek_remote_ok (fuel : Nat) (w : world) (s : client_state) (fd offset whence : Int)
    (resp : rpc_resp) (r : Int) (rest : List Byte)
    (hop : s.opened_fd ≠ 0) (hans : answers w s resp)
    (hdata : resp.data = le_bytes 8 (to_u64 r) ++ rest) (hlo : -2 ^ 63 ≤ r) (hhi : r < 2 ^ 63)
    (hfuel : resp.size + 8300 ≤ fuel) :
    ∃ w1, sent_request s w w1 (session_socket w s)
          (le_bytes 4 OP_LSEEK ++ le_bytes 4 16
            ++ (le_bytes 4 (to_u32 fd) ++ le_bytes 8 (to_u64 offset)
              ++ le_bytes 4 (to_u32 whence)))
      ∧ lseek fuel w s fd offset whence
        = .ok (r, { s with _sockfd := session_socket w s,
                           errno := if r < 0 then resp.err_no else s.errno }, w1) := by
  obtain ⟨payload, msg, h1, h2, h3, h4⟩ := lseek_marshalled fd offset whence
  obtain ⟨w1, hsr⟩ := send_request_ok fuel w s msg 24 resp hans h3 (by omega) (by omega)
  obtain ⟨_, hlog⟩ := send_request_log _ _ _ _ _ _ _ _ hsr
  rw [h4] at hlog
  refine ⟨w1, hlog, ?_⟩
  unfold lseek
  rw [if_neg hop, h1, defined_some, ok_bind]
  dsimp only
  rw [h2, defined_some, ok_bind]
  dsimp only
  rw [hsr, ok_bind]
  dsimp only
  rw [hdata, mem_read_data_head _ _ 8 (le_bytes_length _ _), defined_some, ok_bind]
  dsimp only
  rw [le_value_le_bytes_8 (to_u64_lt r), to_i64_to_u64 r hlo hhi]
  by_cases hneg : r < 0
  · simp only [if_pos hneg]
  · simp only [if_neg hneg]

theorem getdirentries_remote_ok (fuel : Nat) (w : world) (s : client_state) (fd : Int)
    (buf : List Byte) (nbytes : Nat) (basep : Int) (resp : rpc_resp) (r bp : Int)
    (bytes : List Byte) (hop : s.opened_fd ≠ 0) (hans : answers w s resp)
    (hdata : resp.data = le_bytes 8 (to_u64 r) ++ le_bytes 8 (to_u64 bp) ++ bytes)
    (hlo : -2 ^ 63 ≤ r) (hhi : r < 2 ^ 63) (hblo : -2 ^ 63 ≤ bp) (hbhi : bp < 2 ^ 63)
    (hfit : 0 < r → r.toNat ≤ bytes.length ∧ r.toNat ≤ buf.length)
    (hfuel : resp.size + 8300 ≤ fuel) :
    ∃ w1, sent_request s w w1 (session_socket w s)
          (le_bytes 4 OP_GETDIR ++ le_bytes 4 20
            ++ (le_bytes 4 (to_u32 fd) ++ le_bytes 8 (to_u64 basep) ++ le_bytes 8 nbytes))
      ∧ getdirentries fuel w s fd buf nbytes basep
        = .ok (r, (if 0 < r then bytes.take r.toNat ++ buf.drop r.toNat else buf), bp,
            { s with _sockfd := session_socket w s,
                     errno := if r < 0 then resp.err_no else s.errno }, w1) := by
  obtain ⟨payload, msg, h1, h2, h3, h4⟩ := getdirentries_marshalled fd nbytes basep
  obtain ⟨w1, hsr⟩ := send_request_ok fuel w s msg 28 resp hans h3 (by omega) (by omega)
  obtain ⟨_, hlog⟩ := send_request_log _ _ _ _ _ _ _ _ hsr
  rw [h4] at hlog
  refine ⟨w1, hlog, ?_⟩
  unfold getdirentries
  rw [if_neg hop, h1, defined_some, ok_bind]
  dsimp only
  rw [h2, defined_some, ok_bind]
  dsimp only
  rw [hsr, ok_bind]
  dsimp only
  rw [hdata, List.append_assoc, mem_read_data_head _ _ 8 (le_bytes_length _ _), defined_some,
    ok_bind]
  dsimp only
  rw [mem_read_data_eq (by simp only [List.length_append, le_bytes_length]; omega),
    defined_some, ok_bind]
  dsimp only
  rw [List.drop_left' (le_bytes_length _ _), List.take_left' (le_bytes_length _ _),
    le_value_le_bytes_8 (to_u64_lt r), to_i64_to_u64 r hlo hhi,
    le_value_le_bytes_8 (to_u64_lt bp), to_i64_to_u64 bp hblo hbhi]
  by_cases hr : 0 < r
  · obtain ⟨hf1, hf2⟩ := hfit hr
    have hneg : ¬ r < 0 := by omega
    have hl : (bytes.take r.toNat).length = r.toNat := by
      rw [List.length_take]
      omega
    simp only [gt_iff_lt, if_pos hr, if_neg hneg]
    rw [to_u64_toNat r (by omega) hhi,
      mem_read_data_eq (by simp only [List.length_append, le_bytes_length]; omega),
      defined_some, ok_bind]
    dsimp only
    rw [show 8 + 8 = (le_bytes 8 r.toNat ++ le_bytes 8 (to_u64 bp)).length by
        simp only [List.length_append, le_bytes_length],
      ← List.append_assoc, List.drop_left]
    unfold store
    rw [if_pos (by omega), defined_some, ok_bind, hl]
  · simp only [gt_iff_lt, if_neg hr, ok_bind]
    by_cases hneg : r < 0
    · simp only [if_pos hneg]
    · simp only [if_neg hneg]

theorem open_remote_ok (fuel : Nat) (w : world) (s : client_state) (pathname : List Byte)
    (flags : Int) (mode : Nat) (resp : rpc_resp) (fd : Int) (rest : List Byte) (n : Nat)
    (hstr : strlen pathname = some n) (hn : n ≤ 4077) (hans : answers w s resp)
    (hdata : resp.data = le_bytes 4 (to_u32 fd) ++ rest) (hlo : INT_MIN ≤ fd)
    (hhi : fd ≤ INT_MAX) (hov : 0 ≤ fd → s.opened_fd ≠ INT_MAX)
    (hfuel : resp.size + 8300 ≤ fuel) :
    ∃ w1 req, sent_request s w w1 (session_socket w s) req
      ∧ open_stub fuel w s pathname flags mode
        = .ok (fd,
            (if 0 ≤ fd then
              { s with _sockfd := session_socket w s,
                       min_fd := if fd < s.min_fd then fd else s.min_fd,
                       opened_fd := s.opened_fd + 1 }
            else { s with _sockfd := session_socket w s, errno := resp.err_no }), w1) := by
  have h1 := call_open_marshal_eq (malloc BUFFERLEN) pathname (to_u32 flags)
    (if (to_u32 flags / O_CREAT) % 2 = 1 then mode else 0) n hstr
    (by rw [malloc_length]; unfold BUFFERLEN; omega)
  have hpl := (strlen_take hstr).1
  obtain ⟨msg, h2, h3, h4⟩ := marshal_frame_request OP_OPEN (10 + (n + 1)) BUFFERLEN
    (le_bytes 4 (to_u32 flags % 2 ^ 32)
      ++ le_bytes 2 ((if (to_u32 flags / O_CREAT) % 2 = 1 then mode else 0) % 2 ^ 16)
      ++ le_bytes 4 ((n + 1) % 2 ^ 32) ++ pathname.take (n + 1)
      ++ (malloc BUFFERLEN).drop (10 + (n + 1))) (by decide)
    (by simp only [List.length_append, le_bytes_length, List.length_take]; omega)
    (by unfold BUFFERLEN; omega) (by omega)
  obtain ⟨w1, hsr⟩ := send_request_ok fuel w s msg (8 + (10 + (n + 1))) resp hans h3 (by omega)
    (by omega)
  obtain ⟨_, hlog⟩ := send_request_log _ _ _ _ _ _ _ _ hsr
  refine ⟨w1, _, hlog, ?_⟩
  unfold open_stub
  dsimp only
  rw [h1, defined_some, ok_bind]
  dsimp only
  rw [h2, defined_some, ok_bind]
  dsimp only
  rw [hsr, ok_bind]
  dsimp only
  rw [hdata, mem_read_data_head _ _ 4 (le_bytes_length _ _), defined_some, ok_bind]
  dsimp only
  rw [le_value_le_bytes_4 (to_u32_lt fd), to_i32_to_u32 fd hlo hhi]
  by_cases hfd : 0 ≤ fd
  · simp only [ge_iff_le, if_pos hfd, if_neg (hov hfd)]
  · simp only [ge_iff_le, if_neg hfd]

theorem getdirtree_remote_ok (fuel : Nat) (w : world) (s : client_state) (path : List Byte)
    (resp : rpc_resp) (n : Nat) (t : dirtreenode)
    (hstr : strlen path = some n) (hn : n ≤ 4083) (hans : answers w s resp)
    (htree : 0 < resp.size → ∃ off, mem_read_tree resp.data 0 = some (t, off))
    (hfuel : resp.size + 8300 ≤ fuel) :
    ∃ w1 req, sent_request s w w1 (session_socket w s) req
      ∧ getdirtree fuel w s path
        = .ok (dirtree_ptr.node (if 0 < resp.size then some t else none),
            { s with _sockfd := session_socket w s,
                     errno := if resp.size = 0 then resp.err_no else s.errno }, w1) := by
  have h1 := call_dirtreenode_marshal_eq (malloc BUFFERLEN) path n hstr (by omega)
    (by rw [malloc_length]; unfold BUFFERLEN; omega)
  have hpl := (strlen_take hstr).1
  obtain ⟨msg, h2, h3, h4⟩ := marshal_frame_request OP_GETTRR (4 + (n + 1)) BUFFERLEN
    (le_bytes 4 (n + 1) ++ path.take (n + 1) ++ (malloc BUFFERLEN).drop (4 + (n + 1)))
    (by decide)
    (by simp only [List.length_append, le_bytes_length, List.length_take]; omega)
    (by unfold BUFFERLEN; omega) (by omega)
  obtain ⟨w1, hsr⟩ := send_request_ok fuel w s msg (8 + (4 + (n + 1))) resp hans h3 (by omega)
    (by omega)
  obtain ⟨_, hlog⟩ := send_request_log _ _ _ _ _ _ _ _ hsr
  refine ⟨w1, _, hlog, ?_⟩
  unfold getdirtree
  rw [h1, defined_some, ok_bind]
  dsimp only
  rw [h2, defined_some, ok_bind]
  dsimp only
  rw [hsr, ok_bind]
  dsimp only
  by_cases hr : 0 < resp.size
  · obtain ⟨off, ht⟩ := htree hr
    have h0 : ¬ resp.size = 0 := by omega
    simp only [gt_iff_lt, if_pos hr, if_neg h0, ht, defined_some, ok_bind]
  · have h0 : resp.size = 0 := by omega
    simp only [gt_iff_lt, if_neg hr, if_pos h0, ok_bind]

theorem marshal_frame_overrun (out : List Byte) (frame : rpc_frame)
    (h : out.length < 8 + frame.payload_size) : marshal_frame out frame = none := by
  unfold marshal_frame mem_write_int32
  by_cases h8 : 8 ≤ out.length
  · rw [mem_write_data_eq (le_of_eq (le_bytes_length _ _).symm) (by omega)]
    simp only [Option.bind_eq_bind, Option.some_bind]
    rw [mem_write_data_eq (le_of_eq (le_bytes_length _ _).symm)
      (by simp only [List.length_append, List.length_take, List.length_drop, le_bytes_length]
          omega)]
    simp only [Option.some_bind]
    unfold mem_write_data
    rw [if_neg]
    simp only [List.length_append, List.length_take, List.length_drop, le_bytes_length]
    omega
  · unfold mem_write_data
    simp only [le_bytes_length, Option.bind_eq_bind]
    split
    · simp only [Option.some_bind]
      rw [if_neg (by
        simp only [List.length_append, List.length_take, List.length_drop, le_bytes_length]
        omega)]
      rfl
    · rfl

theorem handle_session_reply_wire (fuel : Nat) (w : world) (sessfd : Int) (resp : rpc_resp)
    (hlen : resp.data.length = resp.size) (hsz : 8 + resp.size < 2 ^ 31)
    (hacc : ∀ i, 1 ≤ w.accept i) (hfuel : resp.size + 4105 ≤ fuel) :
    ∃ v evs, handle_session_reply fuel w sessfd resp = .ok v
      ∧ v.log = w.log ++ io_event.send_all sessfd
          (le_bytes 4 (to_u32 resp.err_no) ++ le_bytes 4 resp.size ++ resp.data) :: evs
      ∧ wire evs = response_stream resp := by
  have hm := marshal_resp_eq (malloc (resp.size + 16)) resp (by omega)
    (by rw [malloc_length]; omega)
  have htake : resp.data.take resp.size = resp.data := by
    rw [← hlen, List.take_length]
  rw [htake, Nat.mod_eq_of_lt (by omega : resp.size < 2 ^ 32)] at hm
  have hl : (le_bytes 4 (to_u32 resp.err_no) ++ le_bytes 4 resp.size ++ resp.data).length
      = 8 + resp.size := by
    simp only [List.length_append, le_bytes_length, hlen]
  obtain ⟨evs, h, hw, _⟩ := send_all_ok fuel w sessfd
    (le_bytes 4 (to_u32 resp.err_no) ++ le_bytes 4 resp.size ++ resp.data
      ++ (malloc (resp.size + 16)).drop (8 + resp.size))
    (8 + resp.size) (by rw [List.length_append, hl]; omega) (by omega)
    (by unfold MAXMSGLEN; omega) hacc
  rw [List.take_left' hl] at h hw
  refine ⟨{ w with sends := w.sends + evs.length,
                     log := w.log ++ io_event.send_all sessfd
                       (le_bytes 4 (to_u32 resp.err_no) ++ le_bytes 4 resp.size ++ resp.data)
                       :: evs }, evs, ?_, rfl, ?_⟩
  · unfold handle_session_reply
    dsimp only
    rw [hm, defined_some, ok_bind]
    dsimp only
    rw [h]
  · rw [hw, to_i32_of_lt hsz, to_u32_natCast (by omega)]
    rfl

/-! ## What a returning call has done -/

theorem ok_inj {α : Type} {a b : α} (h : (Except.ok a : result α) = .ok b) : a = b := by
  cases h
  rfl

theorem read_returns (fuel : Nat) (w : world) (s : client_state) (fd : Int) (buf : List Byte)
    (count : Nat) (r : Int) (buf1 : List Byte) (s1 : client_state) (w1 : world)
    (hfd : ¬ fd < s.min_fd) (h : read fuel w s fd buf count = .ok (r, buf1, s1, w1)) :
    s1.min_fd = s.min_fd ∧ s1.opened_fd = s.opened_fd ∧ s1._sockfd = session_socket w s
    ∧ sent_request s w w1 (session_socket w s)
        (le_bytes 4 OP_READ ++ le_bytes 4 12 ++ (le_bytes 4 (to_u32 fd) ++ le_bytes 8 count)) := by
  obtain ⟨payload, msg, h1, h2, h3, h4⟩ := read_marshalled fd count
  unfold read at h
  rw [if_neg hfd, h1, defined_some, ok_bind] at h
  dsimp only at h
  rw [h2, defined_some, ok_bind] at h
  dsimp only at h
  obtain ⟨⟨resp, s2, w2⟩, hsr, h⟩ := bind_eq_ok h
  obtain ⟨rfl, hlog⟩ := send_request_log _ _ _ _ _ _ _ _ hsr
  rw [h4] at hlog
  dsimp only at h
  obtain ⟨⟨b, off⟩, _, h⟩ := bind_eq_ok h
  dsimp only at h
  split at h
  · obtain ⟨x, _, h⟩ := bind_eq_ok h
    obtain ⟨y, _, h⟩ := bind_eq_ok h
    have h := ok_inj h
    simp only [Prod.mk.injEq] at h
    obtain ⟨_, _, rfl, rfl⟩ := h
    refine ⟨?_, ?_, ?_, hlog⟩ <;> (split <;> rfl)
  · obtain ⟨y, _, h⟩ := bind_eq_ok h
    have h := ok_inj h
    simp only [Prod.mk.injEq] at h
    obtain ⟨_, _, rfl, rfl⟩ := h
    refine ⟨?_, ?_, ?_, hlog⟩ <;> (split <;> rfl)

theorem write_returns (fuel : Nat) (w : world) (s : client_state) (fd : Int) (buf : List Byte)
    (count : Nat) (r : Int) (s1 : client_state) (w1 : world)
    (hfd : ¬ fd < s.min_fd) (h : write fuel w s fd buf count = .ok (r, s1, w1)) :
    s1.min_fd = s.min_fd ∧ s1.opened_fd = s.opened_fd ∧ s1._sockfd = session_socket w s
    ∧ ∃ req, sent_request s w w1 (session_socket w s) req := by
  unfold write at h
  rw [if_neg hfd] at h
  obtain ⟨⟨payload, n⟩, _, h⟩ := bind_eq_ok h
  dsimp only at h
  obtain ⟨⟨msg, fsz⟩, _, h⟩ := bind_eq_ok h
  dsimp only at h
  obtain ⟨⟨resp, s2, w2⟩, hsr, h⟩ := bind_eq_ok h
  obtain ⟨rfl, hlog⟩ := send_request_log _ _ _ _ _ _ _ _ hsr
  dsimp only at h
  obtain ⟨⟨b, off⟩, _, h⟩ := bind_eq_ok h
  have h := ok_inj h
  simp only [Prod.mk.injEq] at h
  obtain ⟨_, rfl, rfl⟩ := h
  refine ⟨?_, ?_, ?_, _, hlog⟩ <;> (split <;> rfl)

theorem close_returns (fuel : Nat) (w : world) (s : client_state) (fd : Int)
    (r : Int) (s1 : client_state) (w1 : world)
    (hfd : ¬ fd < s.min_fd) (h : close fuel w s fd = .ok (r, s1, w1)) :
    s1.min_fd = s.min_fd
    ∧ ∃ v, sent_request s w v (session_socket w s)
          (le_bytes 4 OP_CLOSE ++ le_bytes 4 4 ++ le_bytes 4 (to_u32 fd))
        ∧ ((w1 = v ∧ s1._sockfd = session_socket w s
              ∧ (r ≠ 0 → s1.opened_fd = s.opened_fd)
              ∧ (r = 0 → s1.opened_fd = s.opened_fd - 1 ∧ s1.opened_fd ≠ 0))
          ∨ (w1 = { v with log := v.log ++ [io_event.orig_close (session_socket w s)] }
              ∧ s1._sockfd = -1 ∧ r = 0 ∧ s.opened_fd = 1 ∧ s1.opened_fd = 0)) := by
  obtain ⟨payload, msg, h1, h2, h3, h4⟩ := close_marshalled fd
  unfold close at h
  rw [if_neg hfd, h1, defined_some, ok_bind] at h
  dsimp only at h
  rw [h2, defined_some, ok_bind] at h
  dsimp only at h
  obtain ⟨⟨resp, s2, w2⟩, hsr, h⟩ := bind_eq_ok h
  obtain ⟨rfl, hlog⟩ := send_request_log _ _ _ _ _ _ _ _ hsr
  rw [h4] at hlog
  dsimp only at h
  obtain ⟨⟨b, off⟩, _, h⟩ := bind_eq_ok h
  dsimp only at h
  split at h
  · rename_i hr
    split at h
    · obtain ⟨y, hy, h⟩ := bind_eq_ok h
      cases hy
    · split at h
      · rename_i h0
        rw [ok_bind] at h
        have h := ok_inj h
        simp only [Prod.mk.injEq] at h
        obtain ⟨rfl, rfl, rfl⟩ := h
        refine ⟨?_, w2, hlog, Or.inr ⟨rfl, ?_, hr, by omega, ?_⟩⟩
        · split <;> rfl
        · split <;> rfl
        · split <;> exact h0
      · rename_i h0
        rw [ok_bind] at h
        have h := ok_inj h
        simp only [Prod.mk.injEq] at h
        obtain ⟨rfl, rfl, rfl⟩ := h
        refine ⟨?_, w2, hlog, Or.inl ⟨rfl, ?_, fun hne => absurd hr hne, fun _ => ⟨?_, ?_⟩⟩⟩
        · split <;> rfl
        · split <;> rfl
        · split <;> rfl
        · split <;> exact h0
  · rename_i hr
    rw [ok_bind] at h
    have h := ok_inj h
    simp only [Prod.mk.injEq] at h
    obtain ⟨rfl, rfl, rfl⟩ := h
    refine ⟨?_, w2, hlog, Or.inl ⟨rfl, ?_, fun _ => ?_, fun h0 => absurd h0 hr⟩⟩
    · split <;> rfl
    · split <;> rfl
    · split <;> rfl

theorem lseek_returns (fuel : Nat) (w : world) (s : client_state) (fd offset whence : Int)
    (r : Int) (s1 : client_state) (w1 : world)
    (hop : s.opened_fd ≠ 0) (h : lseek fuel w s fd offset whence = .ok (r, s1, w1)) :
    s1.min_fd = s.min_fd ∧ s1.opened_fd = s.opened_fd ∧ s1._sockfd = session_socket w s
    ∧ sent_request s w w1 (session_socket w s)
        (le_bytes 4 OP_LSEEK ++ le_bytes 4 16
          ++ (le_bytes 4 (to_u32 fd) ++ le_bytes 8 (to_u64 offset)
            ++ le_bytes 4 (to_u32 whence))) := by
  obtain ⟨payload, msg, h1, h2, h3, h4⟩ := lseek_marshalled fd offset whence
  unfold lseek at h
  rw [if_neg hop, h1, defined_some, ok_bind] at h
  dsimp only at h
  rw [h2, defined_some, ok_bind] at h
  dsimp only at h
  obtain ⟨⟨resp, s2, w2⟩, hsr, h⟩ := bind_eq_ok h
  obtain ⟨rfl, hlog⟩ := send_request_log _ _ _ _ _ _ _ _ hsr
  rw [h4] at hlog
  dsimp only at h
  obtain ⟨⟨b, off⟩, _, h⟩ := bind_eq_ok h
  have h := ok_inj h
  simp only [Prod.mk.injEq] at h
  obtain ⟨_, rfl, rfl⟩ := h
  refine ⟨?_, ?_, ?_, hlog⟩ <;> (split <;> rfl)

theorem getdirentries_returns (fuel : Nat) (w : world) (s : client_state) (fd : Int)
    (buf : List Byte) (nbytes : Nat) (basep : Int) (r : Int) (buf1 : List Byte) (bp : Int)
    (s1 : client_state) (w1 : world) (hop : s.opened_fd ≠ 0)
    (h : getdirentries fuel w s fd buf nbytes basep = .ok (r, buf1, bp, s1, w1)) :
    s1.min_fd = s.min_fd ∧ s1.opened_fd = s.opened_fd ∧ s1._sockfd = session_socket w s
    ∧ sent_request s w w1 (session_socket w s)
        (le_bytes 4 OP_GETDIR ++ le_bytes 4 20
          ++ (le_bytes 4 (to_u32 fd) ++ le_bytes 8 (to_u64 basep) ++ le_bytes 8 nbytes)) := by
  obtain ⟨payload, msg, h1, h2, h3, h4⟩ := getdirentries_marshalled fd nbytes basep
  unfold getdirentries at h
  rw [if_neg hop, h1, defined_some, ok_bind] at h
  dsimp only at h
  rw [h2, defined_some, ok_bind] at h
  dsimp only at h
  obtain ⟨⟨resp, s2, w2⟩, hsr, h⟩ := bind_eq_ok h
  obtain ⟨rfl, hlog⟩ := send_request_log _ _ _ _ _ _ _ _ hsr
  rw [h4] at hlog
  dsimp only at h
  obtain ⟨⟨b, off⟩, _, h⟩ := bind_eq_ok h
  dsimp only at h
  obtain ⟨⟨p, off2⟩, _, h⟩ := bind_eq_ok h
  dsimp only at h
  split at h
  · obtain ⟨x, _, h⟩ := bind_eq_ok h
    obtain ⟨y, _, h⟩ := bind_eq_ok h
    have h := ok_inj h
    simp only [Prod.mk.injEq] at h
    obtain ⟨_, _, _, rfl, rfl⟩ := h
    refine ⟨?_, ?_, ?_, hlog⟩ <;> (split <;> rfl)
  · obtain ⟨y, _, h⟩ := bind_eq_ok h
    have h := ok_inj h
    simp only [Prod.mk.injEq] at h
    obtain ⟨_, _, _, rfl, rfl⟩ := h
    refine ⟨?_, ?_, ?_, hlog⟩ <;> (split <;> rfl)

theorem open_stub_returns (fuel : Nat) (w : world) (s : client_state) (pathname : List Byte)
    (flags : Int) (mode : Nat) (fd : Int) (s1 : client_state) (w1 : world)
    (h : open_stub fuel w s pathname flags mode = .ok (fd, s1, w1)) :
    (0 ≤ fd → s1.min_fd = min fd s.min_fd ∧ s1.opened_fd = s.opened_fd + 1
        ∧ s1.errno = s.errno)
    ∧ (fd < 0 → s1.min_fd = s.min_fd ∧ s1.opened_fd = s.opened_fd)
    ∧ s1._sockfd = session_socket w s
    ∧ ∃ req, sent_request s w w1 (session_socket w s) req := by
  unfold open_stub at h
  dsimp only at h
  obtain ⟨⟨payload, n⟩, _, h⟩ := bind_eq_ok h
  dsimp only at h
  obtain ⟨⟨msg, fsz⟩, _, h⟩ := bind_eq_ok h
  dsimp only at h
  obtain ⟨⟨resp, s2, w2⟩, hsr, h⟩ := bind_eq_ok h
  obtain ⟨rfl, hlog⟩ := send_request_log _ _ _ _ _ _ _ _ hsr
  dsimp only at h
  obtain ⟨⟨b, off⟩, _, h⟩ := bind_eq_ok h
  dsimp only at h
  split at h
  · rename_i hfd
    split at h
    · cases h
    · have h := ok_inj h
      simp only [Prod.mk.injEq] at h
      obtain ⟨rfl, rfl, rfl⟩ := h
      refine ⟨fun _ => ⟨?_, rfl, rfl⟩, fun hneg => absurd hfd (by omega), rfl, _, hlog⟩
      dsimp only
      split
      · rw [min_eq_left (by omega)]
      · rw [min_eq_right (by omega)]
  · rename_i hfd
    have h := ok_inj h
    simp only [Prod.mk.injEq] at h
    obtain ⟨rfl, rfl, rfl⟩ := h
    exact ⟨fun h0 => absurd h0 hfd, fun _ => ⟨rfl, rfl⟩, rfl, _, hlog⟩

theorem xstat_returns (fuel : Nat) (w : world) (s : client_state) (ver : Int)
    (path stat_buf : List Byte) (r : Int) (b1 : List Byte) (s1 : client_state) (w1 : world)
    (h : __xstat fuel w s ver path stat_buf = .ok (r, b1, s1, w1)) :
    s1.min_fd = s.min_fd ∧ s1.opened_fd = s.opened_fd := by
  unfold __xstat at h
  obtain ⟨⟨payload, n⟩, _, h⟩ := bind_eq_ok h
  dsimp only at h
  obtain ⟨⟨msg, fsz⟩, _, h⟩ := bind_eq_ok h
  dsimp only at h
  obtain ⟨⟨resp, s2, w2⟩, hsr, h⟩ := bind_eq_ok h
  obtain ⟨rfl, hlog⟩ := send_request_log _ _ _ _ _ _ _ _ hsr
  dsimp only at h
  obtain ⟨⟨v, off⟩, _, h⟩ := bind_eq_ok h
  dsimp only at h
  split at h
  · obtain ⟨x, _, h⟩ := bind_eq_ok h
    obtain ⟨y, _, h⟩ := bind_eq_ok h
    have h := ok_inj h
    simp only [Prod.mk.injEq] at h
    obtain ⟨_, _, rfl, rfl⟩ := h
    constructor <;> (split <;> rfl)
  · obtain ⟨y, _, h⟩ := bind_eq_ok h
    have h := ok_inj h
    simp only [Prod.mk.injEq] at h
    obtain ⟨_, _, rfl, rfl⟩ := h
    constructor <;> (split <;> rfl)

theorem unlink_returns (fuel : Nat) (w : world) (s : client_state) (pathname : List Byte)
    (r : Int) (s1 : client_state) (w1 : world)
    (h : unlink fuel w s pathname = .ok (r, s1, w1)) :
    s1.min_fd = s.min_fd ∧ s1.opened_fd = s.opened_fd := by
  unfold unlink at h
  obtain ⟨⟨payload, n⟩, _, h⟩ := bind_eq_ok h
  dsimp only at h
  obtain ⟨⟨msg, fsz⟩, _, h⟩ := bind_eq_ok h
  dsimp only at h
  obtain ⟨⟨resp, s2, w2⟩, hsr, h⟩ := bind_eq_ok h
  obtain ⟨rfl, hlog⟩ := send_request_log _ _ _ _ _ _ _ _ hsr
  dsimp only at h
  obtain ⟨⟨v, off⟩, _, h⟩ := bind_eq_ok h
  have h := ok_inj h
  simp only [Prod.mk.injEq] at h
  obtain ⟨_, rfl, rfl⟩ := h
  constructor <;> (split <;> rfl)

theorem getdirtree_returns (fuel : Nat) (w : world) (s : client_state) (path : List Byte)
    (p : dirtree_ptr) (s1 : client_state) (w1 : world)
    (h : getdirtree fuel w s path = .ok (p, s1, w1)) :
    s1.min_fd = s.min_fd ∧ s1.opened_fd = s.opened_fd ∧ p ≠ dirtree_ptr.null := by
  unfold getdirtree at h
  obtain ⟨⟨payload, n⟩, _, h⟩ := bind_eq_ok h
  dsimp only at h
  obtain ⟨⟨msg, fsz⟩, _, h⟩ := bind_eq_ok h
  dsimp only at h
  obtain ⟨⟨resp, s2, w2⟩, hsr, h⟩ := bind_eq_ok h
  obtain ⟨rfl, hlog⟩ := send_request_log _ _ _ _ _ _ _ _ hsr
  dsimp only at h
  split at h
  · obtain ⟨x, _, h⟩ := bind_eq_ok h
    obtain ⟨y, _, h⟩ := bind_eq_ok h
    have h := ok_inj h
    simp only [Prod.mk.injEq] at h
    obtain ⟨rfl, rfl, rfl⟩ := h
    refine ⟨?_, ?_, fun hp => by cases hp⟩ <;> (split <;> rfl)
  · obtain ⟨y, _, h⟩ := bind_eq_ok h
    have h := ok_inj h
    simp only [Prod.mk.injEq] at h
    obtain ⟨rfl, rfl, rfl⟩ := h
    refine ⟨?_, ?_, fun hp => by cases hp⟩ <;> (split <;> rfl)

/-! ## The local branch and the preflight -/

theorem read_local (fuel : Nat) (w : world) (s : client_state) (fd : Int) (buf : List Byte)
    (count : Nat) (hfd : fd < s.min_fd) :
    read fuel w s fd buf count
      = .ok ((w.orig_read fd buf count).1, (w.orig_read fd buf count).2, s,
          { w with log := w.log ++ [io_event.orig_read fd count] }) := by
  unfold read
  rw [if_pos hfd]

theorem write_local (fuel : Nat) (w : world) (s : client_state) (fd : Int) (buf : List Byte)
    (count : Nat) (hfd : fd < s.min_fd) :
    write fuel w s fd buf count
      = .ok (w.orig_write fd buf count, s,
          { w with log := w.log ++ [io_event.orig_write fd buf count] }) := by
  unfold write
  rw [if_pos hfd]

theorem close_local (fuel : Nat) (w : world) (s : client_state) (fd : Int)
    (hfd : fd < s.min_fd) :
    close fuel w s fd
      = .ok (w.orig_close fd, s, { w with log := w.log ++ [io_event.orig_close fd] }) := by
  unfold close
  rw [if_pos hfd]

theorem lseek_preflight (fuel : Nat) (w : world) (s : client_state) (fd offset whence : Int)
    (h : s.opened_fd = 0) :
    lseek fuel w s fd offset whence = .ok (-1, { s with errno := EBADF }, w) := by
  unfold lseek
  rw [if_pos h]

theorem getdirentries_preflight (fuel : Nat) (w : world) (s : client_state) (fd : Int)
    (buf : List Byte) (nbytes : Nat) (basep : Int) (h : s.opened_fd = 0) :
    getdirentries fuel w s fd buf nbytes basep
      = .ok (-1, buf, basep, { s with errno := EBADF }, w) := by
  unfold getdirentries
  rw [if_pos h]

/-! ## The watermark along a run -/

theorem init_state (w : world) (errno : Int) (s : client_state) (w1 : world)
    (h : _init w errno = .ok (s, w1)) : s.min_fd = INT_MAX ∧ s.opened_fd = 0 := by
  unfold _init at h
  obtain ⟨⟨sock, w2⟩, _, h⟩ := bind_eq_ok h
  have h := ok_inj h
  simp only [Prod.mk.injEq] at h
  obtain ⟨rfl, rfl⟩ := h
  exact ⟨rfl, rfl⟩

theorem read_min_fd (fuel : Nat) (w : world) (s : client_state) (fd : Int) (buf : List Byte)
    (count : Nat) (r : Int) (b : List Byte) (s1 : client_state) (w1 : world)
    (h : read fuel w s fd buf count = .ok (r, b, s1, w1)) :
    s1.min_fd = s.min_fd ∧ s1.opened_fd = s.opened_fd := by
  by_cases hfd : fd < s.min_fd
  · rw [read_local _ _ _ _ _ _ hfd] at h
    have h := ok_inj h
    simp only [Prod.mk.injEq] at h
    obtain ⟨_, _, rfl, rfl⟩ := h
    exact ⟨rfl, rfl⟩
  · obtain ⟨h1, h2, _⟩ := read_returns _ _ _ _ _ _ _ _ _ _ hfd h
    exact ⟨h1, h2⟩

theorem write_min_fd (fuel : Nat) (w : world) (s : client_state) (fd : Int) (buf : List Byte)
    (count : Nat) (r : Int) (s1 : client_state) (w1 : world)
    (h : write fuel w s fd buf count = .ok (r, s1, w1)) :
    s1.min_fd = s.min_fd ∧ s1.opened_fd = s.opened_fd := by
  by_cases hfd : fd < s.min_fd
  · rw [write_local _ _ _ _ _ _ hfd] at h
    have h := ok_inj h
    simp only [Prod.mk.injEq] at h
    obtain ⟨_, rfl, rfl⟩ := h
    exact ⟨rfl, rfl⟩
  · obtain ⟨h1, h2, _⟩ := write_returns _ _ _ _ _ _ _ _ _ hfd h
    exact ⟨h1, h2⟩

theorem close_min_fd (fuel : Nat) (w : world) (s : client_state) (fd : Int)
    (r : Int) (s1 : client_state) (w1 : world)
    (h : close fuel w s fd = .ok (r, s1, w1)) : s1.min_fd = s.min_fd := by
  by_cases hfd : fd < s.min_fd
  · rw [close_local _ _ _ _ hfd] at h
    have h := ok_inj h
    simp only [Prod.mk.injEq] at h
    obtain ⟨_, rfl, rfl⟩ := h
    rfl
  · exact (close_returns _ _ _ _ _ _ _ hfd h).1

theorem lseek_min_fd (fuel : Nat) (w : world) (s : client_state) (fd offset whence : Int)
    (r : Int) (s1 : client_state) (w1 : world)
    (h : lseek fuel w s fd offset whence = .ok (r, s1, w1)) :
    s1.min_fd = s.min_fd ∧ s1.opened_fd = s.opened_fd := by
  by_cases hop : s.opened_fd = 0
  · rw [lseek_preflight _ _ _ _ _ _ hop] at h
    have h := ok_inj h
    simp only [Prod.mk.injEq] at h
    obtain ⟨_, rfl, rfl⟩ := h
    exact ⟨rfl, rfl⟩
  · obtain ⟨h1, h2, _⟩ := lseek_returns _ _ _ _ _ _ _ _ _ hop h
    exact ⟨h1, h2⟩

theorem getdirentries_min_fd (fuel : Nat) (w : world) (s : client_state) (fd : Int)
    (buf : List Byte) (nbytes : Nat) (basep : Int) (r : Int) (buf1 : List Byte) (bp : Int)
    (s1 : client_state) (w1 : world)
    (h : getdirentries fuel w s fd buf nbytes basep = .ok (r, buf1, bp, s1, w1)) :
    s1.min_fd = s.min_fd ∧ s1.opened_fd = s.opened_fd := by
  by_cases hop : s.opened_fd = 0
  · rw [getdirentries_preflight _ _ _ _ _ _ _ hop] at h
    have h := ok_inj h
    simp only [Prod.mk.injEq] at h
    obtain ⟨_, _, _, rfl, rfl⟩ := h
    exact ⟨rfl, rfl⟩
  · obtain ⟨h1, h2, _⟩ := getdirentries_returns _ _ _ _ _ _ _ _ _ _ _ _ hop h
    exact ⟨h1, h2⟩

theorem client_step_min_fd (fuel : Nat) (w : world) (s : client_state) (c : client_call)
    (o : Option Int) (s1 : client_state) (w1 : world)
    (h : client_step fuel w s c = .ok (o, s1, w1)) :
    s1.min_fd = (match o with
      | some fd => if 0 ≤ fd then min fd s.min_fd else s.min_fd
      | none => s.min_fd) := by
  cases c with
  | open_stub pathname flags mode =>
    unfold client_step at h
    obtain ⟨⟨fd, s2, w2⟩, hc, h⟩ := bind_eq_ok h
    have h := ok_inj h
    simp only [Prod.mk.injEq] at h
    obtain ⟨rfl, rfl, rfl⟩ := h
    obtain ⟨h1, h2, _⟩ := open_stub_returns _ _ _ _ _ _ _ _ _ hc
    dsimp only
    split
    · rename_i hfd
      exact (h1 hfd).1
    · rename_i hfd
      exact (h2 (by omega)).1
  | close fd =>
    unfold client_step at h
    obtain ⟨⟨r, s2, w2⟩, hc, h⟩ := bind_eq_ok h
    have h := ok_inj h
    simp only [Prod.mk.injEq] at h
    obtain ⟨rfl, rfl, rfl⟩ := h
    exact close_min_fd _ _ _ _ _ _ _ hc
  | read fd buf count =>
    unfold client_step at h
    obtain ⟨⟨r, b, s2, w2⟩, hc, h⟩ := bind_eq_ok h
    have h := ok_inj h
    simp only [Prod.mk.injEq] at h
    obtain ⟨rfl, rfl, rfl⟩ := h
    exact (read_min_fd _ _ _ _ _ _ _ _ _ _ hc).1
  | write fd buf count =>
    unfold client_step at h
    obtain ⟨⟨r, s2, w2⟩, hc, h⟩ := bind_eq_ok h
    have h := ok_inj h
    simp only [Prod.mk.injEq] at h
    obtain ⟨rfl, rfl, rfl⟩ := h
    exact (write_min_fd _ _ _ _ _ _ _ _ _ hc).1
  | lseek fd offset whence =>
    unfold client_step at h
    obtain ⟨⟨r, s2, w2⟩, hc, h⟩ := bind_eq_ok h
    have h := ok_inj h
    simp only [Prod.mk.injEq] at h
    obtain ⟨rfl, rfl, rfl⟩ := h
    exact (lseek_min_fd _ _ _ _ _ _ _ _ _ hc).1
  | __xstat ver path stat_buf =>
    unfold client_step at h
    obtain ⟨⟨r, b, s2, w2⟩, hc, h⟩ := bind_eq_ok h
    have h := ok_inj h
    simp only [Prod.mk.injEq] at h
    obtain ⟨rfl, rfl, rfl⟩ := h
    exact (xstat_returns _ _ _ _ _ _ _ _ _ _ hc).1
  | unlink pathname =>
    unfold client_step at h
    obtain ⟨⟨r, s2, w2⟩, hc, h⟩ := bind_eq_ok h
    have h := ok_inj h
    simp only [Prod.mk.injEq] at h
    obtain ⟨rfl, rfl, rfl⟩ := h
    exact (unlink_returns _ _ _ _ _ _ _ hc).1
  | getdirentries fd buf nbytes basep =>
    unfold client_step at h
    obtain ⟨⟨r, b, bp, s2, w2⟩, hc, h⟩ := bind_eq_ok h
    have h := ok_inj h
    simp only [Prod.mk.injEq] at h
    obtain ⟨rfl, rfl, rfl⟩ := h
    exact (getdirentries_min_fd _ _ _ _ _ _ _ _ _ _ _ _ hc).1
  | getdirtree path =>
    unfold client_step at h
    obtain ⟨⟨p, s2, w2⟩, hc, h⟩ := bind_eq_ok h
    have h := ok_inj h
    simp only [Prod.mk.injEq] at h
    obtain ⟨rfl, rfl, rfl⟩ := h
    exact (getdirtree_returns _ _ _ _ _ _ _ hc).1

theorem reachable_min_fd (fds : List Int) (s : client_state) (h : reachable fds s) :
    s.min_fd = watermark fds := by
  induction h with
  | init w errno s w1 hi => exact (init_state _ _ _ _ hi).1
  | step fuel w c fds s o s1 w1 _ hs ih =>
    have h := client_step_min_fd _ _ _ _ _ _ _ hs
    cases o with
    | none =>
      dsimp only at h
      rw [h, ih]
      rfl
    | some fd =>
      dsimp only at h
      rw [h, ih]
      rfl

theorem watermark_ge (fds : List Int) (b : Int) (hb : b ≤ INT_MAX)
    (h : ∀ fd ∈ fds, fd < 0 ∨ b ≤ fd) : b ≤ watermark fds := by
  induction fds with
  | nil => exact hb
  | cons a fds ih =>
    have iht := ih (fun fd hfd => h fd (List.mem_cons_of_mem _ hfd))
    rw [watermark]
    split
    · rename_i ha
      rcases h a (List.mem_cons_self _ _) with h1 | h1
      · omega
      · exact le_min h1 iht
    · exact iht

/-! ## The remote branch is never the local call -/

theorem answers_world_with (a d : Int) (s : client_state) (resp : rpc_resp) (ha : 1 ≤ a)
    (hd : 1 ≤ d) (hlo : INT_MIN ≤ resp.err_no) (hhi : resp.err_no ≤ INT_MAX)
    (hlen : resp.data.length = resp.size) (hsz : 8 + resp.size < 2 ^ 31) :
    answers (world_with a d (response_stream resp)) s resp :=
  ⟨fun _ => ha, fun _ => hd, fun _ => ⟨(by decide : (0 : Int) ≤ 3), (by decide : (0 : Int) ≤ 0)⟩,
    hlo, hhi, hlen, hsz, rfl⟩

theorem reachable_initial_state : reachable [] initial_state :=
  reachable.init (world_with 1 1 []) 0 initial_state
    { world_with 1 1 [] with log := [io_event.connect 3] } rfl

theorem reachable_one_open_state : reachable [1003] one_open_state := by
  obtain ⟨w1, req, _, h⟩ := open_remote_ok 9000
    (world_with 1 1 (response_stream ⟨0, 4, le_bytes 4 (to_u32 1003)⟩)) initial_state
    [47, 97, 0] 0 0 ⟨0, 4, le_bytes 4 (to_u32 1003)⟩ 1003 [] 2 rfl (by decide)
    (answers_world_with 1 1 _ _ (by decide) (by decide) (by decide) (by decide) rfl (by decide))
    (List.append_nil _).symm (by decide) (by decide) (fun _ => by decide) (by decide)
  have hst : (if (0 : Int) ≤ 1003 then
        { initial_state with
            _sockfd := session_socket
              (world_with 1 1 (response_stream ⟨0, 4, le_bytes 4 (to_u32 1003)⟩)) initial_state,
            min_fd := if (1003 : Int) < initial_state.min_fd then 1003 else initial_state.min_fd,
            opened_fd := initial_state.opened_fd + 1 }
      else { initial_state with
            _sockfd := session_socket
              (world_with 1 1 (response_stream ⟨0, 4, le_bytes 4 (to_u32 1003)⟩)) initial_state,
            errno := (⟨0, 4, le_bytes 4 (to_u32 1003)⟩ : rpc_resp).err_no })
      = one_open_state := by decide
  rw [hst] at h
  exact reachable.step 9000
    (world_with 1 1 (response_stream ⟨0, 4, le_bytes 4 (to_u32 1003)⟩))
    (.open_stub [47, 97, 0] 0 0) [] initial_state (some 1003)
    one_open_state w1 reachable_initial_state (by
      simp only [client_step]
      rw [h, ok_bind])

/-! ## The response buffer of `do_read` -/

theorem do_read_response_fits (r errno : Int) (buf : List Byte) (h0 : 0 ≤ r)
    (hr : r.toNat ≤ buf.length) (h32 : r + 8 < 2 ^ 32) :
    do_read_response r errno buf
      = some ⟨errno, 8 + r.toNat, le_bytes 8 r.toNat ++ buf.take r.toNat⟩ := by
  have hu : to_u64 r = r.toNat := to_u64_toNat r h0 (by omega)
  unfold do_read_response
  rw [hu, Nat.mod_eq_of_lt (by omega)]
  dsimp only
  rw [mem_write_data_eq (le_of_eq (le_bytes_length _ _).symm) (by rw [malloc_length]; omega)]
  simp only [Option.bind_eq_bind, Option.some_bind]
  by_cases hpos : r > 0
  · rw [if_pos hpos, mem_write_data_eq hr (by
      simp only [List.length_append, List.length_take, List.length_drop, le_bytes_length,
        malloc_length]
      omega)]
    simp only [Option.some_bind, Option.some.injEq, rpc_resp.mk.injEq, true_and]
    refine ⟨Nat.mod_eq_of_lt (by omega), ?_⟩
    rw [List.take_left' (by
      simp only [List.length_append, List.length_take, List.length_drop, le_bytes_length,
        malloc_length]
      omega)]
    rw [List.drop_eq_nil_of_le (by
      simp only [List.length_append, List.length_take, List.length_drop, le_bytes_length,
        malloc_length]
      omega)]
    simp [le_bytes_length]
  · have hz : r = 0 := by omega
    rw [if_neg hpos]
    simp only [Option.some_bind, Option.some.injEq, rpc_resp.mk.injEq, true_and]
    subst hz
    simp [malloc, le_bytes_length]

theorem to_u64_neg_one : to_u64 (-1) = 2 ^ 64 - 1 := by
  unfold to_u64
  omega

theorem do_read_response_negative (errno : Int) (buf : List Byte) :
    do_read_response (-1) errno buf = none := by
  unfold do_read_response
  rw [to_u64_neg_one]
  dsimp only
  unfold mem_write_data
  rw [if_neg (by rw [malloc_length]; omega)]
  rfl

/-! ## The layout of a tree, node by node -/

theorem well_formed_node {name : List Byte} {nsub : Nat} {subdirs : List dirtreenode}
    (h : well_formed (.mk name nsub subdirs) = true) :
    strlen name = some (name.length - 1) ∧ 1 ≤ name.length ∧ nsub = subdirs.length
      ∧ nsub < 2 ^ 31 ∧ name.length < 2 ^ 64 ∧ well_formed_all subdirs = true := by
  rw [well_formed] at h
  simp only [Bool.and_eq_true, decide_eq_true_eq] at h
  obtain ⟨⟨⟨⟨hname, hlen⟩, hnsub⟩, hcount⟩, hsubs⟩ := h
  obtain ⟨n, hstr, hn⟩ := strlen_of_is_cstring hname
  refine ⟨?_, by omega, hnsub, by omega, hlen, hsubs⟩
  rw [hstr, hn]
  rfl

theorem node_record_of_well_formed {name : List Byte} {nsub : Nat} {subdirs : List dirtreenode}
    (h : well_formed (.mk name nsub subdirs) = true) :
    node_record (.mk name nsub subdirs) = le_bytes 4 nsub ++ le_bytes 8 name.length ++ name
    ∧ node_size (.mk name nsub subdirs) = 4 + 8 + name.length := by
  obtain ⟨hstr, h1, _, h31, _, _⟩ := well_formed_node h
  have hk : name_strlen (.mk name nsub subdirs) + 1 = name.length := by
    simp only [name_strlen, hstr, Option.getD_some]
    omega
  constructor
  · rw [node_record, hk, List.take_length, to_i32_of_lt h31, to_u32_natCast (by omega)]
  · rw [node_size, Nat.add_assoc, hk]

mutual
theorem tree_layout_preorder : ∀ t : dirtreenode, well_formed t = true →
    tree_layout t = ((preorder t).map node_record).flatten
      ∧ (tree_layout t).length = ((preorder t).map node_size).sum
  | .mk name nsub subdirs, h => by
    obtain ⟨hr, hs⟩ := node_record_of_well_formed h
    obtain ⟨ih1, ih2⟩ := forest_layout_preorder subdirs (well_formed_node h).2.2.2.2.2
    constructor
    · rw [tree_layout, preorder, List.map_cons, List.flatten_cons, hr, ← ih1]
    · rw [tree_layout_length, preorder, List.map_cons, List.sum_cons, hs, ← ih2]
theorem forest_layout_preorder : ∀ ts : List dirtreenode, well_formed_all ts = true →
    forest_layout ts = ((preorder_all ts).map node_record).flatten
      ∧ (forest_layout ts).length = ((preorder_all ts).map node_size).sum
  | [], _ => by
    rw [forest_layout, preorder_all]
    exact ⟨rfl, rfl⟩
  | c :: cs, h => by
    rw [well_formed_all] at h
    simp only [Bool.and_eq_true] at h
    obtain ⟨ih1, ih2⟩ := tree_layout_preorder c h.1
    obtain ⟨ih3, ih4⟩ := forest_layout_preorder cs h.2
    constructor
    · rw [forest_layout, preorder_all, List.map_append, List.flatten_append, ← ih1, ← ih3]
    · rw [forest_layout_cons_length, preorder_all, List.map_append, List.sum_append, ← ih2,
        ← ih4]
end

mutual
theorem well_formed_of_mem_preorder : ∀ t : dirtreenode, well_formed t = true →
    ∀ node ∈ preorder t, well_formed node = true
  | .mk name nsub subdirs, h, node, hn => by
    rw [preorder, List.mem_cons] at hn
    rcases hn with hn | hn
    · rw [hn]
      exact h
    · exact well_formed_of_mem_preorder_all subdirs (well_formed_node h).2.2.2.2.2 node hn
theorem well_formed_of_mem_preorder_all : ∀ ts : List dirtreenode, well_formed_all ts = true →
    ∀ node ∈ preorder_all ts, well_formed node = true
  | [], _, node, hn => by
    rw [preorder_all] at hn
    exact absurd hn (List.not_mem_nil node)
  | c :: cs, h, node, hn => by
    rw [well_formed_all] at h
    simp only [Bool.and_eq_true] at h
    rw [preorder_all, List.mem_append] at hn
    rcases hn with hn | hn
    · exact well_formed_of_mem_preorder c h.1 node hn
    · exact well_formed_of_mem_preorder_all cs h.2 node hn
end

theorem preorder_all_eq (ts : List dirtreenode) :
    preorder_all ts = (ts.map preorder).flatten := by
  induction ts with
  | nil => rfl
  | cons c cs ih => rw [preorder_all, ih, List.map_cons, List.flatten_cons]

/-! ## Buffers without room -/

theorem mem_write_data_no_room (data val : List Byte) (off size : Nat)
    (h : data.length < off + size) : mem_write_data data off val size = none := by
  unfold mem_write_data
  rw [if_neg (by omega)]

theorem mem_write_tree_length {t : dirtreenode} {buf : List Byte} {off : Nat}
    (hwf : well_formed t = true) (hcap : off + (tree_layout t).length ≤ buf.length) :
    ∃ buf2, mem_write_tree t buf off = some (buf2, off + (tree_layout t).length)
      ∧ buf2.length = buf.length := by
  have hoff : off = (buf.take off).length := by
    rw [List.length_take]
    omega
  have hw := mem_write_tree_layout t buf (buf.take off) (buf.drop off) off hwf
    (List.take_append_drop off buf).symm hoff (by rw [List.length_drop]; omega)
  refine ⟨_, hw, ?_⟩
  simp only [List.length_append, List.length_take, List.length_drop]
  omega

mutual
theorem mem_write_tree_no_room : ∀ (t : dirtreenode) (buf : List Byte) (off : Nat),
    well_formed t = true → buf.length < off + (tree_layout t).length →
    mem_write_tree t buf off = none
  | .mk name nsub subdirs, buf, off, hwf, hcap => by
    obtain ⟨hstr, h1, hnsub, h31, hlen, hsubs⟩ := well_formed_node hwf
    subst hnsub
    rw [tree_layout_length] at hcap
    rw [mem_write_tree, hstr]
    simp only [Option.bind_eq_bind, Option.some_bind]
    rw [to_i32_of_lt h31, to_u32_natCast (by omega : subdirs.length < 2 ^ 32),
      to_u64_natCast (by omega : subdirs.length < 2 ^ 64),
      show name.length - 1 + 1 = name.length by omega]
    unfold mem_write_int32
    by_cases c1 : off + 4 ≤ buf.length
    · rw [mem_write_data_eq (le_of_eq (le_bytes_length _ _).symm) c1]
      simp only [Option.some_bind]
      have l1 : (buf.take off ++ (le_bytes 4 (subdirs.length % 2 ^ 32)).take 4 ++ buf.drop (off + 4)).length
          = buf.length := by
        simp only [List.length_append, List.length_take, List.length_drop, le_bytes_length]
        omega
      by_cases c2 : off + 4 + 8 ≤ buf.length
      · rw [mem_write_data_eq (le_of_eq (le_bytes_length _ _).symm) (by rw [l1]; exact c2)]
        simp only [Option.some_bind]
        have l2 : ((buf.take off ++ (le_bytes 4 (subdirs.length % 2 ^ 32)).take 4
            ++ buf.drop (off + 4)).take (off + 4) ++ (le_bytes 8 name.length).take 8
            ++ (buf.take off ++ (le_bytes 4 (subdirs.length % 2 ^ 32)).take 4
              ++ buf.drop (off + 4)).drop (off + 4 + 8)).length = buf.length := by
          rw [List.length_append, List.length_append, List.length_take, List.length_drop,
            List.length_take, l1, le_bytes_length]
          omega
        by_cases c3 : off + 4 + 8 + name.length ≤ buf.length
        · rw [mem_write_data_eq (le_refl _) (by rw [l2]; exact c3)]
          simp only [Option.some_bind]
          apply mem_write_subdirs_no_room subdirs _ _ hsubs
          · rw [List.length_append, List.length_append, List.length_take, List.length_drop,
              List.length_take, l2]
            omega
          · rw [List.length_append, List.length_append, List.length_take, List.length_drop,
              List.length_take, l2]
            omega
        · rw [mem_write_data_no_room _ _ _ _ (by rw [l2]; omega)]
          rfl
      · rw [mem_write_data_no_room _ _ _ _ (by rw [l1]; omega)]
        rfl
    · rw [mem_write_data_no_room _ _ _ _ (by omega)]
      rfl
theorem mem_write_subdirs_no_room : ∀ (ts : List dirtreenode) (buf : List Byte) (off : Nat),
    well_formed_all ts = true → off ≤ buf.length → buf.length < off + (forest_layout ts).length →
    mem_write_subdirs ts ts.length buf off = none
  | [], buf, off, _, h1, h2 => by
    rw [forest_layout, List.length_nil] at h2
    omega
  | c :: cs, buf, off, hwf, h1, h2 => by
    rw [well_formed_all] at hwf
    simp only [Bool.and_eq_true] at hwf
    rw [forest_layout_cons_length] at h2
    rw [List.length_cons, mem_write_subdirs]
    by_cases hc : off + (tree_layout c).length ≤ buf.length
    · obtain ⟨buf2, hw, hl⟩ := mem_write_tree_length hwf.1 hc
      rw [hw]
      simp only [Option.bind_eq_bind, Option.some_bind]
      exact mem_write_subdirs_no_room cs buf2 _ hwf.2 (by omega) (by omega)
    · rw [mem_write_tree_no_room c buf off hwf.1 (by omega)]
      rfl
end

theorem do_getdirentries_response_no_room (r errno : Int) (buf : List Byte) (basep : Int)
    (hr : 4080 < r) (h63 : r < 2 ^ 63) :
    do_getdirentries_response r errno buf basep = none := by
  unfold do_getdirentries_response
  dsimp only
  rw [mem_write_data_eq (le_of_eq (le_bytes_length _ _).symm)
    (by rw [malloc_length]; unfold MAXMSGLEN; omega)]
  simp only [Option.bind_eq_bind, Option.some_bind]
  rw [mem_write_data_eq (le_of_eq (le_bytes_length _ _).symm) (by
    simp only [List.length_append, List.length_take, List.length_drop, le_bytes_length,
      malloc_length]
    unfold MAXMSGLEN
    omega)]
  simp only [Option.some_bind]
  rw [if_pos (by omega), to_u64_toNat r (by omega) h63, mem_write_data_no_room _ _ _ _ (by
    simp only [List.length_append, List.length_take, List.length_drop, le_bytes_length,
      malloc_length]
    unfold MAXMSGLEN
    omega)]
  rfl

theorem do_getdirentries_response_fits (r errno : Int) (buf : List Byte) (basep : Int)
    (h0 : 0 < r) (hr : r ≤ 4080) (hbuf : r.toNat ≤ buf.length) :
    ∃ data, do_getdirentries_response r errno buf basep
        = some ⟨errno, 16 + r.toNat, data⟩
      ∧ data.length = MAXMSGLEN
      ∧ data.take (16 + r.toNat)
        = le_bytes 8 (to_u64 r) ++ le_bytes 8 (to_u64 basep) ++ buf.take r.toNat := by
  have hl : (buf.take r.toNat).length = r.toNat := by
    rw [List.length_take]
    omega
  unfold do_getdirentries_response
  dsimp only
  rw [mem_write_le_at (p := []) (t := malloc MAXMSGLEN) 8 _ ?_ ?_ ?_]
  simp only [Option.bind_eq_bind, Option.some_bind]
  rw [mem_write_le_at (p := le_bytes 8 (to_u64 r)) (t := (malloc MAXMSGLEN).drop 8) 8 _ ?_ ?_ ?_]
  simp only [Option.some_bind]
  rw [if_pos (by omega), to_u64_toNat r (by omega) (by omega),
    mem_write_data_at (p := le_bytes 8 r.toNat ++ le_bytes 8 (to_u64 basep))
      (t := ((malloc MAXMSGLEN).drop 8).drop 8) ?_ ?_ hbuf ?_]
  simp only [Option.some_bind]
  refine ⟨le_bytes 8 r.toNat ++ le_bytes 8 (to_u64 basep) ++ buf.take r.toNat
    ++ (((malloc MAXMSGLEN).drop 8).drop 8).drop r.toNat, ?_, ?_, ?_⟩
  · rw [Option.some.injEq, rpc_resp.mk.injEq]
    refine ⟨rfl, ?_, rfl⟩
    rw [Nat.mod_eq_of_lt (by omega)]
  · simp only [List.length_append, le_bytes_length, hl, List.length_drop, malloc_length]
    unfold MAXMSGLEN
    omega
  · exact List.take_left' (by simp only [List.length_append, le_bytes_length, hl])
  all_goals first
    | rfl
    | (simp only [List.nil_append, List.length_nil, List.length_append, le_bytes_length,
        List.length_drop, malloc_length]
       unfold MAXMSGLEN
       omega)
    | (simp only [List.nil_append, List.length_nil, List.length_append, le_bytes_length,
        List.length_drop, malloc_length])

theorem well_formed_all_replicate (c : dirtreenode) (h : well_formed c = true) (n : Nat) :
    well_formed_all (List.replicate n c) = true
      ∧ (forest_layout (List.replicate n c)).length = n * (tree_layout c).length := by
  induction n with
  | zero => exact ⟨rfl, by rw [Nat.zero_mul]; rfl⟩
  | succ n ih =>
    rw [List.replicate_succ, well_formed_all, forest_layout_cons_length, h, ih.1, ih.2]
    exact ⟨rfl, by ring⟩

theorem wide_tree_well_formed :
    well_formed (.mk [47, 0] 3000 (List.replicate 3000 (.mk [97, 0] 0 []))) = true
      ∧ (tree_layout (.mk [47, 0] 3000 (List.replicate 3000 (.mk [97, 0] 0 [])))).length
        = 42014 := by
  obtain ⟨h1, h2⟩ := well_formed_all_replicate (.mk [97, 0] 0 []) (by decide) 3000
  constructor
  · rw [well_formed, h1, List.length_replicate]
    decide
  · rw [tree_layout_length, h2]
    decide

theorem do_getdirentries_eq (os : server_os) (fd basep : Int) (nbytes op : Nat)
    (hlo : INT_MIN ≤ fd) (hhi : fd ≤ INT_MAX) (hblo : -2 ^ 63 ≤ basep) (hbhi : basep < 2 ^ 63)
    (hnbytes : nbytes < 2 ^ 64) :
    do_getdirentries os ⟨op, 20, le_bytes 4 (to_u32 fd) ++ le_bytes 8 (to_u64 basep)
        ++ le_bytes 8 nbytes⟩
      = do_getdirentries_response
          (os.sys_getdirentries (unpack_fd fd) (malloc nbytes) nbytes basep).1
          (os.sys_getdirentries (unpack_fd fd) (malloc nbytes) nbytes basep).2.1
          (os.sys_getdirentries (unpack_fd fd) (malloc nbytes) nbytes basep).2.2.1
          (os.sys_getdirentries (unpack_fd fd) (malloc nbytes) nbytes basep).2.2.2 := by
  have h := call_getdirentries_unmarshal_eq fd nbytes basep [] hlo hhi hnbytes hblo hbhi
  rw [List.append_nil] at h
  unfold do_getdirentries
  simp only [h, Option.bind_eq_bind, Option.some_bind]

theorem do_dirtreenode_response_no_room (t : dirtreenode) (errno : Int)
    (hwf : well_formed t = true) (hbig : MAXTREESIZE < (tree_layout t).length) :
    do_dirtreenode_response (some t) errno = none := by
  unfold do_dirtreenode_response
  dsimp only
  rw [mem_write_tree_no_room t _ 0 hwf (by rw [malloc_length]; omega)]
  rfl

theorem do_dirtreenode_eq (sys_getdirtree : List Byte → Option dirtreenode × Int)
    (cpath : List Byte) (op size : Nat) (hlen : cpath.length ≤ MAXMSGLEN) :
    do_dirtreenode sys_getdirtree ⟨op, size, le_bytes 4 cpath.length ++ cpath⟩
      = do_dirtreenode_response
          (sys_getdirtree (cpath ++ (malloc MAXMSGLEN).drop cpath.length)).1
          (sys_getdirtree (cpath ++ (malloc MAXMSGLEN).drop cpath.length)).2 := by
  have h := call_dirtreenode_unmarshal_eq cpath [] (by unfold MAXMSGLEN at hlen; omega)
  rw [List.append_nil] at h
  unfold do_dirtreenode store
  simp only [h, Option.bind_eq_bind, Option.some_bind]
  rw [if_pos (by rw [malloc_length]; exact hlen)]
  rfl

/-! ## A descriptor closed twice -/

theorem close_one_open_state : ∃ w1,
    close 9000 (world_with 1 1 (response_stream ⟨0, 4, le_bytes 4 (to_u32 0)⟩)) one_open_state
      1003 = .ok (0, all_closed_state, w1) := by
  obtain ⟨w1, _, h⟩ := close_remote_ok 9000
    (world_with 1 1 (response_stream ⟨0, 4, le_bytes 4 (to_u32 0)⟩)) one_open_state 1003
    ⟨0, 4, le_bytes 4 (to_u32 0)⟩ 0 [] (by decide)
    (answers_world_with 1 1 _ _ (by decide) (by decide) (by decide) (by decide) rfl (by decide))
    (List.append_nil _).symm (by decide) (by decide) (by decide) (by decide)
  rw [if_pos rfl, if_pos (by decide), if_pos (by decide)] at h
  exact ⟨_, h⟩

theorem close_all_closed_state : ∃ w1,
    close 9000 (world_with 1 1 (response_stream ⟨0, 4, le_bytes 4 (to_u32 0)⟩)) all_closed_state
      1003 = .ok (0, negative_count_state, w1) := by
  obtain ⟨w1, _, h⟩ := close_remote_ok 9000
    (world_with 1 1 (response_stream ⟨0, 4, le_bytes 4 (to_u32 0)⟩)) all_closed_state 1003
    ⟨0, 4, le_bytes 4 (to_u32 0)⟩ 0 [] (by decide)
    (answers_world_with 1 1 _ _ (by decide) (by decide) (by decide) (by decide) rfl (by decide))
    (List.append_nil _).symm (by decide) (by decide) (by decide) (by decide)
  rw [if_pos rfl, if_neg (by decide), if_neg (by decide)] at h
  exact ⟨_, h⟩

theorem reachable_all_closed_state : reachable [1003] all_closed_state := by
  obtain ⟨w1, h⟩ := close_one_open_state
  exact reachable.step 9000
    (world_with 1 1 (response_stream ⟨0, 4, le_bytes 4 (to_u32 0)⟩))
    (.close 1003) [1003] one_open_state none all_closed_state w1 reachable_one_open_state (by
      simp only [client_step]
      rw [h, ok_bind])

theorem reachable_negative_count_state : reachable [1003] negative_count_state := by
  obtain ⟨w1, h⟩ := close_all_closed_state
  exact reachable.step 9000
    (world_with 1 1 (response_stream ⟨0, 4, le_bytes 4 (to_u32 0)⟩))
    (.close 1003) [1003] all_closed_state none negative_count_state w1
    reachable_all_closed_state (by
      simp only [client_step]
      rw [h, ok_bind])

/-! ## Read errors and the end of the stream in the receive routine -/

theorem reads_succeeded_refl (w : world) : reads_succeeded w w :=
  ⟨rfl, le_refl _, fun i h1 h2 => by omega⟩

theorem reads_succeeded_trans {u v w : world} (h1 : reads_succeeded u v)
    (h2 : reads_succeeded v w) : reads_succeeded u w := by
  obtain ⟨d1, r1, k1⟩ := h1
  obtain ⟨d2, r2, k2⟩ := h2
  refine ⟨d2.trans d1, le_trans r1 r2, ?_⟩
  intro i hi1 hi2
  by_cases h : i < v.recvs
  · exact k1 i hi1 h
  · have := k2 i (by omega) hi2
    rw [d1] at this
    exact this

theorem recv_counts (w : world) (sockfd : Int) (len : Nat) :
    (recv w sockfd len).2.2.deliver = w.deliver
      ∧ (recv w sockfd len).2.2.recvs = w.recvs + 1
      ∧ (¬ (recv w sockfd len).1 < 0 → 0 ≤ w.deliver w.recvs) := by
  unfold recv
  dsimp only
  split
  · exact ⟨rfl, rfl, fun h => absurd (by decide : (-1 : Int) < 0) h⟩
  · exact ⟨rfl, rfl, fun _ => by omega⟩

theorem recv_reads_succeeded (w : world) (sockfd : Int) (len : Nat)
    (h : ¬ (recv w sockfd len).1 < 0) : reads_succeeded w (recv w sockfd len).2.2 := by
  obtain ⟨h1, h2, h3⟩ := recv_counts w sockfd len
  refine ⟨h1, by omega, ?_⟩
  intro i hi1 hi2
  have : i = w.recvs := by omega
  rw [this]
  exact h3 h

theorem recv_error (w : world) (sockfd : Int) (len : Nat) (h : w.deliver w.recvs < 0) :
    recv w sockfd len
      = (-1, [], { w with recvs := w.recvs + 1, log := w.log ++ [.recv sockfd len (-1)] }) := by
  unfold recv
  dsimp only
  rw [if_pos h]

theorem recv_end_of_stream (w : world) (sockfd : Int) (len : Nat)
    (h : 0 ≤ w.deliver w.recvs) (hinc : w.incoming = []) :
    recv w sockfd len
      = (0, [], { w with recvs := w.recvs + 1, log := w.log ++ [.recv sockfd len 0] }) := by
  unfold recv
  dsimp only
  rw [if_neg (by omega), hinc]
  simp only [List.length_nil, Nat.min_zero, List.take_nil, List.drop_nil, Nat.cast_zero]

theorem mem_write_data_nothing (buf : List Byte) (off : Nat) (h : off ≤ buf.length) :
    mem_write_data buf off [] ([] : List Byte).length = some (buf, off) := by
  rw [mem_write_data_eq (le_refl _) (by simp only [List.length_nil]; omega)]
  simp only [List.length_nil, List.take_nil, List.append_nil, Nat.add_zero,
    List.take_append_drop]

theorem recv_prefix_loop_read_error (fuel : Nat) (w : world) (sockfd : Int) (buf : List Byte)
    (received : Int) (herr : w.deliver w.recvs < 0) (hbuf : 4 ≤ buf.length)
    (hrec : to_u64 received < 4) :
    recv_prefix_loop (fuel + 1) w sockfd buf received = .error .fatal := by
  rw [recv_prefix_loop, if_pos hrec, recv_error w sockfd _ herr]
  dsimp only
  rw [mem_write_data_nothing buf _ (by omega), defined_some, ok_bind]
  dsimp only
  rw [if_pos (by decide)]

theorem recv_payload_loop_read_error (fuel : Nat) (w : world) (sockfd : Int)
    (buf data : List Byte) (off : Nat) (frame_size : Int) (herr : w.deliver w.recvs < 0)
    (hoff : off < to_u64 frame_size) :
    recv_payload_loop (fuel + 1) w sockfd buf data off frame_size = .error .fatal := by
  rw [recv_payload_loop, if_pos hoff, recv_error w sockfd _ herr]
  dsimp only
  rw [mem_write_data_nothing buf 0 (Nat.zero_le _), defined_some, ok_bind]
  dsimp only
  rw [if_pos (by decide)]

theorem handle_session_recv_read_error (fuel : Nat) (w : world) (sessfd : Int)
    (buf : List Byte) (herr : w.deliver w.recvs < 0) :
    handle_session_recv fuel w sessfd buf = .error .fatal := by
  rw [handle_session_recv, recv_error w sessfd _ herr]
  dsimp only
  rw [mem_write_data_nothing buf 0 (Nat.zero_le _), defined_some, ok_bind]
  dsimp only
  rw [if_neg (by decide), if_pos (by decide)]

theorem handle_session_recv_end_of_stream (fuel : Nat) (w : world) (sessfd : Int)
    (buf : List Byte) (h : 0 ≤ w.deliver w.recvs) (hinc : w.incoming = []) :
    handle_session_recv fuel w sessfd buf
      = .ok (none, buf, { w with recvs := w.recvs + 1,
                                 log := w.log ++ [.recv sessfd MAXMSGLEN 0] }) := by
  rw [handle_session_recv, recv_end_of_stream w sessfd _ h hinc]
  dsimp only
  rw [mem_write_data_nothing buf 0 (Nat.zero_le _), defined_some, ok_bind]
  dsimp only
  rw [if_neg (by decide), if_neg (by decide)]

theorem recv_some (w : world) (sockfd : Int) (len : Nat) (h : 0 ≤ w.deliver w.recvs) :
    ∃ k : Nat, k = min (min (w.deliver w.recvs).toNat len) w.incoming.length
      ∧ (w.incoming.take k).length = k
      ∧ recv w sockfd len
        = ((k : Int), w.incoming.take k,
            { w with incoming := w.incoming.drop k, recvs := w.recvs + 1,
                     log := w.log ++ [.recv sockfd len (k : Int)] }) := by
  refine ⟨_, rfl, ?_, ?_⟩
  · rw [List.length_take]
    omega
  · unfold recv
    dsimp only
    rw [if_neg (by omega)]

theorem send_request_recv_second_read_error (fuel : Nat) (w : world) (sockfd : Int)
    (h0 : 0 ≤ w.deliver w.recvs)
    (hk : min (min (w.deliver w.recvs).toNat MAXMSGLEN) w.incoming.length < 4)
    (h1 : w.deliver (w.recvs + 1) < 0) :
    send_request_recv (fuel + 1) w sockfd = .error .fatal := by
  obtain ⟨k, hkeq, hlen, hrecv⟩ := recv_some w sockfd MAXMSGLEN h0
  rw [← hkeq] at hk
  unfold send_request_recv
  rw [hrecv]
  dsimp only
  rw [hlen, mem_write_data_eq (by omega) (by rw [stack_array_length]; unfold MAXMSGLEN; omega),
    defined_some, ok_bind]
  dsimp only
  unfold recv_frame_rest
  dsimp only
  rw [recv_prefix_loop_read_error fuel _ sockfd _ (k : Int) h1 (by
      simp only [List.length_append, List.length_take, List.length_drop, stack_array_length]
      unfold MAXMSGLEN
      omega) (by rw [to_u64_natCast (by omega)]; exact hk)]
  rfl

theorem handle_session_recv_second_read_error (fuel : Nat) (w : world) (sessfd : Int)
    (buf : List Byte) (hbuf : buf.length = MAXMSGLEN) (h0 : 0 ≤ w.deliver w.recvs)
    (hpos : 0 < min (min (w.deliver w.recvs).toNat MAXMSGLEN) w.incoming.length)
    (hk : min (min (w.deliver w.recvs).toNat MAXMSGLEN) w.incoming.length < 4)
    (h1 : w.deliver (w.recvs + 1) < 0) :
    handle_session_recv (fuel + 1) w sessfd buf = .error .fatal := by
  obtain ⟨k, hkeq, hlen, hrecv⟩ := recv_some w sessfd MAXMSGLEN h0
  rw [← hkeq] at hk hpos
  unfold handle_session_recv
  rw [hrecv]
  dsimp only
  rw [hlen, mem_write_data_eq (by omega) (by rw [hbuf]; unfold MAXMSGLEN; omega),
    defined_some, ok_bind]
  dsimp only
  rw [if_pos (by omega)]
  unfold recv_frame_rest
  dsimp only
  rw [recv_prefix_loop_read_error fuel _ sessfd _ (k : Int) h1 (by
      simp only [List.length_append, List.length_take, List.length_drop, hbuf]
      unfold MAXMSGLEN
      omega) (by rw [to_u64_natCast (by omega)]; exact hk)]
  rfl

theorem recv_prefix_loop_reads : ∀ (fuel : Nat) (w : world) (sockfd : Int)
    (buf : List Byte) (received : Int) (r : List Byte × Int × world),
    recv_prefix_loop fuel w sockfd buf received = .ok r → reads_succeeded w r.2.2 := by
  intro fuel
  induction fuel with
  | zero =>
    intro w sockfd buf received r h
    simp [recv_prefix_loop] at h
  | succ fuel ih =>
    intro w sockfd buf received r h
    rw [recv_prefix_loop] at h
    split at h
    · have hs := recv_reads_succeeded w sockfd (to_u64 ((MAXMSGLEN : Int) - received))
      generalize recv w sockfd (to_u64 ((MAXMSGLEN : Int) - received)) = rr at h hs
      obtain ⟨rv, bytes, w1⟩ := rr
      simp only [bind, Except.bind] at h hs
      split at h
      · cases h
      · rename_i x hx
        split at h
        · cases h
        · rename_i hrv
          exact reads_succeeded_trans (hs hrv) (ih _ _ _ _ _ h)
    · cases h
      exact reads_succeeded_refl w

theorem recv_payload_loop_reads : ∀ (fuel : Nat) (w : world) (sockfd : Int)
    (buf data : List Byte) (off : Nat) (frame_size : Int) (r : List Byte × List Byte × world),
    recv_payload_loop fuel w sockfd buf data off frame_size = .ok r →
      reads_succeeded w r.2.2 := by
  intro fuel
  induction fuel with
  | zero =>
    intro w sockfd buf data off frame_size r h
    simp [recv_payload_loop] at h
  | succ fuel ih =>
    intro w sockfd buf data off frame_size r h
    rw [recv_payload_loop] at h
    split at h
    · have hs := recv_reads_succeeded w sockfd MAXMSGLEN
      generalize recv w sockfd MAXMSGLEN = rr at h hs
      obtain ⟨rv, bytes, w1⟩ := rr
      simp only [bind, Except.bind] at h hs
      split at h
      · cases h
      · rename_i x hx
        split at h
        · cases h
        · rename_i hrv
          split at h
          · cases h
          · exact reads_succeeded_trans (hs hrv) (ih _ _ _ _ _ _ _ h)
    · cases h
      exact reads_succeeded_refl w

theorem recv_frame_rest_reads (fuel : Nat) (w : world) (sockfd : Int)
    (buf : List Byte) (rv : Int) (r : List Byte × List Byte × world)
    (h : recv_frame_rest fuel w sockfd buf rv = .ok r) : reads_succeeded w r.2.2 := by
  unfold recv_frame_rest at h
  simp only [bind, Except.bind] at h
  split at h
  · cases h
  · rename_i x hx
    obtain ⟨buf1, received, w1⟩ := x
    dsimp only at h
    split at h
    · cases h
    · split at h
      · cases h
      · exact reads_succeeded_trans (recv_prefix_loop_reads _ _ _ _ _ _ hx)
          (recv_payload_loop_reads _ _ _ _ _ _ _ _ h)

theorem send_request_recv_reads (fuel : Nat) (w : world) (sockfd : Int)
    (r : List Byte × world) (h : send_request_recv fuel w sockfd = .ok r) :
    r.2.deliver = w.deliver ∧ w.recvs + 1 ≤ r.2.recvs
      ∧ ∀ i, w.recvs + 1 ≤ i → i < r.2.recvs → 0 ≤ w.deliver i := by
  unfold send_request_recv at h
  have hs := recv_counts w sockfd MAXMSGLEN
  generalize recv w sockfd MAXMSGLEN = rr at h hs
  obtain ⟨rv, bytes, w1⟩ := rr
  simp only [bind, Except.bind] at h hs
  split at h
  · cases h
  · split at h
    · cases h
    · rename_i y hy
      obtain ⟨data, buf2, w2⟩ := y
      cases h
      obtain ⟨d2, r2, k2⟩ := recv_frame_rest_reads _ _ _ _ _ _ hy
      obtain ⟨d1, r1, _⟩ := hs
      dsimp only at d1 r1 d2 r2 k2 ⊢
      refine ⟨d2.trans d1, by omega, ?_⟩
      intro i hi1 hi2
      have := k2 i (by omega) hi2
      rw [d1] at this
      exact this

theorem handle_session_recv_reads (fuel : Nat) (w : world) (sessfd : Int) (buf : List Byte)
    (r : Option (List Byte) × List Byte × world)
    (h : handle_session_recv fuel w sessfd buf = .ok r) :
    reads_succeeded w r.2.2 ∧ w.recvs + 1 ≤ r.2.2.recvs := by
  unfold handle_session_recv at h
  have hs := recv_reads_succeeded w sessfd MAXMSGLEN
  have hc := (recv_counts w sessfd MAXMSGLEN).2.1
  generalize recv w sessfd MAXMSGLEN = rr at h hs hc
  obtain ⟨rv, bytes, w1⟩ := rr
  simp only [bind, Except.bind] at h hs hc
  split at h
  · cases h
  · split at h
    · rename_i hpos
      split at h
      · cases h
      · rename_i y hy
        obtain ⟨data, buf2, w2⟩ := y
        cases h
        have h2 := recv_frame_rest_reads _ _ _ _ _ _ hy
        refine ⟨reads_succeeded_trans (hs (by omega)) h2, ?_⟩
        have := h2.2.1
        dsimp only at hc this ⊢
        omega
    · split at h
      · cases h
      · rename_i hneg
        cases h
        dsimp only at hc ⊢
        exact ⟨hs hneg, by omega⟩

theorem recv_prefix_loop_end_of_stream : ∀ (fuel : Nat) (w : world) (sockfd : Int)
    (buf : List Byte) (received : Int), to_u64 received < 4 → 4 ≤ buf.length →
    w.incoming = [] → (∀ i, 0 ≤ w.deliver i) →
    recv_prefix_loop fuel w sockfd buf received = .error .fuel := by
  intro fuel
  induction fuel with
  | zero =>
    intro w sockfd buf received _ _ _ _
    rfl
  | succ fuel ih =>
    intro w sockfd buf received hrec hbuf hinc hdel
    rw [recv_prefix_loop, if_pos hrec, recv_end_of_stream w sockfd _ (hdel _) hinc]
    dsimp only
    rw [mem_write_data_nothing buf _ (by omega), defined_some, ok_bind]
    dsimp only
    rw [if_neg (by decide), Int.add_zero]
    exact ih _ sockfd buf received hrec hbuf hinc hdel

theorem recv_payload_loop_end_of_stream : ∀ (fuel : Nat) (w : world) (sockfd : Int)
    (buf data : List Byte) (off : Nat) (frame_size : Int), off < to_u64 frame_size →
    off ≤ data.length → w.incoming = [] → (∀ i, 0 ≤ w.deliver i) →
    recv_payload_loop fuel w sockfd buf data off frame_size = .error .fuel := by
  intro fuel
  induction fuel with
  | zero =>
    intro w sockfd buf data off frame_size _ _ _ _
    rfl
  | succ fuel ih =>
    intro w sockfd buf data off frame_size hoff hdata hinc hdel
    rw [recv_payload_loop, if_pos hoff, recv_end_of_stream w sockfd _ (hdel _) hinc]
    dsimp only
    rw [mem_write_data_nothing buf 0 (Nat.zero_le _), defined_some, ok_bind]
    dsimp only
    rw [if_neg (by decide)]
    have hz : to_u64 0 = 0 := by decide
    rw [hz, mem_write_data_eq (Nat.zero_le _) (by omega), defined_some, ok_bind]
    dsimp only
    simp only [List.take_zero, List.append_nil, Nat.add_zero, List.take_append_drop]
    exact ih _ sockfd buf data off frame_size hoff hdata hinc hdel

/-! ## What a marshaller that returns has written -/

theorem bind_eq_some {α β : Type} {x : Option α} {f : α → Option β} {b : β}
    (h : x >>= f = some b) : ∃ a, x = some a ∧ f a = some b := by
  cases x with
  | none => cases h
  | some a => exact ⟨a, rfl, h⟩

/-- C1. Directory-tree round trip: for every finite tree whose names are C strings (no zero
byte before the terminator) and whose `num_subdirs` is the number of children, and every buffer
that has room for the layout of the tree at offset `off`, `mem_write_tree` succeeds and
`mem_read_tree` applied at offset `off` to the bytes it produced yields the same tree (names,
child counts, order of the children and depth are those of the tree written) and the next
offset that `mem_write_tree` returned; the recursion of the reader needs no more levels than
the tree has. -/
theorem mem_write_tree_mem_read_tree_roundtrip (t : dirtreenode) (buf : List Byte) (off : Nat)
    (hwf : well_formed t = true) (hcap : off + (tree_layout t).length ≤ buf.length) :
    ∃ buf2 off2, mem_write_tree t buf off = some (buf2, off2)
      ∧ off2 = off + (tree_layout t).length
      ∧ mem_read_tree buf2 off = some (t, off2)
      ∧ ∀ fuel, tree_depth t ≤ fuel → mem_read_tree_fuel fuel buf2 off = some (t, off2) := by
  have hoff : off = (buf.take off).length := by
    rw [List.length_take]
    omega
  have hw := mem_write_tree_layout t buf (buf.take off) (buf.drop off) off hwf
    (List.take_append_drop off buf).symm hoff (by rw [List.length_drop]; omega)
  refine ⟨_, _, hw, rfl, ?_, ?_⟩
  · unfold mem_read_tree
    apply mem_read_tree_fuel_layout t _ _ (buf.take off) _ off hwf ?_ rfl hoff
    have := tree_depth_le_layout t
    simp only [List.length_append, List.length_take, List.length_drop]
    omega
  · intro fuel hfuel
    exact mem_read_tree_fuel_layout t fuel _ (buf.take off) _ off hwf hfuel rfl hoff

/-- Witness of C1: the tree `a` with the two children `b` and `c`, where `c` has the child `d`,
written at offset 3 of a buffer of 64 bytes. -/
theorem mem_write_tree_mem_read_tree_roundtrip_witness :
    ∃ buf2 off2,
      mem_write_tree (.mk [97, 0] 2 [.mk [98, 0] 0 [], .mk [99, 0] 1 [.mk [100, 0] 0 []]])
          (List.replicate 64 0) 3 = some (buf2, off2)
      ∧ off2 = 3 + (tree_layout
          (.mk [97, 0] 2 [.mk [98, 0] 0 [], .mk [99, 0] 1 [.mk [100, 0] 0 []]])).length
      ∧ mem_read_tree buf2 3
          = some (.mk [97, 0] 2 [.mk [98, 0] 0 [], .mk [99, 0] 1 [.mk [100, 0] 0 []]], off2)
      ∧ ∀ fuel, tree_depth
            (.mk [97, 0] 2 [.mk [98, 0] 0 [], .mk [99, 0] 1 [.mk [100, 0] 0 []]]) ≤ fuel →
          mem_read_tree_fuel fuel buf2 3
            = some (.mk [97, 0] 2 [.mk [98, 0] 0 [], .mk [99, 0] 1 [.mk [100, 0] 0 []]], off2) :=
  mem_write_tree_mem_read_tree_roundtrip
    (.mk [97, 0] 2 [.mk [98, 0] 0 [], .mk [99, 0] 1 [.mk [100, 0] 0 []]])
    (List.replicate 64 0) 3 (by decide) (by decide)

/-- C2. Argument round trip for the path-carrying operations.  Let `path` be a zero-terminated
array with `strlen path = n` and `n + 1 < 2 ^ 32`; the string with its terminator is
`path.take (n + 1)`, it has `n + 1` bytes, ends with the zero byte and has the same `strlen`.
For all 32-bit `flags`, 16-bit `mode`, `int` values `ver` and output buffers with room for the
layout: `call_open_marshal` writes `flags`, `mode`, the length field `n + 1` and the `n + 1` path
bytes and `call_open_unmarshal` yields the same flags, mode and path; `call_stat_marshal` writes
`ver`, the 8-byte length field `n + 1` and the path bytes and `call_stat_unmarshal` yields the
same `ver` and path; `call_unlink_marshal` and `call_dirtreenode_marshal` write the length field
`n + 1` and the path bytes and their `unmarshal` functions yield the same path. -/
theorem path_operations_roundtrip (path : List Byte) (n flags mode : Nat) (ver : Int)
    (out_open out_stat out_unlink out_tree : List Byte)
    (hstr : strlen path = some n) (hn : n + 1 < 2 ^ 32)
    (hflags : flags < 2 ^ 32) (hmode : mode < 2 ^ 16)
    (hvlo : INT_MIN ≤ ver) (hvhi : ver ≤ INT_MAX)
    (hco : 10 + (n + 1) ≤ out_open.length) (hcs : 12 + (n + 1) ≤ out_stat.length)
    (hcu : 4 + (n + 1) ≤ out_unlink.length) (hct : 4 + (n + 1) ≤ out_tree.length) :
    ((path.take (n + 1)).length = n + 1 ∧ (path.take (n + 1)).getLast? = some 0
        ∧ strlen (path.take (n + 1)) = some n)
      ∧ (∃ b, call_open_marshal out_open path flags mode = some (b, 10 + (n + 1))
          ∧ b.take (10 + (n + 1))
              = le_bytes 4 flags ++ le_bytes 2 mode ++ le_bytes 4 (n + 1) ++ path.take (n + 1)
          ∧ call_open_unmarshal (b.take (10 + (n + 1)))
              = some (true, path.take (n + 1), flags, mode))
      ∧ (∃ b, call_stat_marshal out_stat ver path = some (b, 12 + (n + 1))
          ∧ b.take (12 + (n + 1))
              = le_bytes 4 (to_u32 ver) ++ le_bytes 8 (n + 1) ++ path.take (n + 1)
          ∧ call_stat_unmarshal (b.take (12 + (n + 1))) = some (true, ver, path.take (n + 1)))
      ∧ (∃ b, call_unlink_marshal out_unlink path = some (b, 4 + (n + 1))
          ∧ b.take (4 + (n + 1)) = le_bytes 4 (n + 1) ++ path.take (n + 1)
          ∧ call_unlink_unmarshal (b.take (4 + (n + 1))) = some (true, path.take (n + 1)))
      ∧ (∃ b, call_dirtreenode_marshal out_tree path = some (b, 4 + (n + 1))
          ∧ b.take (4 + (n + 1)) = le_bytes 4 (n + 1) ++ path.take (n + 1)
          ∧ call_dirtreenode_unmarshal (b.take (4 + (n + 1))) = some (true, path.take (n + 1))) := by
  obtain ⟨hs1, hs2, hs3⟩ := strlen_take_succ hstr
  have hlast : (path.take (n + 1)).getLast? = some 0 := by
    rw [(strlen_take hstr).2.1]
    exact List.getLast?_concat _
  have h32 : (path.take (n + 1)).length < 2 ^ 32 := by omega
  have h64 : (path.take (n + 1)).length < 2 ^ 64 := by omega
  have hlo : (le_bytes 4 flags ++ le_bytes 2 mode ++ le_bytes 4 (n + 1)
      ++ path.take (n + 1)).length = 10 + (n + 1) := by
    simp only [List.length_append, le_bytes_length, hs3]
  have hls : (le_bytes 4 (to_u32 ver) ++ le_bytes 8 (n + 1) ++ path.take (n + 1)).length
      = 12 + (n + 1) := by
    simp only [List.length_append, le_bytes_length, hs3]
  have hlu : (le_bytes 4 (n + 1) ++ path.take (n + 1)).length = 4 + (n + 1) := by
    simp only [List.length_append, le_bytes_length, hs3]
  refine ⟨⟨hs3, hlast, hs1⟩, ⟨_, call_open_marshal_eq out_open path flags mode n hstr hco, ?_, ?_⟩,
    ⟨_, call_stat_marshal_eq out_stat path ver n hstr hcs, ?_, ?_⟩,
    ⟨_, call_unlink_marshal_eq out_unlink path n hstr hcu, ?_, ?_⟩,
    ⟨_, call_dirtreenode_marshal_eq out_tree path n hstr hn hct, ?_, ?_⟩⟩
  · rw [Nat.mod_eq_of_lt hflags, Nat.mod_eq_of_lt hmode, Nat.mod_eq_of_lt hn,
      List.take_left' hlo]
  · rw [Nat.mod_eq_of_lt hflags, Nat.mod_eq_of_lt hmode, Nat.mod_eq_of_lt hn,
      List.take_left' hlo]
    have h := call_open_unmarshal_eq flags mode (path.take (n + 1)) [] hflags hmode h32
    rw [List.append_nil, hs3] at h
    exact h
  · rw [List.take_left' hls]
  · rw [List.take_left' hls]
    have h := call_stat_unmarshal_eq ver (path.take (n + 1)) [] hvlo hvhi h64
    rw [List.append_nil, hs3] at h
    exact h
  · rw [Nat.mod_eq_of_lt hn, List.take_left' hlu]
  · rw [Nat.mod_eq_of_lt hn, List.take_left' hlu]
    have h := call_unlink_unmarshal_eq (path.take (n + 1)) [] h32
    rw [List.append_nil, hs3] at h
    exact h
  · rw [List.take_left' hlu]
  · rw [List.take_left' hlu]
    have h := call_dirtreenode_unmarshal_eq (path.take (n + 1)) [] h32
    rw [List.append_nil, hs3] at h
    exact h

/-- Witness of C2: the path `"a"` (bytes 97, 0), `flags = O_CREAT|O_WRONLY|O_TRUNC` (577),
`mode = 0644` (420), `ver = 1` and buffers of 16 bytes. -/
theorem path_operations_roundtrip_witness :
    (∃ b, call_open_marshal (List.replicate 16 0) [97, 0] 577 420 = some (b, 12)
        ∧ call_open_unmarshal (b.take 12) = some (true, [97, 0], 577, 420))
      ∧ (∃ b, call_stat_marshal (List.replicate 16 0) 1 [97, 0] = some (b, 14)
        ∧ call_stat_unmarshal (b.take 14) = some (true, 1, [97, 0]))
      ∧ (∃ b, call_unlink_marshal (List.replicate 16 0) [97, 0] = some (b, 6)
        ∧ call_unlink_unmarshal (b.take 6) = some (true, [97, 0]))
      ∧ (∃ b, call_dirtreenode_marshal (List.replicate 16 0) [97, 0] = some (b, 6)
        ∧ call_dirtreenode_unmarshal (b.take 6) = some (true, [97, 0])) := by
  obtain ⟨_, ⟨b1, h1, _, k1⟩, ⟨b2, h2, _, k2⟩, ⟨b3, h3, _, k3⟩, ⟨b4, h4, _, k4⟩⟩ :=
    path_operations_roundtrip [97, 0] 1 577 420 1 (List.replicate 16 0) (List.replicate 16 0)
      (List.replicate 16 0) (List.replicate 16 0) (by decide) (by decide) (by decide) (by decide)
      (by decide) (by decide) (by decide) (by decide) (by decide) (by decide)
  exact ⟨⟨b1, h1, k1⟩, ⟨b2, h2, k2⟩, ⟨b3, h3, k3⟩, ⟨b4, h4, k4⟩⟩

/-- C3. Argument round trip for the descriptor-taking operations: for every `int` value `fd`,
every 64-bit `count` / `nbytes`, every 64-bit signed `offset` / `basep`, every `int` value
`whence`, every byte string `buf` of length `count` and output buffers with room for the layout,
each of `call_close_marshal`, `call_read_marshal`, `call_write_marshal`, `call_lseek_marshal`
and `call_getdirentries_marshal` returns the number of bytes of its layout (4, 12, `12 + count`,
16, 20) and the matching `unmarshal` function applied to the bytes written yields exactly the
marshalled values (for `write`: the same `fd`, the same `count` and the same `count` bytes). -/
theorem descriptor_operations_roundtrip (fd whence offset basep : Int) (count nbytes : Nat)
    (buf out_close out_read out_write out_lseek out_dir : List Byte)
    (hlo : INT_MIN ≤ fd) (hhi : fd ≤ INT_MAX)
    (hwlo : INT_MIN ≤ whence) (hwhi : whence ≤ INT_MAX)
    (holo : -2 ^ 63 ≤ offset) (hohi : offset < 2 ^ 63)
    (hblo : -2 ^ 63 ≤ basep) (hbhi : basep < 2 ^ 63)
    (hcount : count < 2 ^ 64) (hnbytes : nbytes < 2 ^ 64) (hbuf : buf.length = count)
    (hcc : 4 ≤ out_close.length) (hcr : 12 ≤ out_read.length)
    (hcw : 12 + count ≤ out_write.length) (hcl : 16 ≤ out_lseek.length)
    (hcd : 20 ≤ out_dir.length) :
    (∃ b, call_close_marshal out_close fd = some (b, 4)
        ∧ call_close_unmarshal (b.take 4) = some (true, fd))
      ∧ (∃ b, call_read_marshal out_read fd count = some (b, 12)
        ∧ call_read_unmarshal (b.take 12) = some (true, fd, count))
      ∧ (∃ b, call_write_marshal out_write fd buf count = some (b, 12 + count)
        ∧ call_write_unmarshal (b.take (12 + count)) = some (buf, fd, count))
      ∧ (∃ b, call_lseek_marshal out_lseek fd offset whence = some (b, 16)
        ∧ call_lseek_unmarshal (b.take 16) = some (true, fd, offset, whence))
      ∧ (∃ b, call_getdirentries_marshal out_dir fd nbytes basep = some (b, 20)
        ∧ call_getdirentries_unmarshal (b.take 20) = some (true, fd, nbytes, basep)) := by
  refine ⟨⟨_, call_close_marshal_eq out_close fd hcc, ?_⟩,
    ⟨_, call_read_marshal_eq out_read fd count hcr, ?_⟩,
    ⟨_, call_write_marshal_eq out_write buf fd count (by omega) hcw, ?_⟩,
    ⟨_, call_lseek_marshal_eq out_lseek fd offset whence hcl, ?_⟩,
    ⟨_, call_getdirentries_marshal_eq out_dir fd nbytes basep hcd, ?_⟩⟩
  · rw [List.take_left' (le_bytes_length _ _)]
    have h := call_close_unmarshal_eq fd [] hlo hhi
    rw [List.append_nil] at h
    exact h
  · rw [List.take_left' (by simp only [List.length_append, le_bytes_length])]
    have h := call_read_unmarshal_eq fd count [] hlo hhi hcount
    rw [List.append_nil] at h
    exact h
  · subst hbuf
    rw [List.take_length, List.take_left' (by simp only [List.length_append, le_bytes_length])]
    have h := call_write_unmarshal_eq fd buf [] hlo hhi hcount
    rw [List.append_nil] at h
    exact h
  · rw [List.take_left' (by simp only [List.length_append, le_bytes_length])]
    have h := call_lseek_unmarshal_eq fd offset whence [] hlo hhi holo hohi hwlo hwhi
    rw [List.append_nil] at h
    exact h
  · rw [List.take_left' (by simp only [List.length_append, le_bytes_length])]
    have h := call_getdirentries_unmarshal_eq fd nbytes basep [] hlo hhi hnbytes hblo hbhi
    rw [List.append_nil] at h
    exact h

/-- Witness of C3: the remote descriptor 1003, `count = 2` with the bytes 104, 105,
`offset = -1`, `whence = 2`, `basep = 0`, `nbytes = 512`, and buffers of 20 bytes. -/
theorem descriptor_operations_roundtrip_witness :
    (∃ b, call_close_marshal (List.replicate 20 0) 1003 = some (b, 4)
        ∧ call_close_unmarshal (b.take 4) = some (true, 1003))
      ∧ (∃ b, call_read_marshal (List.replicate 20 0) 1003 2 = some (b, 12)
        ∧ call_read_unmarshal (b.take 12) = some (true, 1003, 2))
      ∧ (∃ b, call_write_marshal (List.replicate 20 0) 1003 [104, 105] 2 = some (b, 12 + 2)
        ∧ call_write_unmarshal (b.take (12 + 2)) = some ([104, 105], 1003, 2))
      ∧ (∃ b, call_lseek_marshal (List.replicate 20 0) 1003 (-1) 2 = some (b, 16)
        ∧ call_lseek_unmarshal (b.take 16) = some (true, 1003, -1, 2))
      ∧ (∃ b, call_getdirentries_marshal (List.replicate 20 0) 1003 512 0 = some (b, 20)
        ∧ call_getdirentries_unmarshal (b.take 20) = some (true, 1003, 512, 0)) :=
  descriptor_operations_roundtrip 1003 2 (-1) 0 2 512 [104, 105] (List.replicate 20 0)
    (List.replicate 20 0) (List.replicate 20 0) (List.replicate 20 0) (List.replicate 20 0)
    (by decide) (by decide) (by decide) (by decide) (by decide) (by decide) (by decide)
    (by decide) (by decide) (by decide) (by decide) (by decide) (by decide) (by decide)
    (by decide) (by decide)

/-- C4. Request-envelope round trip: for every `rpc_frame` with `payload_size > 0` and a payload
of exactly `payload_size` bytes (and an output buffer with room for the frame), `marshal_frame`
writes the opcode (4 bytes), the payload size (4 bytes) and the payload in that order, leaves the
rest of the buffer alone and returns `8 + payload_size`; `read_frame` on the bytes written (and
on the whole buffer) returns `true` with the same opcode, payload size and payload bytes. -/
theorem marshal_frame_read_frame_roundtrip (frame frame0 : rpc_frame) (out : List Byte)
    (hop : frame.opcode < 2 ^ 32) (hps : frame.payload_size < 2 ^ 32)
    (hpos : 0 < frame.payload_size) (hlen : frame.payload.length = frame.payload_size)
    (hcap : 8 + frame.payload_size ≤ out.length) :
    ∃ bytes, marshal_frame out frame = some (bytes, 8 + frame.payload_size)
      ∧ bytes.take (8 + frame.payload_size)
          = le_bytes 4 frame.opcode ++ le_bytes 4 frame.payload_size ++ frame.payload
      ∧ bytes.drop (8 + frame.payload_size) = out.drop (8 + frame.payload_size)
      ∧ read_frame (bytes.take (8 + frame.payload_size)) frame0 = some (true, frame)
      ∧ read_frame bytes frame0 = some (true, frame) := by
  have hlay : (le_bytes 4 frame.opcode ++ le_bytes 4 frame.payload_size ++ frame.payload).length
      = 8 + frame.payload_size := by
    simp [le_bytes_length, hlen]
    omega
  refine ⟨_, marshal_frame_eq out frame (by omega) hcap, ?_, ?_, ?_, ?_⟩
  · rw [Nat.mod_eq_of_lt hop, Nat.mod_eq_of_lt hps, List.take_of_length_le (le_of_eq hlen),
      ← hlay, List.take_left]
  · rw [Nat.mod_eq_of_lt hop, Nat.mod_eq_of_lt hps, List.take_of_length_le (le_of_eq hlen),
      ← hlay, List.drop_left]
  · rw [Nat.mod_eq_of_lt hop, Nat.mod_eq_of_lt hps, List.take_of_length_le (le_of_eq hlen),
      ← hlay, List.take_left]
    have h := read_frame_eq frame.opcode frame.payload_size frame.payload [] frame0 hop hps hpos hlen
    rw [List.append_nil] at h
    exact h
  · rw [Nat.mod_eq_of_lt hop, Nat.mod_eq_of_lt hps, List.take_of_length_le (le_of_eq hlen)]
    exact read_frame_eq frame.opcode frame.payload_size frame.payload _ frame0 hop hps hpos hlen

/-- Witness of C4: the frame with opcode 4, a payload of 2 bytes, and a buffer of 12 bytes. -/
theorem marshal_frame_read_frame_roundtrip_witness :
    ∃ bytes, marshal_frame (List.replicate 12 0) ⟨4, 2, [7, 9]⟩ = some (bytes, 8 + 2)
      ∧ bytes.take (8 + 2) = le_bytes 4 4 ++ le_bytes 4 2 ++ [7, 9]
      ∧ bytes.drop (8 + 2) = (List.replicate 12 (0 : Byte)).drop (8 + 2)
      ∧ read_frame (bytes.take (8 + 2)) ⟨0, 0, []⟩ = some (true, ⟨4, 2, [7, 9]⟩)
      ∧ read_frame bytes ⟨0, 0, []⟩ = some (true, ⟨4, 2, [7, 9]⟩) :=
  marshal_frame_read_frame_roundtrip ⟨4, 2, [7, 9]⟩ ⟨0, 0, []⟩ (List.replicate 12 0)
    (by decide) (by decide) (by decide) (by decide) (by decide)

/-- C5. Response-envelope round trip: for every `rpc_resp` (any `int` value of `err_no`, any
size, zero included, data of exactly `size` bytes, and an output buffer with room for the
response), `marshal_resp` writes `err_no`, `size` and the data in that order, leaves the rest of
the buffer alone and returns `8 + size`; `read_resp` on the bytes written (and on the whole
buffer) yields the same `err_no`, `size` and data bytes. -/
theorem marshal_resp_read_resp_roundtrip (resp : rpc_resp) (out : List Byte)
    (hlo : INT_MIN ≤ resp.err_no) (hhi : resp.err_no ≤ INT_MAX) (hsz : resp.size < 2 ^ 32)
    (hlen : resp.data.length = resp.size) (hcap : 8 + resp.size ≤ out.length) :
    ∃ bytes, marshal_resp out resp = some (bytes, 8 + resp.size)
      ∧ bytes.take (8 + resp.size)
          = le_bytes 4 (to_u32 resp.err_no) ++ le_bytes 4 resp.size ++ resp.data
      ∧ bytes.drop (8 + resp.size) = out.drop (8 + resp.size)
      ∧ read_resp (bytes.take (8 + resp.size)) = some resp
      ∧ read_resp bytes = some resp := by
  have hlay : (le_bytes 4 (to_u32 resp.err_no) ++ le_bytes 4 resp.size ++ resp.data).length
      = 8 + resp.size := by
    simp [le_bytes_length, hlen]
    omega
  refine ⟨_, marshal_resp_eq out resp (by omega) hcap, ?_, ?_, ?_, ?_⟩
  · rw [Nat.mod_eq_of_lt hsz, List.take_of_length_le (le_of_eq hlen), ← hlay, List.take_left]
  · rw [Nat.mod_eq_of_lt hsz, List.take_of_length_le (le_of_eq hlen), ← hlay, List.drop_left]
  · rw [Nat.mod_eq_of_lt hsz, List.take_of_length_le (le_of_eq hlen), ← hlay, List.take_left]
    have h := read_resp_eq resp.err_no resp.size resp.data [] hlo hhi hsz hlen
    rw [List.append_nil] at h
    exact h
  · rw [Nat.mod_eq_of_lt hsz, List.take_of_length_le (le_of_eq hlen)]
    exact read_resp_eq resp.err_no resp.size resp.data _ hlo hhi hsz hlen

/-- Witness of C5: a response with `err_no = -2` and no data, in a buffer of 8 bytes. -/
theorem marshal_resp_read_resp_roundtrip_witness :
    ∃ bytes, marshal_resp (List.replicate 8 0) ⟨-2, 0, []⟩ = some (bytes, 8 + 0)
      ∧ bytes.take (8 + 0) = le_bytes 4 (to_u32 (-2)) ++ le_bytes 4 0 ++ []
      ∧ bytes.drop (8 + 0) = (List.replicate 8 (0 : Byte)).drop (8 + 0)
      ∧ read_resp (bytes.take (8 + 0)) = some ⟨-2, 0, []⟩
      ∧ read_resp bytes = some ⟨-2, 0, []⟩ :=
  marshal_resp_read_resp_roundtrip ⟨-2, 0, []⟩ (List.replicate 8 0)
    (by decide) (by decide) (by decide) (by decide) (by decide)

/-- C6. The function `read_frame` fails exactly on a zero payload size: on every input that
holds the 8-byte header and as many payload bytes as the header declares, it returns a result
whose `opcode` and `payload_size` are the two decoded header fields; the result is `false` if and
only if the decoded `payload_size` is zero (non-positive for the unsigned field), in which case
the payload of the frame is left as it was (nothing is allocated); for every other payload size
the result is `true` and the payload holds the declared bytes. -/
theorem read_frame_false_iff_payload_size_zero (inp : List Byte) (frame : rpc_frame)
    (hin : 8 + le_value ((inp.drop 4).take 4) ≤ inp.length) :
    ∃ ok f, read_frame inp frame = some (ok, f)
      ∧ f.opcode = le_value (inp.take 4)
      ∧ f.payload_size = le_value ((inp.drop 4).take 4)
      ∧ (ok = false ↔ f.payload_size = 0)
      ∧ (ok = false → f.payload = frame.payload)
      ∧ (ok = true → f.payload = (inp.drop 8).take f.payload_size) := by
  unfold read_frame mem_read_int32
  rw [mem_read_data_eq (by omega : 0 + 4 ≤ inp.length)]
  simp only [Option.map_some', Option.bind_eq_bind, Option.some_bind, List.drop_zero]
  rw [mem_read_data_eq (by omega : 0 + 4 + 4 ≤ inp.length)]
  simp only [Option.map_some', Option.bind_eq_bind, Option.some_bind]
  by_cases h0 : le_value (List.take 4 (List.drop (0 + 4) inp)) ≤ 0
  · rw [if_pos h0]
    refine ⟨false, _, rfl, rfl, rfl, ?_, ?_, ?_⟩
    · simp only [Nat.zero_add] at h0 ⊢
      simp
      omega
    · intro _
      rfl
    · intro h
      cases h
  · rw [if_neg h0]
    rw [mem_read_data_eq (by simpa using hin)]
    simp only [Option.map_some', Option.bind_eq_bind, Option.some_bind]
    refine ⟨true, _, rfl, rfl, rfl, ?_, ?_, ?_⟩
    · simp only [Nat.zero_add] at h0 ⊢
      simp
      omega
    · intro h
      cases h
    · intro _
      simp

/-- Witness of C6: a header that declares an empty payload. -/
theorem read_frame_false_iff_payload_size_zero_witness :
    ∃ ok f, read_frame [3, 0, 0, 0, 0, 0, 0, 0] ⟨0, 0, [1]⟩ = some (ok, f)
      ∧ f.opcode = le_value (List.take 4 [3, 0, 0, 0, 0, 0, 0, 0])
      ∧ f.payload_size = le_value ((List.drop 4 [3, 0, 0, 0, 0, 0, 0, 0]).take 4)
      ∧ (ok = false ↔ f.payload_size = 0)
      ∧ (ok = false → f.payload = [1])
      ∧ (ok = true → f.payload = (List.drop 8 [3, 0, 0, 0, 0, 0, 0, 0]).take f.payload_size) :=
  read_frame_false_iff_payload_size_zero [3, 0, 0, 0, 0, 0, 0, 0] ⟨0, 0, [1]⟩ (by decide)

/-- C7, counterexample.  The eight bytes of a response with `err_no = 2` and size field 0 are
decoded by `read_resp` into a response value, while `read_frame` answers `false` on the same
bytes: the response decoder does not reject a zero size. -/
theorem read_resp_zero_size_counterexample :
    read_resp [2, 0, 0, 0, 0, 0, 0, 0] = some { err_no := 2, size := 0, data := [] }
      ∧ (read_frame [2, 0, 0, 0, 0, 0, 0, 0] ⟨0, 0, []⟩).map Prod.fst = some false := by
  decide

/-- C7, amended.  The response decoder has no failure path: on every input that holds the 8-byte
header and as many data bytes as the header declares, `read_resp` produces a response value with
the decoded `err_no`, the decoded `size` and the declared data bytes; when the size field is zero
the response it produces has size 0 and empty data. -/
theorem read_resp_never_rejects (inp : List Byte)
    (hin : 8 + le_value ((inp.drop 4).take 4) ≤ inp.length) :
    ∃ resp, read_resp inp = some resp
      ∧ resp.err_no = to_i32 (le_value (inp.take 4))
      ∧ resp.size = le_value ((inp.drop 4).take 4)
      ∧ resp.data = (inp.drop 8).take resp.size
      ∧ (le_value ((inp.drop 4).take 4) = 0 → resp.size = 0 ∧ resp.data = []) := by
  unfold read_resp mem_read_int32
  rw [mem_read_data_eq (by omega : 0 + 4 ≤ inp.length)]
  simp only [Option.map_some', Option.bind_eq_bind, Option.some_bind, List.drop_zero]
  rw [mem_read_data_eq (by omega : 0 + 4 + 4 ≤ inp.length)]
  simp only [Option.map_some', Option.bind_eq_bind, Option.some_bind]
  rw [mem_read_data_eq (by simpa using hin)]
  simp only [Option.map_some', Option.bind_eq_bind, Option.some_bind]
  refine ⟨_, rfl, rfl, rfl, rfl, ?_⟩
  intro h0
  simp only [Nat.zero_add]
  rw [h0]
  exact ⟨rfl, rfl⟩

/-- Witness of C7 (amended): a response header with `err_no = 2` and size field 0. -/
theorem read_resp_never_rejects_witness :
    ∃ resp, read_resp [2, 0, 0, 0, 0, 0, 0, 0] = some resp
      ∧ resp.err_no = to_i32 (le_value (List.take 4 [2, 0, 0, 0, 0, 0, 0, 0]))
      ∧ resp.size = le_value ((List.drop 4 [2, 0, 0, 0, 0, 0, 0, 0]).take 4)
      ∧ resp.data = (List.drop 8 [2, 0, 0, 0, 0, 0, 0, 0]).take resp.size
      ∧ (le_value ((List.drop 4 [2, 0, 0, 0, 0, 0, 0, 0]).take 4) = 0
          → resp.size = 0 ∧ resp.data = []) :=
  read_resp_never_rejects [2, 0, 0, 0, 0, 0, 0, 0] (by decide)

/-- C8. The function `pack_fd`: for every result `fd` of the server-side open with
`0 ≤ fd ≤ INT_MAX - 1000`, `pack_fd fd = fd + FD_OFFSET`, which is at least 1000; every negative
(failed) result is returned unchanged; so `pack_fd fd < 0` exactly when `fd < 0`.  The response
that `do_open` builds after the call of `open` carries `pack_fd fd` in its four data bytes. -/
theorem pack_fd_spec (fd errno : Int) (hlo : INT_MIN ≤ fd) (hhi : fd ≤ INT_MAX - 1000) :
    (0 ≤ fd → pack_fd fd = fd + FD_OFFSET ∧ 1000 ≤ pack_fd fd)
      ∧ (fd < 0 → pack_fd fd = fd)
      ∧ (pack_fd fd < 0 ↔ fd < 0)
      ∧ (∃ data, do_open_response fd errno = some ⟨errno, 4, data⟩
          ∧ to_i32 (le_value data) = pack_fd fd) := by
  unfold INT_MIN at hlo
  unfold INT_MAX at hhi
  refine ⟨?_, ?_, ?_, ⟨_, do_open_response_eq fd errno, ?_⟩⟩
  · intro h
    unfold pack_fd wrap_int FD_OFFSET
    rw [if_neg (by omega)]
    omega
  · intro h
    unfold pack_fd
    rw [if_pos h]
  · unfold pack_fd wrap_int FD_OFFSET
    by_cases h : fd < 0
    · rw [if_pos h]
    · rw [if_neg h]
      omega
  · rw [le_value_le_bytes_4 (to_u32_lt _)]
    apply to_i32_to_u32
    · unfold pack_fd wrap_int FD_OFFSET INT_MIN
      split <;> omega
    · unfold pack_fd wrap_int FD_OFFSET INT_MAX
      split <;> omega

/-- Witness of C8: the server-side descriptor 3 becomes 1003. -/
theorem pack_fd_spec_witness :
    pack_fd 3 = 3 + FD_OFFSET ∧ 1000 ≤ pack_fd 3
      ∧ (∃ data, do_open_response 3 0 = some ⟨0, 4, data⟩ ∧ to_i32 (le_value data) = pack_fd 3) :=
  ⟨((pack_fd_spec 3 0 (by decide) (by decide)).1 (by decide)).1,
    ((pack_fd_spec 3 0 (by decide) (by decide)).1 (by decide)).2,
    (pack_fd_spec 3 0 (by decide) (by decide)).2.2.2⟩

/-- C9, counterexample.  The incoming descriptor `-1` is not reduced by `FD_OFFSET`:
`unpack_fd (-1)` is `-1`, not `-1 - 1000`. -/
theorem unpack_fd_negative_counterexample :
    unpack_fd (-1) = -1 ∧ unpack_fd (-1) ≠ -1 - FD_OFFSET := by
  decide

/-- C9, amended.  Every descriptor-taking server handler (`do_close`, `do_write`, `do_read`,
`do_lseek`, `do_getdirentries`) first translates the incoming descriptor with `unpack_fd` and
performs the file-system call on the translated descriptor; for every incoming `int` descriptor
`fd ≥ 0`, `unpack_fd fd = fd - FD_OFFSET` (1000), and a negative incoming descriptor is passed on
unchanged. -/
theorem handlers_unpack_fd (os : server_os) (fd offset whence basep : Int) (count nbytes : Nat)
    (buf : List Byte) (op : Nat)
    (hlo : INT_MIN ≤ fd) (hhi : fd ≤ INT_MAX)
    (hwlo : INT_MIN ≤ whence) (hwhi : whence ≤ INT_MAX)
    (holo : -2 ^ 63 ≤ offset) (hohi : offset < 2 ^ 63)
    (hblo : -2 ^ 63 ≤ basep) (hbhi : basep < 2 ^ 63)
    (hcount : count < 2 ^ 64) (hnbytes : nbytes < 2 ^ 64) (hbuf : buf.length = count) :
    (0 ≤ fd → unpack_fd fd = fd - FD_OFFSET)
      ∧ (fd < 0 → unpack_fd fd = fd)
      ∧ do_close os ⟨op, 4, le_bytes 4 (to_u32 fd)⟩
          = do_close_response (os.sys_close (unpack_fd fd)).1 (os.sys_close (unpack_fd fd)).2
      ∧ do_write os ⟨op, 12 + count, le_bytes 4 (to_u32 fd) ++ le_bytes 8 count ++ buf⟩
          = do_write_response (os.sys_write (unpack_fd fd) buf count).1
              (os.sys_write (unpack_fd fd) buf count).2
      ∧ do_read os ⟨op, 12, le_bytes 4 (to_u32 fd) ++ le_bytes 8 count⟩
          = do_read_response (os.sys_read (unpack_fd fd) (malloc count) count).1
              (os.sys_read (unpack_fd fd) (malloc count) count).2.1
              (os.sys_read (unpack_fd fd) (malloc count) count).2.2
      ∧ do_lseek os ⟨op, 16, le_bytes 4 (to_u32 fd) ++ le_bytes 8 (to_u64 offset)
            ++ le_bytes 4 (to_u32 whence)⟩
          = do_lseek_response (os.sys_lseek (unpack_fd fd) offset whence).1
              (os.sys_lseek (unpack_fd fd) offset whence).2
      ∧ do_getdirentries os ⟨op, 20, le_bytes 4 (to_u32 fd) ++ le_bytes 8 (to_u64 basep)
            ++ le_bytes 8 nbytes⟩
          = do_getdirentries_response
              (os.sys_getdirentries (unpack_fd fd) (malloc nbytes) nbytes basep).1
              (os.sys_getdirentries (unpack_fd fd) (malloc nbytes) nbytes basep).2.1
              (os.sys_getdirentries (unpack_fd fd) (malloc nbytes) nbytes basep).2.2.1
              (os.sys_getdirentries (unpack_fd fd) (malloc nbytes) nbytes basep).2.2.2 := by
  refine ⟨?_, ?_, ?_, ?_, ?_, ?_, ?_⟩
  · intro h
    unfold unpack_fd wrap_int FD_OFFSET
    unfold INT_MAX at hhi
    rw [if_neg (by omega)]
    omega
  · intro h
    unfold unpack_fd
    rw [if_pos h]
  · have h := call_close_unmarshal_eq fd [] hlo hhi
    rw [List.append_nil] at h
    unfold do_close
    simp only [h, Option.bind_eq_bind, Option.some_bind]
  · have h := call_write_unmarshal_eq fd buf [] hlo hhi (by omega)
    rw [List.append_nil, hbuf] at h
    unfold do_write
    simp only [h, Option.bind_eq_bind, Option.some_bind]
  · have h := call_read_unmarshal_eq fd count [] hlo hhi hcount
    rw [List.append_nil] at h
    unfold do_read
    simp only [h, Option.bind_eq_bind, Option.some_bind]
  · have h := call_lseek_unmarshal_eq fd offset whence [] hlo hhi holo hohi hwlo hwhi
    rw [List.append_nil] at h
    unfold do_lseek
    simp only [h, Option.bind_eq_bind, Option.some_bind]
  · have h := call_getdirentries_unmarshal_eq fd nbytes basep [] hlo hhi hnbytes hblo hbhi
    rw [List.append_nil] at h
    unfold do_getdirentries
    simp only [h, Option.bind_eq_bind, Option.some_bind]

/-- Witness of C9 (amended): the remote descriptor 1003 and a file system that answers with the
descriptor it is called on; the responses of `do_close` and `do_lseek` carry the descriptor 3. -/
theorem handlers_unpack_fd_witness :
    unpack_fd 1003 = 1003 - FD_OFFSET
      ∧ do_close os_echo ⟨3, 4, le_bytes 4 (to_u32 1003)⟩ = some ⟨0, 4, le_bytes 4 3⟩
      ∧ do_lseek os_echo ⟨5, 16, le_bytes 4 (to_u32 1003) ++ le_bytes 8 (to_u64 0)
            ++ le_bytes 4 (to_u32 0)⟩ = some ⟨0, 8, le_bytes 8 3⟩ :=
  ⟨(handlers_unpack_fd os_echo 1003 0 0 0 0 0 [] 3 (by decide) (by decide) (by decide)
      (by decide) (by decide) (by decide) (by decide) (by decide) (by decide) (by decide)
      (by decide)).1 (by decide),
    (handlers_unpack_fd os_echo 1003 0 0 0 0 0 [] 3 (by decide) (by decide) (by decide)
      (by decide) (by decide) (by decide) (by decide) (by decide) (by decide) (by decide)
      (by decide)).2.2.1.trans (by decide),
    (handlers_unpack_fd os_echo 1003 0 0 0 0 0 [] 5 (by decide) (by decide) (by decide)
      (by decide) (by decide) (by decide) (by decide) (by decide) (by decide) (by decide)
      (by decide)).2.2.2.2.2.1.trans (by decide)⟩

/-- C10. Descriptor translation round trip: for every `int` value `fd` with
`fd ≤ INT_MAX - 1000`, negative values included, `unpack_fd (pack_fd fd) = fd`. -/
theorem unpack_fd_pack_fd (fd : Int) (hhi : fd ≤ INT_MAX - 1000) :
    unpack_fd (pack_fd fd) = fd := by
  unfold unpack_fd pack_fd wrap_int FD_OFFSET
  unfold INT_MAX at hhi
  by_cases h : fd < 0
  · rw [if_pos h, if_pos h]
  · rw [if_neg h, if_neg (by omega)]
    omega

/-- Witness of C10: the largest descriptor that can be translated. -/
theorem unpack_fd_pack_fd_witness : unpack_fd (pack_fd (INT_MAX - 1000)) = INT_MAX - 1000 :=
  unpack_fd_pack_fd (INT_MAX - 1000) (by decide)

/-- C12. No local descriptor is forwarded by `read`, `write` or `close`: in every session state
reached from the state `_init` leaves by stub calls that returned, if every value returned by
`open` so far is negative or at least `FD_OFFSET`, then `min_fd >= FD_OFFSET` (1000), and
`read`, `write` and `close` on any descriptor below `FD_OFFSET` are the call of the original
local implementation: its result is returned verbatim, the session state is unchanged, and the
only thing that happens is that call (no request is sent). -/
theorem local_descriptors_never_forwarded (fds : List Int) (s : client_state)
    (hreach : reachable fds s) (hfds : ∀ fd ∈ fds, fd < 0 ∨ FD_OFFSET ≤ fd) :
    FD_OFFSET ≤ s.min_fd
    ∧ ∀ (fuel : Nat) (w : world) (fd : Int) (buf : List Byte) (count : Nat), fd < FD_OFFSET →
        read fuel w s fd buf count
          = .ok ((w.orig_read fd buf count).1, (w.orig_read fd buf count).2, s,
              { w with log := w.log ++ [io_event.orig_read fd count] })
        ∧ write fuel w s fd buf count
          = .ok (w.orig_write fd buf count, s,
              { w with log := w.log ++ [io_event.orig_write fd buf count] })
        ∧ close fuel w s fd
          = .ok (w.orig_close fd, s, { w with log := w.log ++ [io_event.orig_close fd] }) := by
  have hmin : FD_OFFSET ≤ s.min_fd := by
    rw [reachable_min_fd fds s hreach]
    exact watermark_ge fds FD_OFFSET (by decide) hfds
  refine ⟨hmin, ?_⟩
  intro fuel w fd buf count hfd
  have hlt : fd < s.min_fd := by omega
  exact ⟨read_local _ _ _ _ _ _ hlt, write_local _ _ _ _ _ _ hlt, close_local _ _ _ _ hlt⟩

/-- C12, instance (S3): after one `open` answered with descriptor 1003, `read(0, buf, 10)`,
`write(1, buf, 10)` and `close(2)` are served locally. -/
theorem local_descriptors_never_forwarded_witness :
    reachable [1003] one_open_state ∧ FD_OFFSET ≤ one_open_state.min_fd
    ∧ read 0 (world_with 1 1 []) one_open_state 0 (malloc 10) 10
      = .ok (0, malloc 10, one_open_state,
          { world_with 1 1 [] with log := [io_event.orig_read 0 10] })
    ∧ write 0 (world_with 1 1 []) one_open_state 0 (malloc 10) 10
      = .ok (10, one_open_state,
          { world_with 1 1 [] with log := [io_event.orig_write 0 (malloc 10) 10] })
    ∧ close 0 (world_with 1 1 []) one_open_state 0
      = .ok (0, one_open_state, { world_with 1 1 [] with log := [io_event.orig_close 0] }) :=
  ⟨reachable_one_open_state,
    (local_descriptors_never_forwarded [1003] one_open_state reachable_one_open_state
      (by decide)).1,
    (local_descriptors_never_forwarded [1003] one_open_state reachable_one_open_state
      (by decide)).2 0 (world_with 1 1 []) 0 (malloc 10) 10 (by decide)⟩

/-- C13 (counterexample to the claim as stated). After one `open` answered with descriptor 1003
the watermark is 1003, so descriptor 0 is a local descriptor (`0 < min_fd`); yet `lseek(0, 0,
SEEK_SET)` hands the request with opcode `OP_LSEEK` and descriptor 0 to `send_all` on the
connection, makes no local call, and returns what the server answers. -/
theorem lseek_forwards_local_descriptor_counterexample :
    reachable [1003] one_open_state ∧ 0 < one_open_state.min_fd
    ∧ ∃ w1, sent_request one_open_state
          (world_with 1 1 (response_stream ⟨0, 8, le_bytes 8 (to_u64 0)⟩)) w1 3
          (le_bytes 4 OP_LSEEK ++ le_bytes 4 16
            ++ (le_bytes 4 (to_u32 0) ++ le_bytes 8 (to_u64 0) ++ le_bytes 4 (to_u32 0)))
        ∧ lseek 9000 (world_with 1 1 (response_stream ⟨0, 8, le_bytes 8 (to_u64 0)⟩))
            one_open_state 0 0 0 = .ok (0, one_open_state, w1) :=
  ⟨reachable_one_open_state, by decide,
    lseek_remote_ok 9000 (world_with 1 1 (response_stream ⟨0, 8, le_bytes 8 (to_u64 0)⟩))
      one_open_state 0 0 0 ⟨0, 8, le_bytes 8 (to_u64 0)⟩ 0 [] (by decide)
      (answers_world_with 1 1 _ _ (by decide) (by decide) (by decide) (by decide) rfl
        (by decide))
      (List.append_nil _).symm (by decide) (by decide) (by decide)⟩

/-- C13 (amended). The stubs `lseek` and `getdirentries` have no local path and do not look at
`min_fd`.  In every client state and for every descriptor (also one below `min_fd`): when
`opened_fd = 0` they return -1 with `errno = EBADF` and nothing happens; otherwise a call that
returns has handed the request carrying the opcode and the descriptor to `send_all` on the
connection of the session and has made no local call, and in surroundings that cooperate and
answer with a response the call does return, with the value the response carries (and `errno`
set to the `err_no` of the response when that value is negative). -/
theorem lseek_getdirentries_never_local (fuel : Nat) (w : world) (s : client_state)
    (fd offset whence : Int) (buf : List Byte) (nbytes : Nat) (basep : Int) :
    (s.opened_fd = 0 →
        lseek fuel w s fd offset whence = .ok (-1, { s with errno := EBADF }, w)
        ∧ getdirentries fuel w s fd buf nbytes basep
          = .ok (-1, buf, basep, { s with errno := EBADF }, w))
    ∧ (s.opened_fd ≠ 0 →
        (∀ r s1 w1, lseek fuel w s fd offset whence = .ok (r, s1, w1) →
          sent_request s w w1 (session_socket w s)
            (le_bytes 4 OP_LSEEK ++ le_bytes 4 16
              ++ (le_bytes 4 (to_u32 fd) ++ le_bytes 8 (to_u64 offset)
                ++ le_bytes 4 (to_u32 whence))))
        ∧ (∀ r b bp s1 w1, getdirentries fuel w s fd buf nbytes basep = .ok (r, b, bp, s1, w1) →
          sent_request s w w1 (session_socket w s)
            (le_bytes 4 OP_GETDIR ++ le_bytes 4 20
              ++ (le_bytes 4 (to_u32 fd) ++ le_bytes 8 (to_u64 basep) ++ le_bytes 8 nbytes)))
        ∧ (∀ resp r rest, answers w s resp → resp.data = le_bytes 8 (to_u64 r) ++ rest →
          -2 ^ 63 ≤ r → r < 2 ^ 63 → resp.size + 8300 ≤ fuel →
          ∃ w1, lseek fuel w s fd offset whence
            = .ok (r, { s with _sockfd := session_socket w s,
                               errno := if r < 0 then resp.err_no else s.errno }, w1))
        ∧ (∀ resp r bp bytes, answers w s resp →
          resp.data = le_bytes 8 (to_u64 r) ++ le_bytes 8 (to_u64 bp) ++ bytes →
          -2 ^ 63 ≤ r → r < 2 ^ 63 → -2 ^ 63 ≤ bp → bp < 2 ^ 63 →
          (0 < r → r.toNat ≤ bytes.length ∧ r.toNat ≤ buf.length) → resp.size + 8300 ≤ fuel →
          ∃ b w1, getdirentries fuel w s fd buf nbytes basep
            = .ok (r, b, bp, { s with _sockfd := session_socket w s,
                                      errno := if r < 0 then resp.err_no else s.errno },
                w1))) := by
  refine ⟨fun h0 => ⟨lseek_preflight _ _ _ _ _ _ h0, getdirentries_preflight _ _ _ _ _ _ _ h0⟩,
    fun hop => ⟨?_, ?_, ?_, ?_⟩⟩
  · intro r s1 w1 h
    exact (lseek_returns _ _ _ _ _ _ _ _ _ hop h).2.2.2
  · intro r b bp s1 w1 h
    exact (getdirentries_returns _ _ _ _ _ _ _ _ _ _ _ _ hop h).2.2.2
  · intro resp r rest hans hdata hlo hhi hfuel
    obtain ⟨w1, _, h⟩ := lseek_remote_ok fuel w s fd offset whence resp r rest hop hans hdata hlo
      hhi hfuel
    exact ⟨w1, h⟩
  · intro resp r bp bytes hans hdata hlo hhi hblo hbhi hfit hfuel
    obtain ⟨w1, _, h⟩ := getdirentries_remote_ok fuel w s fd buf nbytes basep resp r bp bytes hop
      hans hdata hlo hhi hblo hbhi hfit hfuel
    exact ⟨_, w1, h⟩

/-- C13 (amended), instance: with one remote descriptor open, `lseek(0, 5, SEEK_SET)` answered
by the server with -1 and `err_no = 9` returns -1 and sets `errno` to 9; with none open it
returns -1 with `errno = EBADF` and the surroundings are untouched. -/
theorem lseek_getdirentries_never_local_witness :
    (∃ w1, lseek 9000 (world_with 1 1 (response_stream ⟨9, 8, le_bytes 8 (to_u64 (-1))⟩))
        one_open_state 0 5 0
      = .ok (-1, { one_open_state with errno := 9 }, w1))
    ∧ lseek 0 (world_with 1 1 []) initial_state 0 5 0
      = .ok (-1, { initial_state with errno := EBADF }, world_with 1 1 []) :=
  ⟨(lseek_getdirentries_never_local 9000
      (world_with 1 1 (response_stream ⟨9, 8, le_bytes 8 (to_u64 (-1))⟩)) one_open_state 0 5 0
      [] 0 0).2 (by decide) |>.2.2.1 ⟨9, 8, le_bytes 8 (to_u64 (-1))⟩ (-1) []
      (answers_world_with 1 1 _ _ (by decide) (by decide) (by decide) (by decide) rfl
        (by decide))
      (List.append_nil _).symm (by decide) (by decide) (by decide),
    (lseek_getdirentries_never_local 0 (world_with 1 1 []) initial_state 0 5 0 [] 0 0).1 rfl
      |>.1⟩

/-- C15. Connection lifecycle.  In surroundings that cooperate and answer with a response:
a `close` routed to the server (`fd >= min_fd`) whose response carries the result `r` returns
`r` after handing the request to `send_all`; if `r = 0` it decrements `opened_fd` by one, and
if the counter thereby becomes 0 the last thing it does is the local `close` of the cached
connection, which it marks closed (`_sockfd = -1`), while otherwise the connection stays
cached; if `r != 0`, `opened_fd` and the connection are unchanged and no local call is made;
`min_fd` is never changed.  And when the connection is marked closed (`_sockfd < 0`),
`send_request`, through which every remote call goes, first establishes a new connection
(`get_socket_fd` calls `init_client`), caches it, and only then hands the message to
`send_all` on it. -/
theorem connection_lifecycle (fuel : Nat) (w : world) (s : client_state) (resp : rpc_resp)
    (hans : answers w s resp) :
    (∀ fd r rest, s.min_fd ≤ fd → resp.data = le_bytes 4 (to_u32 r) ++ rest → INT_MIN ≤ r →
      r ≤ INT_MAX → s.opened_fd ≠ INT_MIN → resp.size + 8300 ≤ fuel →
      ∃ s1 w1 v, close fuel w s fd = .ok (r, s1, w1)
        ∧ sent_request s w v (session_socket w s)
            (le_bytes 4 OP_CLOSE ++ le_bytes 4 4 ++ le_bytes 4 (to_u32 fd))
        ∧ s1.min_fd = s.min_fd
        ∧ (r = 0 → s1.opened_fd = s.opened_fd - 1)
        ∧ (r = 0 → s.opened_fd - 1 = 0 →
            s1._sockfd = -1
            ∧ w1 = { v with log := v.log ++ [io_event.orig_close (session_socket w s)] })
        ∧ (r = 0 → s.opened_fd - 1 ≠ 0 → s1._sockfd = session_socket w s ∧ w1 = v)
        ∧ (r ≠ 0 → s1.opened_fd = s.opened_fd ∧ s1._sockfd = session_socket w s ∧ w1 = v))
    ∧ (∀ msg sz, s._sockfd < 0 → sz ≤ msg.length → 0 < sz → sz + resp.size + 4110 ≤ fuel →
      ∃ w1 evs, send_request fuel w s msg sz
          = .ok (resp, { s with _sockfd := w.socket_result }, w1)
        ∧ 0 ≤ w.socket_result
        ∧ w1.log = w.log ++ io_event.connect w.socket_result
            :: io_event.send_all w.socket_result (msg.take sz) :: evs
        ∧ ∀ e ∈ evs, is_transport_event e = true) := by
  constructor
  · intro fd r rest hfd hdata hlo hhi hov hfuel
    have hn : ¬ fd < s.min_fd := by omega
    obtain ⟨w1, hlog, h⟩ := close_remote_ok fuel w s fd resp r rest hn hans hdata hlo hhi hov
      hfuel
    refine ⟨_, _, w1, h, hlog, ?_, ?_, ?_, ?_, ?_⟩
    · split
      · split <;> rfl
      · rfl
    · intro hr
      rw [if_pos hr]
      split <;> rfl
    · intro hr h0
      rw [if_pos hr, if_pos h0, if_pos ⟨hr, h0⟩]
      exact ⟨rfl, rfl⟩
    · intro hr h0
      have hw : ¬ (r = 0 ∧ s.opened_fd - 1 = 0) := fun hc => h0 hc.2
      rw [if_pos hr, if_neg h0, if_neg hw]
      exact ⟨rfl, rfl⟩
    · intro hr
      have hw : ¬ (r = 0 ∧ s.opened_fd - 1 = 0) := fun hc => hr hc.1
      rw [if_neg hr, if_neg hw]
      exact ⟨rfl, rfl, rfl⟩
  · intro msg sz hs hsz hpos hfuel
    obtain ⟨w1, h⟩ := send_request_ok fuel w s msg sz resp hans hsz hpos hfuel
    obtain ⟨_, evs, hlog, hev⟩ := send_request_log _ _ _ _ _ _ _ _ h
    have hsock : session_socket w s = w.socket_result := by
      unfold session_socket
      rw [if_pos hs]
    rw [hsock] at h hlog
    rw [if_pos hs] at hlog
    have hconn : 0 ≤ w.socket_result := by
      have hc := hans
      unfold answers at hc
      exact (hc.2.2.1 hs).1
    refine ⟨w1, evs, h, hconn, ?_, hev⟩
    rw [hlog]
    simp only [List.append_assoc, List.singleton_append]

/-- C15, instance: with one remote descriptor open, `close(1003)` answered with 0 returns 0,
brings `opened_fd` to 0, marks the connection closed and ends with the local `close` of socket
3; a later request then connects anew before it is handed to `send_all`. -/
theorem connection_lifecycle_witness :
    (∃ (s1 : client_state) (w1 v : world),
      close 9000 (world_with 1 1 (response_stream ⟨0, 4, le_bytes 4 (to_u32 0)⟩))
        one_open_state 1003 = .ok (0, s1, w1)
      ∧ s1.opened_fd = 0 ∧ s1._sockfd = -1
      ∧ w1 = { v with log := v.log ++ [io_event.orig_close 3] })
    ∧ (∃ w1 evs, send_request 9000 (world_with 1 1 (response_stream ⟨0, 4, le_bytes 4 (to_u32 0)⟩))
          { one_open_state with _sockfd := -1, opened_fd := 0 } [1, 2, 3] 3
        = .ok (⟨0, 4, le_bytes 4 (to_u32 0)⟩,
            { one_open_state with _sockfd := 3, opened_fd := 0 }, w1)
      ∧ w1.log = io_event.connect 3 :: io_event.send_all 3 [1, 2, 3] :: evs) := by
  constructor
  · obtain ⟨s1, w1, v, h, _, _, h1, h2, _⟩ := (connection_lifecycle 9000
      (world_with 1 1 (response_stream ⟨0, 4, le_bytes 4 (to_u32 0)⟩)) one_open_state
      ⟨0, 4, le_bytes 4 (to_u32 0)⟩
      (answers_world_with 1 1 _ _ (by decide) (by decide) (by decide) (by decide) rfl
        (by decide))).1 1003 0 [] (by decide) (List.append_nil _).symm (by decide) (by decide)
      (by decide) (by decide)
    exact ⟨s1, w1, v, h, h1 rfl, (h2 rfl (by decide)).1, (h2 rfl (by decide)).2⟩
  · obtain ⟨w1, evs, h, _, hlog, _⟩ := (connection_lifecycle 9000
      (world_with 1 1 (response_stream ⟨0, 4, le_bytes 4 (to_u32 0)⟩))
      { one_open_state with _sockfd := -1, opened_fd := 0 }
      ⟨0, 4, le_bytes 4 (to_u32 0)⟩
      (answers_world_with 1 1 _ _ (by decide) (by decide) (by decide) (by decide) rfl
        (by decide))).2 [1, 2, 3] 3 (by decide) (by decide) (by decide) (by decide)
    exact ⟨w1, evs, h, hlog⟩

/-- C16. Local preflight failure: for every `fd`, `offset`, `whence`, buffer, `nbytes` and
`basep`, in every surroundings and with any bound on the iterations, when the remote-open
counter `opened_fd` is 0 the stubs `lseek` and `getdirentries` return -1 and set `errno` to
`EBADF`; the surroundings are exactly as before (nothing is sent, nothing is received, no local
call is made), the session state `_sockfd`, `min_fd`, `opened_fd` is unchanged, and
`getdirentries` leaves the caller's buffer and `*basep` alone. -/
theorem preflight_failure (fuel : Nat) (w : world) (s : client_state) (fd offset whence : Int)
    (buf : List Byte) (nbytes : Nat) (basep : Int) (h : s.opened_fd = 0) :
    lseek fuel w s fd offset whence
      = .ok (-1, { _sockfd := s._sockfd, min_fd := s.min_fd, opened_fd := s.opened_fd,
                   errno := EBADF }, w)
    ∧ getdirentries fuel w s fd buf nbytes basep
      = .ok (-1, buf, basep, { _sockfd := s._sockfd, min_fd := s.min_fd,
                               opened_fd := s.opened_fd, errno := EBADF }, w)
    ∧ EBADF = 9 :=
  ⟨lseek_preflight _ _ _ _ _ _ h, getdirentries_preflight _ _ _ _ _ _ _ h, rfl⟩

/-- C16, instance (S4): `lseek(1000, 0, SEEK_SET)` in the state `_init` leaves returns -1 with
`errno = EBADF`, and the log of the surroundings stays empty. -/
theorem preflight_failure_witness :
    lseek 0 (world_with 1 1 []) initial_state 1000 0 0
      = .ok (-1, { _sockfd := 3, min_fd := INT_MAX, opened_fd := 0, errno := EBADF },
          world_with 1 1 [])
    ∧ getdirentries 0 (world_with 1 1 []) initial_state 1000 [] 0 0
      = .ok (-1, [], 0, { _sockfd := 3, min_fd := INT_MAX, opened_fd := 0, errno := EBADF },
          world_with 1 1 [])
    ∧ EBADF = 9 :=
  preflight_failure 0 (world_with 1 1 []) initial_state 1000 0 0 [] 0 0 rfl

/-- C18 (the code departs from the claim). The stub `getdirtree` never returns `NULL`: a call
that returns, in any surroundings, returns the node it allocated; and in surroundings that
cooperate and answer a path of at most 4083 characters with a response of size 0 (the error
case), the call returns that node, still uninitialised, with `errno` set to the `err_no` of the
response. -/
theorem getdirtree_error_returns_node (fuel : Nat) (w : world) (s : client_state)
    (path : List Byte) (resp : rpc_resp) (n : Nat) (hstr : strlen path = some n)
    (hn : n ≤ 4083) (hans : answers w s resp) (hsize : resp.size = 0)
    (hfuel : resp.size + 8300 ≤ fuel) :
    (∃ w1, getdirtree fuel w s path
        = .ok (dirtree_ptr.node none,
            { s with _sockfd := session_socket w s, errno := resp.err_no }, w1))
    ∧ (∀ p s1 w1, getdirtree fuel w s path = .ok (p, s1, w1) → p ≠ dirtree_ptr.null) := by
  constructor
  · obtain ⟨w1, _, _, h⟩ := getdirtree_remote_ok fuel w s path resp n (.mk [] 0 []) hstr hn hans
      (fun h0 => absurd hsize (by omega)) hfuel
    rw [if_neg (by omega : ¬ 0 < resp.size), if_pos hsize] at h
    exact ⟨w1, h⟩
  · intro p s1 w1 h
    exact (getdirtree_returns _ _ _ _ _ _ _ h).2.2

/-- C18, instance: `getdirtree("/x")` answered with `err_no = 2` and no tree returns a node,
not `NULL`, and sets `errno` to 2. -/
theorem getdirtree_error_returns_node_witness :
    (∃ w1, getdirtree 9000 (world_with 1 1 (response_stream ⟨2, 0, []⟩)) initial_state
        [47, 120, 0]
        = .ok (dirtree_ptr.node none, { initial_state with errno := 2 }, w1))
    ∧ (∀ p s1 w1, getdirtree 9000 (world_with 1 1 (response_stream ⟨2, 0, []⟩)) initial_state
        [47, 120, 0] = .ok (p, s1, w1) → p ≠ dirtree_ptr.null) :=
  getdirtree_error_returns_node 9000 (world_with 1 1 (response_stream ⟨2, 0, []⟩))
    initial_state [47, 120, 0] ⟨2, 0, []⟩ 2 rfl (by decide)
    (answers_world_with 1 1 _ _ (by decide) (by decide) (by decide) (by decide) rfl
      (by decide)) rfl (by decide)

/-- C19. The function `send_all` transmits the length-prefixed message completely: for every
byte string `data` of length `n` with `0 < n < 2 ^ 31` and every transport whose `send` call
takes between 1 and the requested number of bytes (every `accept i` is at least 1), `send_all`
returns for every bound `fuel ≥ n + MAXMSGLEN + 1` on the iterations (the loops terminate); the
events after the hand-over of `data` are `send` calls on `sockfd`, each asking for between 1 and
`MAXMSGLEN` (4096) bytes, and the bytes the transport took are, in order, the 4-byte
little-endian encoding of `n` followed by `data`.  The client copy and the server copy of
`send_all` are this one function. -/
theorem send_all_transmits (w : world) (sockfd : Int) (data : List Byte) (n fuel : Nat)
    (hlen : data.length = n) (hpos : 0 < n) (hn : n < 2 ^ 31)
    (haccept : ∀ i, 1 ≤ w.accept i) (hfuel : n + MAXMSGLEN + 1 ≤ fuel) :
    ∃ evs, send_all fuel w sockfd data n
        = .ok { w with sends := w.sends + evs.length,
                       log := w.log ++ .send_all sockfd data :: evs }
      ∧ wire evs = le_bytes 4 n ++ data
      ∧ (∀ e ∈ evs, is_bounded_send sockfd e = true) := by
  obtain ⟨evs, h, hw, hb⟩ := send_all_ok fuel w sockfd data n (le_of_eq hlen.symm) hpos hfuel
    haccept
  have ht : data.take n = data := by
    rw [← hlen, List.take_length]
  rw [ht] at h hw
  refine ⟨evs, h, ?_, hb⟩
  rw [hw, to_i32_of_lt hn, to_u32_natCast (by omega)]

/-- Witness of C19: the 65536-byte write of scenario S6 over a transport that takes at most
1000 bytes per `send`. -/
theorem send_all_transmits_witness :
    ∃ evs, send_all (65536 + MAXMSGLEN + 1) (world_with 1000 4096 []) 3
          (List.replicate 65536 7) 65536
        = .ok { world_with 1000 4096 [] with
                  sends := (world_with 1000 4096 []).sends + evs.length,
                  log := (world_with 1000 4096 []).log
                    ++ .send_all 3 (List.replicate 65536 7) :: evs }
      ∧ wire evs = le_bytes 4 65536 ++ List.replicate 65536 7
      ∧ (∀ e ∈ evs, is_bounded_send 3 e = true) :=
  send_all_transmits (world_with 1000 4096 []) 3 (List.replicate 65536 7) 65536
    (65536 + MAXMSGLEN + 1) (List.length_replicate _ _) (by decide) (by decide)
    (fun _ => (by decide : (1 : Int) ≤ 1000)) (le_refl _)

/-- C20 (counterexample to the claim as stated). A payload of 2^31 bytes preceded by its
4-byte length, delivered in reads of up to 4096 bytes: the length is read back as the `int`
-2^31, and both the receive routine of the client and that of the server end the process
instead of yielding the payload. -/
theorem recv_frame_length_overflow_counterexample :
    (List.replicate (2 ^ 31) (7 : Byte)).length = 2 ^ 31
    ∧ send_request_recv (2 ^ 31 + 5)
        (world_with 1 4096 (le_bytes 4 (2 ^ 31) ++ List.replicate (2 ^ 31) 7)) 3
      = .error .fatal
    ∧ handle_session_recv (2 ^ 31 + 5)
        (world_with 1 4096 (le_bytes 4 (2 ^ 31) ++ List.replicate (2 ^ 31) 7)) 4
        (malloc MAXMSGLEN)
      = .error .fatal :=
  ⟨List.length_replicate _ _,
    send_request_recv_negative _ _ _ (2 ^ 31) _ (le_refl _) (by norm_num)
      (by rw [List.length_replicate]; norm_num) rfl (by omega)
      (fun _ => (by decide : (1 : Int) ≤ 4096)),
    handle_session_recv_negative _ _ _ _ (2 ^ 31) _ (List.length_replicate _ _) (le_refl _)
      (by norm_num) (by rw [List.length_replicate]; norm_num) rfl (by omega)
      (fun _ => (by decide : (1 : Int) ≤ 4096))⟩

/-- C20 (amended). Frame reassembly: for every payload of length `n` with `0 < n < 2^31` and
every way of delivering the byte stream (the 4-byte length `n`, then the payload) as a sequence
of non-empty `recv` results (every `recv` hands over at least one byte and at most what was
asked for), the receive routine of the client (`send_request`) and the one of the server
(`handle_session`, entered with any 4096-byte array) return a frame equal to the payload, of
exactly `n` bytes, having consumed the whole stream; `n + 5` iterations suffice. -/
theorem recv_frame_reassembles (fuel : Nat) (w : world) (sockfd : Int)
    (buf payload : List Byte) (n : Nat) (hbuf : buf.length = MAXMSGLEN)
    (hpay : payload.length = n) (hpos : 0 < n) (hn : n < 2 ^ 31)
    (hinc : w.incoming = le_bytes 4 n ++ payload) (hdel : ∀ i, 1 ≤ w.deliver i)
    (hfuel : n + 5 ≤ fuel) :
    (∃ w1 : world, send_request_recv fuel w sockfd = .ok (payload, w1) ∧ w1.incoming = [])
    ∧ (∃ (buf1 : List Byte) (w1 : world),
        handle_session_recv fuel w sockfd buf = .ok (some payload, buf1, w1)
        ∧ w1.incoming = [])
    ∧ payload.length = n :=
  ⟨send_request_recv_ok fuel w sockfd n payload hpos hn hpay hinc hfuel hdel,
    handle_session_recv_ok fuel w sockfd buf n payload hbuf hpos hn hpay hinc hfuel hdel, hpay⟩

/-- C20, instance: six payload bytes whose stream arrives three bytes at a time, so that the
second read straddles the length prefix and the payload. -/
theorem recv_frame_reassembles_witness :
    (∃ w1 : world,
        send_request_recv 11 (world_with 1 3 (le_bytes 4 6 ++ [1, 2, 3, 4, 5, 6])) 3
          = .ok ([1, 2, 3, 4, 5, 6], w1) ∧ w1.incoming = [])
    ∧ (∃ (buf1 : List Byte) (w1 : world),
        handle_session_recv 11 (world_with 1 3 (le_bytes 4 6 ++ [1, 2, 3, 4, 5, 6])) 3
          (malloc MAXMSGLEN) = .ok (some [1, 2, 3, 4, 5, 6], buf1, w1)
        ∧ w1.incoming = [])
    ∧ ([1, 2, 3, 4, 5, 6] : List Byte).length = 6 :=
  recv_frame_reassembles 11 (world_with 1 3 (le_bytes 4 6 ++ [1, 2, 3, 4, 5, 6])) 3
    (malloc MAXMSGLEN) [1, 2, 3, 4, 5, 6] 6 (List.length_replicate _ _) rfl (by decide)
    (by decide) rfl (fun _ => (by decide : (1 : Int) ≤ 3)) (by decide)

/-- C21 (counterexample to the claim as stated). In the server, a first read of a round that
returns 0, the stream having ended before any byte of a length prefix arrived, is not a fatal
error: the round ends the session loop normally, without a frame. -/
theorem handle_session_end_of_stream_counterexample :
    (world_with 1 1 []).incoming = []
      ∧ handle_session_recv 5 (world_with 1 1 []) 4 (malloc MAXMSGLEN)
        = .ok (none, malloc MAXMSGLEN,
            { world_with 1 1 [] with recvs := 1, log := [io_event.recv 4 MAXMSGLEN 0] })
      ∧ handle_session_recv 5 (world_with 1 1 []) 4 (malloc MAXMSGLEN) ≠ .error .fatal := by
  have h := handle_session_recv_end_of_stream 5 (world_with 1 1 []) 4 (malloc MAXMSGLEN)
    (by decide) rfl
  refine ⟨rfl, h, ?_⟩
  rw [h]
  intro hne
  cases hne

/-- C21 (amended). A read that reports an error ends the receive routine with the fatal
transport error, and no frame is returned: in the loop that completes the 4-byte prefix and in
the loop that reads the payload, which the client (`send_request`) and the server
(`handle_session`) share, and at the first read of a round of the server.  A frame, or the end
of a round of the server, is returned only when none of these reads reported an error.  A first
read of a server round that returns 0 because the stream has ended is not an error: it ends the
session loop without a frame.  Nothing is said here about the first read of the client and
about a stream that ends in the middle of a frame.  The last but two conjuncts follow a run
from its start: the first read hands over fewer than four bytes and the second one fails. -/
theorem read_error_is_fatal (fuel : Nat) (w : world) (sockfd : Int) (buf data : List Byte)
    (received : Int) (off : Nat) (frame_size : Int)
    (herr : w.deliver w.recvs < 0) (hbuf : buf.length = MAXMSGLEN) :
    (to_u64 received < 4 →
        recv_prefix_loop (fuel + 1) w sockfd buf received = .error .fatal)
      ∧ (off < to_u64 frame_size →
        recv_payload_loop (fuel + 1) w sockfd buf data off frame_size = .error .fatal)
      ∧ handle_session_recv fuel w sockfd buf = .error .fatal
      ∧ (∀ (fuel2 : Nat) (v : world) (b : List Byte) (rv : Int)
          (r : List Byte × List Byte × world),
          recv_frame_rest fuel2 v sockfd b rv = .ok r → reads_succeeded v r.2.2)
      ∧ (∀ (fuel2 : Nat) (v : world) (r : List Byte × world),
          send_request_recv fuel2 v sockfd = .ok r →
          r.2.deliver = v.deliver ∧ v.recvs + 1 ≤ r.2.recvs
            ∧ ∀ i, v.recvs + 1 ≤ i → i < r.2.recvs → 0 ≤ v.deliver i)
      ∧ (∀ (fuel2 : Nat) (v : world) (b : List Byte)
          (r : Option (List Byte) × List Byte × world),
          handle_session_recv fuel2 v sockfd b = .ok r →
          reads_succeeded v r.2.2 ∧ v.recvs + 1 ≤ r.2.2.recvs)
      ∧ (∀ v : world, 0 ≤ v.deliver v.recvs →
          min (min (v.deliver v.recvs).toNat MAXMSGLEN) v.incoming.length < 4 →
          v.deliver (v.recvs + 1) < 0 →
          send_request_recv (fuel + 1) v sockfd = .error .fatal)
      ∧ (∀ v : world, 0 ≤ v.deliver v.recvs →
          0 < min (min (v.deliver v.recvs).toNat MAXMSGLEN) v.incoming.length →
          min (min (v.deliver v.recvs).toNat MAXMSGLEN) v.incoming.length < 4 →
          v.deliver (v.recvs + 1) < 0 →
          handle_session_recv (fuel + 1) v sockfd buf = .error .fatal)
      ∧ (∀ (v : world) (b : List Byte), 0 ≤ v.deliver v.recvs → v.incoming = [] →
          handle_session_recv fuel v sockfd b
            = .ok (none, b, { v with recvs := v.recvs + 1,
                                     log := v.log ++ [io_event.recv sockfd MAXMSGLEN 0] })) :=
  ⟨fun h => recv_prefix_loop_read_error fuel w sockfd buf received herr
      (by rw [hbuf]; decide) h,
    fun h => recv_payload_loop_read_error fuel w sockfd buf data off frame_size herr h,
    handle_session_recv_read_error fuel w sockfd buf herr,
    fun fuel2 v b rv r h => recv_frame_rest_reads fuel2 v sockfd b rv r h,
    fun fuel2 v r h => send_request_recv_reads fuel2 v sockfd r h,
    fun fuel2 v b r h => handle_session_recv_reads fuel2 v sockfd b r h,
    fun v h0 hk h1 => send_request_recv_second_read_error fuel v sockfd h0 hk h1,
    fun v h0 hp hk h1 => handle_session_recv_second_read_error fuel v sockfd buf hbuf h0 hp hk h1,
    fun v b h hinc => handle_session_recv_end_of_stream fuel v sockfd b h hinc⟩

/-- Witness of C21 (amended): surroundings in which every read fails; the prefix loop entered
with two bytes received, the payload loop entered with three of eight bytes, and the first
read of a server round all end the process. -/
theorem read_error_is_fatal_witness :
    recv_prefix_loop (0 + 1) { world_with 1 1 [] with deliver := fun _ => -1 } 4
        (malloc MAXMSGLEN) 2 = .error .fatal
      ∧ recv_payload_loop (0 + 1) { world_with 1 1 [] with deliver := fun _ => -1 } 4
        (malloc MAXMSGLEN) (malloc 8) 3 8 = .error .fatal
      ∧ handle_session_recv 0 { world_with 1 1 [] with deliver := fun _ => -1 } 4
        (malloc MAXMSGLEN) = .error .fatal :=
  ⟨(read_error_is_fatal 0 { world_with 1 1 [] with deliver := fun _ => -1 } 4
      (malloc MAXMSGLEN) (malloc 8) 2 3 8 (by decide) (List.length_replicate _ _)).1
      (by decide),
    (read_error_is_fatal 0 { world_with 1 1 [] with deliver := fun _ => -1 } 4
      (malloc MAXMSGLEN) (malloc 8) 2 3 8 (by decide) (List.length_replicate _ _)).2.1
      (by decide),
    (read_error_is_fatal 0 { world_with 1 1 [] with deliver := fun _ => -1 } 4
      (malloc MAXMSGLEN) (malloc 8) 2 3 8 (by decide) (List.length_replicate _ _)).2.2.1⟩

/-- C23. Directory-tree wire layout: for every finite tree (names C strings, `num_subdirs` the
number of children) and every buffer with room from the start offset on, `mem_write_tree`
returns the buffer that holds, from the start offset, the records of the nodes in depth-first
preorder (a node, then the nodes of its children, child by child in index order), each record
being `num_subdirs` in 4 bytes, `strlen(name) + 1` in 8 bytes and the name with its terminating
zero; the bytes before and after are untouched, and the returned offset is the start offset
plus the sum over all nodes of `4 + 8 + strlen(name) + 1`. -/
theorem mem_write_tree_preorder_layout (t : dirtreenode) (buf : List Byte) (off : Nat)
    (hwf : well_formed t = true)
    (hcap : off + ((preorder t).map node_size).sum ≤ buf.length) :
    mem_write_tree t buf off
        = some (buf.take off ++ ((preorder t).map node_record).flatten
            ++ buf.drop (off + ((preorder t).map node_size).sum),
          off + ((preorder t).map node_size).sum)
      ∧ (∀ name nsub subdirs, t = .mk name nsub subdirs →
          preorder t = t :: (subdirs.map preorder).flatten)
      ∧ (∀ node ∈ preorder t, ∃ n, name_strlen node = n ∧ node_size node = 4 + 8 + n + 1
          ∧ ∃ name nsub subdirs, node = .mk name nsub subdirs
            ∧ strlen name = some n ∧ name.length = n + 1 ∧ nsub = subdirs.length
            ∧ node_record node = le_bytes 4 nsub ++ le_bytes 8 (n + 1) ++ name) := by
  obtain ⟨h1, h2⟩ := tree_layout_preorder t hwf
  have hoff : off = (buf.take off).length := by
    rw [List.length_take]
    omega
  have hw := mem_write_tree_layout t buf (buf.take off) (buf.drop off) off hwf
    (List.take_append_drop off buf).symm hoff (by rw [List.length_drop]; omega)
  refine ⟨?_, ?_, ?_⟩
  · rw [hw, List.drop_drop, h2, h1]
  · intro name nsub subdirs ht
    subst ht
    rw [preorder, preorder_all_eq]
  · intro node hnode
    have hwfn := well_formed_of_mem_preorder t hwf node hnode
    obtain ⟨name, nsub, subdirs⟩ := node
    obtain ⟨hstr, hlen, hnsub, _, _, _⟩ := well_formed_node hwfn
    obtain ⟨hr, hs⟩ := node_record_of_well_formed hwfn
    have hk : name_strlen (.mk name nsub subdirs) = name.length - 1 := by
      simp only [name_strlen, hstr, Option.getD_some]
    refine ⟨name.length - 1, hk, ?_, name, nsub, subdirs, rfl, hstr, by omega, hnsub, ?_⟩
    · rw [hs]
      omega
    · rw [hr, Nat.sub_add_cancel hlen]

/-- Witness of C23: the tree `a` with the children `b` and `c`, `c` with the child `d`, written
at offset 3 of a buffer of 64 bytes; four records of 14 bytes each, in the order a, b, c, d. -/
theorem mem_write_tree_preorder_layout_witness :
    mem_write_tree (.mk [97, 0] 2 [.mk [98, 0] 0 [], .mk [99, 0] 1 [.mk [100, 0] 0 []]])
        (List.replicate 64 0) 3
      = some ([0, 0, 0,
          2, 0, 0, 0, 2, 0, 0, 0, 0, 0, 0, 0, 97, 0,
          0, 0, 0, 0, 2, 0, 0, 0, 0, 0, 0, 0, 98, 0,
          1, 0, 0, 0, 2, 0, 0, 0, 0, 0, 0, 0, 99, 0,
          0, 0, 0, 0, 2, 0, 0, 0, 0, 0, 0, 0, 100, 0,
          0, 0, 0, 0, 0], 3 + 56) :=
  (mem_write_tree_preorder_layout
    (.mk [97, 0] 2 [.mk [98, 0] 0 [], .mk [99, 0] 1 [.mk [100, 0] 0 []]])
    (List.replicate 64 0) 3 (by decide) (by decide)).1.trans (by decide)

/-- C24. The fixed-size response buffers of the server can be overrun.  Whenever `getdirentries`
answers `n > 4080` (within the `nbytes` of the request), the third write of `do_getdirentries`,
`n` bytes at offset 16, does not fit its data buffer of `MAXMSGLEN` = 4096 bytes and the
handler has no defined result, while for `0 < n ≤ 4080` the response has `16 + n` bytes; and
there is a finite tree, a root with 3000 children, whose 42014 bytes exceed the `MAXTREESIZE` =
40960 bytes of the data buffer of `do_dirtreenode`, so that `mem_write_tree` runs out of the
buffer there, as it does for every tree whose layout exceeds `MAXTREESIZE`. -/
theorem response_buffers_can_be_overrun (os : server_os) (fd basep : Int) (nbytes op : Nat)
    (hlo : INT_MIN ≤ fd) (hhi : fd ≤ INT_MAX) (hblo : -2 ^ 63 ≤ basep) (hbhi : basep < 2 ^ 63)
    (hnbytes : nbytes < 2 ^ 63)
    (hr : 4080 < (os.sys_getdirentries (unpack_fd fd) (malloc nbytes) nbytes basep).1)
    (hn : (os.sys_getdirentries (unpack_fd fd) (malloc nbytes) nbytes basep).1 ≤ nbytes) :
    MAXMSGLEN = 4096 ∧ MAXTREESIZE = 40960
      ∧ do_getdirentries os ⟨op, 20, le_bytes 4 (to_u32 fd) ++ le_bytes 8 (to_u64 basep)
          ++ le_bytes 8 nbytes⟩ = none
      ∧ (∀ (r errno : Int) (buf : List Byte) (bp : Int), 4080 < r → r < 2 ^ 63 →
          do_getdirentries_response r errno buf bp = none)
      ∧ (∀ (r errno : Int) (buf : List Byte) (bp : Int), 0 < r → r ≤ 4080 →
          r.toNat ≤ buf.length →
          ∃ data, do_getdirentries_response r errno buf bp = some ⟨errno, 16 + r.toNat, data⟩
            ∧ data.length = MAXMSGLEN
            ∧ data.take (16 + r.toNat)
              = le_bytes 8 (to_u64 r) ++ le_bytes 8 (to_u64 bp) ++ buf.take r.toNat)
      ∧ (∀ (t : dirtreenode) (errno : Int), well_formed t = true →
          MAXTREESIZE < ((preorder t).map node_size).sum →
          mem_write_tree t (malloc MAXTREESIZE) 0 = none
            ∧ do_dirtreenode_response (some t) errno = none
            ∧ ∀ buf, ((preorder t).map node_size).sum ≤ buf.length →
                ∃ buf2, mem_write_tree t buf 0 = some (buf2, ((preorder t).map node_size).sum))
      ∧ ∃ t : dirtreenode, well_formed t = true
          ∧ ((preorder t).map node_size).sum = 42014
          ∧ ∀ errno op2 size, do_dirtreenode (fun _ => (some t, errno))
              ⟨op2, size, le_bytes 4 2 ++ [47, 0]⟩ = none := by
  have hwide := wide_tree_well_formed
  have htree : ∀ (t : dirtreenode) (errno : Int), well_formed t = true →
      MAXTREESIZE < ((preorder t).map node_size).sum →
      mem_write_tree t (malloc MAXTREESIZE) 0 = none
        ∧ do_dirtreenode_response (some t) errno = none
        ∧ ∀ buf, ((preorder t).map node_size).sum ≤ buf.length →
            ∃ buf2, mem_write_tree t buf 0 = some (buf2, ((preorder t).map node_size).sum) := by
    intro t errno hwf hbig
    rw [← (tree_layout_preorder t hwf).2] at hbig ⊢
    refine ⟨mem_write_tree_no_room t _ 0 hwf (by rw [malloc_length]; omega),
      do_dirtreenode_response_no_room t errno hwf hbig, ?_⟩
    intro buf hbuf
    obtain ⟨buf2, h2, _⟩ := mem_write_tree_length hwf
      (show 0 + (tree_layout t).length ≤ buf.length by omega)
    rw [Nat.zero_add] at h2
    exact ⟨buf2, h2⟩
  refine ⟨rfl, rfl, ?_, ?_, ?_, htree, _, hwide.1, ?_, ?_⟩
  · rw [do_getdirentries_eq os fd basep nbytes op hlo hhi hblo hbhi (by omega)]
    exact do_getdirentries_response_no_room _ _ _ _ hr (by omega)
  · intro r errno buf bp h1 h2
    exact do_getdirentries_response_no_room r errno buf bp h1 h2
  · intro r errno buf bp h0 h1 h2
    exact do_getdirentries_response_fits r errno buf bp h0 h1 h2
  · rw [← (tree_layout_preorder _ hwide.1).2]
    exact hwide.2
  · intro errno op2 size
    have h := do_dirtreenode_eq (fun _ => (some (.mk [47, 0] 3000
      (List.replicate 3000 (.mk [97, 0] 0 []))), errno)) [47, 0] op2 size (by decide)
    exact h.trans (do_dirtreenode_response_no_room _ errno hwide.1 (by rw [hwide.2]; decide))

/-- Witness of C24: a file system whose `getdirentries` fills 4081 of the 5000 bytes asked
for. -/
theorem response_buffers_can_be_overrun_witness :
    do_getdirentries
        { os_echo with sys_getdirentries := fun _ buf _ basep => (4081, 0, buf, basep) }
        ⟨6, 20, le_bytes 4 (to_u32 1003) ++ le_bytes 8 (to_u64 0) ++ le_bytes 8 5000⟩ = none :=
  (response_buffers_can_be_overrun
    { os_echo with sys_getdirentries := fun _ buf _ basep => (4081, 0, buf, basep) }
    1003 0 5000 6 (by decide) (by decide) (by decide) (by decide) (by decide) (by decide)
    (by decide)).2.2.1

/-- C25 (the code departs from the claim). In the remote `write` stub the payload buffer of
`count + sizeof(int) + sizeof(size_t)` bytes holds what `call_write_marshal` writes, `count + 12`
bytes, but the frame buffer of `count + sizeof(rpc_frame) = count + 16` bytes does not hold the
frame: for every buffer holding the `count` bytes to write (`count + 12 < 2^32`),
`marshal_frame` has `8 + payload_size = count + 20` bytes to write, four more than the
allocation, and its copy of the payload leaves the buffer. -/
theorem write_frame_buffer_too_small (fd : Int) (buf : List Byte) (count : Nat)
    (hbuf : count ≤ buf.length) (hc : count + 12 < 2 ^ 32) :
    ∃ payload, call_write_marshal (malloc ((count + 4 + 8) % 2 ^ 64)) fd buf count
        = some (payload, 12 + count)
      ∧ payload.length = count + 12
      ∧ (malloc ((count + 16) % 2 ^ 64)).length = count + 16
      ∧ 8 + (12 + count) % 2 ^ 32 = count + 20
      ∧ marshal_frame (malloc ((count + 16) % 2 ^ 64)) ⟨OP_WRITE, (12 + count) % 2 ^ 32, payload⟩
        = none := by
  have h1 := call_write_marshal_eq (malloc ((count + 4 + 8) % 2 ^ 64)) buf fd count hbuf
    (by rw [malloc_length]; omega)
  refine ⟨_, h1, ?_, ?_, ?_, ?_⟩
  · simp only [List.length_append, le_bytes_length, List.length_take, List.length_drop,
      malloc_length]
    omega
  · rw [malloc_length]
    omega
  · omega
  · exact marshal_frame_overrun _ _ (by rw [malloc_length]; dsimp only; omega)

/-- C25, instance: `write(1003, "a", 1)`: the frame has 21 bytes, the frame buffer 17. -/
theorem write_frame_buffer_too_small_witness :
    ∃ payload, call_write_marshal (malloc ((1 + 4 + 8) % 2 ^ 64)) 1003 [97] 1
        = some (payload, 12 + 1)
      ∧ payload.length = 1 + 12
      ∧ (malloc ((1 + 16) % 2 ^ 64)).length = 1 + 16
      ∧ 8 + (12 + 1) % 2 ^ 32 = 1 + 20
      ∧ marshal_frame (malloc ((1 + 16) % 2 ^ 64)) ⟨OP_WRITE, (12 + 1) % 2 ^ 32, payload⟩
        = none :=
  write_frame_buffer_too_small 1003 [97] 1 (by decide) (by decide)

/-- C26 (the code departs from the claim at `r = -1`). When the `read` of the server fails,
`do_read` allocates the response data with `r + sizeof(ssize_t)` bytes computed in `size_t`,
that is 7 bytes, and then copies the 8 bytes of `r` into it: the copy leaves the allocation.
For every other result, `0 <= r <= count` with the `r` bytes read in `buf`, the buffer of
`8 + r` bytes is exactly what is written and `resp->size = 8 + r`. -/
theorem do_read_error_overruns_data (errno : Int) (buf : List Byte) :
    (malloc ((to_u64 (-1) + 8) % 2 ^ 64)).length = 7
    ∧ do_read_response (-1) errno buf = none
    ∧ (∀ r : Int, 0 ≤ r → r.toNat ≤ buf.length → r + 8 < 2 ^ 32 →
        (malloc ((to_u64 r + 8) % 2 ^ 64)).length = 8 + r.toNat
        ∧ do_read_response r errno buf
          = some ⟨errno, 8 + r.toNat, le_bytes 8 r.toNat ++ buf.take r.toNat⟩) := by
  refine ⟨?_, do_read_response_negative errno buf, ?_⟩
  · rw [malloc_length, to_u64_neg_one]
    norm_num
  · intro r h0 hr h32
    refine ⟨?_, do_read_response_fits r errno buf h0 hr h32⟩
    rw [malloc_length, to_u64_toNat r h0 (by omega), Nat.mod_eq_of_lt (by omega)]
    omega

/-- C26, instance: a `read` request for descriptor 999, which `unpack_fd` turns into -1 and the
file system `os_echo` answers with -1, and a `read` request for descriptor 1003 answered with
3. -/
theorem do_read_error_overruns_data_witness :
    do_read os_echo ⟨OP_READ, 12, le_bytes 4 (to_u32 999) ++ le_bytes 8 10⟩ = none
    ∧ do_read_response (-1) 9 (malloc 10) = none
    ∧ do_read_response 3 0 (malloc 10) = some ⟨0, 8 + 3, le_bytes 8 3 ++ (malloc 10).take 3⟩ :=
  ⟨by decide, (do_read_error_overruns_data 9 (malloc 10)).2.1,
    ((do_read_error_overruns_data 0 (malloc 10)).2.2 3 (by decide) (by decide) (by decide)).2⟩

/-- C27 (the code departs from the claim). After `open` answered with descriptor 1003, a
`close` of 1003 answered with 0 brings the count back to 0 and closes the connection; a second
`close` of 1003, forwarded again because 1003 is not below `min_fd`, and answered with 0 again,
decrements the count once more: the state `_sockfd = 3, min_fd = 1003, opened_fd = -1` is
reachable by `open` and `close` calls alone, and in it no remote descriptor is open and the
connection made for the second `close` is left open. -/
theorem opened_fd_negative_reachable :
    reachable [1003] one_open_state
      ∧ (∃ w1, close 9000 (world_with 1 1 (response_stream ⟨0, 4, le_bytes 4 (to_u32 0)⟩))
          one_open_state 1003 = .ok (0, all_closed_state, w1))
      ∧ (∃ w1, close 9000 (world_with 1 1 (response_stream ⟨0, 4, le_bytes 4 (to_u32 0)⟩))
          all_closed_state 1003 = .ok (0, negative_count_state, w1))
      ∧ reachable [1003] negative_count_state
      ∧ negative_count_state.opened_fd = -1
      ∧ negative_count_state._sockfd = 3 :=
  ⟨reachable_one_open_state, close_one_open_state, close_all_closed_state,
    reachable_negative_count_state, rfl, rfl⟩

end TRFO
